import Mathlib

/-!
# pg-strom `src/next/exec.c`: a shallow embedding

Three parts of `exec.c` are embedded here:

* `pgstrom_receive_xpu_command` (the command framer) as a small-step machine over the
  local variables of the C function, driven by a script of `recv(2)` outcomes;
* `__fetchNextXpuCommand` / `pgstromExecTaskState` (the dispatch scheduler and the scan
  iterator);
* `pgstromBuildSessionInfo` (the session handshake serializer).

Declarations that live in `pg_strom.h` (not part of the sources at hand) are taken as
parameters: the block size, the layout of `XpuCommand`, the magic number.
-/

namespace PgStrom

/-! ## Part 1: the command framer `pgstrom_receive_xpu_command` -/

/-- A byte of the wire stream.  Contents are never interpreted except through the two
header readers of `XpuConfig`. -/
abbrev Byte := Nat

/-- What `exec.c` takes from `pg_strom.h` and from the build: `BLCKSZ`, the header size
`offsetof(XpuCommand, u)`, `XpuCommandMagicNumber`, the position of the fields `magic` and
`length` inside the header, and whether `NDEBUG` is defined when the file is compiled
(`assert` of `assert.h` then expands to nothing).  The two readers are only ever applied
to the first `hdrsz` bytes of a buffer. -/
structure XpuConfig where
  BLCKSZ : Nat
  hdrsz : Nat
  XpuCommandMagicNumber : Nat
  magic : List Byte → Nat
  length : List Byte → Nat
  NDEBUG : Bool

/-- The value of `MSG_DONTWAIT` (Linux). -/
def MSG_DONTWAIT : Nat := 64

/-- One outcome of `recv(2)` as the kernel may produce it: some bytes are available
(the call returns at most the requested number and leaves the rest queued), the peer has
closed the stream, or the call fails with `EINTR`, with `EAGAIN`/`EWOULDBLOCK`, or with
another errno. -/
inductive RecvOutcome where
  | data (bytes : List Byte)
  | eof
  | eintr
  | eagain
  | error (errno : Nat)
deriving DecidableEq, Repr

/-- Where the C variable `buffer` points: into `buffer_local` (at a byte offset) or into a
heap block obtained from `alloc_f` (identified by the ordinal of the `alloc_f` call). -/
inductive BufPtr where
  | loc (off : Nat)
  | heap (id : Nat) (off : Nat)
deriving DecidableEq, Repr

/-- Pointer arithmetic `buffer += n`. -/
def BufPtr.add : BufPtr → Nat → BufPtr
  | .loc o, n => .loc (o + n)
  | .heap i o, n => .heap i (o + n)

/-- Observable actions of one call: every `recv` (target pointer `buffer + offset` given as
`buffer` and `offset`, requested size, flags, bytes obtained), every `alloc_f` (size, and
the block returned, `none` for `NULL`), every `attach_f` (block and its content). -/
inductive RxEvent where
  | recv (buffer : BufPtr) (offset : Nat) (req : Nat) (flags : Nat) (got : List Byte)
  | alloc (sz : Nat) (res : Option Nat)
  | attach (id : Nat) (cmd : List Byte)
deriving DecidableEq, Repr

/-- Control points of `pgstrom_receive_xpu_command`: the head of the `for (;;)` loop (the
`recv` call), the label `next:`, and the three ways the call ends: `return v`, a failed
`assert` (the process aborts), or a `recv` that never returns because the script of
outcomes is exhausted. -/
inductive RxPC where
  | loop
  | next
  | ret (v : Int)
  | abort
  | blocked
deriving DecidableEq, Repr

/-- The local variables of `pgstrom_receive_xpu_command`.  `buf` holds the bytes
`buffer[0 .. offset)`, so the C variable `offset` is `buf.length`; `curr` is the heap
block being filled (`none` for `NULL`); `sock` is the script of future `recv` outcomes;
`nalloc` counts the `alloc_f` calls made; `trace` is the list of actions so far. -/
structure RxState where
  pc : RxPC
  buffer : BufPtr
  buf : List Byte
  bufsz : Nat
  recv_flags : Nat
  count : Nat
  curr : Option Nat
  nalloc : Nat
  sock : List RecvOutcome
  trace : List RxEvent
deriving DecidableEq, Repr

/-- The C variable `offset`. -/
def RxState.offset (st : RxState) : Nat := st.buf.length

/-- Label `restart:` (lines 245-250). -/
def rxRestart (cfg : XpuConfig) (st : RxState) : RxState :=
  { st with pc := .loop, buffer := .loc 0, bufsz := 2 * cfg.BLCKSZ, buf := [],
            recv_flags := MSG_DONTWAIT, curr := none }

/-- What is left queued in the socket after a `recv` of `req` bytes found `bs`. -/
def sockAfter (bs : List Byte) (req : Nat) (rest : List RecvOutcome) : List RecvOutcome :=
  if bs.drop req = [] then rest else .data (bs.drop req) :: rest

/-- Lines 278-287: `recv` returned 0. -/
def rxEndOfStream (st : RxState) : RxState :=
  if st.curr.isSome ∨ 0 < st.buf.length then { st with pc := .ret (-1) }
  else { st with pc := .ret (Int.ofNat st.count) }

/-- Lines 289-347 for a `recv` that returned `got` (non-empty): `offset += nbytes`, then
either fall into `next:` (no heap block) or test the heap block for completion.  The two
`assert`s of lines 342-343 abort the call when they fail, unless `NDEBUG` removed them. -/
def rxGotBytes (cfg : XpuConfig) (st : RxState) (got : List Byte) : RxState :=
  let st1 := { st with buf := st.buf ++ got }
  match st.curr with
  | none => { st1 with pc := .next }
  | some id =>
    let hdr := st1.buf.take cfg.hdrsz
    if cfg.length hdr ≤ st1.buf.length then
      if cfg.NDEBUG = false ∧ cfg.magic hdr ≠ cfg.XpuCommandMagicNumber then
        { st1 with pc := .abort }
      else if cfg.NDEBUG = false ∧ cfg.length hdr ≠ st1.buf.length then
        { st1 with pc := .abort }
      else rxRestart cfg { st1 with trace := st1.trace ++ [.attach id st1.buf],
                                    count := st1.count + 1 }
    else st1

/-- One pass through the head of the `for (;;)` loop (lines 254-289): the `recv` call and
the dispatch on its result. -/
def rxRecvStep (cfg : XpuConfig) (st : RxState) : RxState :=
  let req := st.bufsz - st.buf.length
  let ev := fun got => RxEvent.recv st.buffer st.buf.length req st.recv_flags got
  match st.sock with
  | [] => { st with pc := .blocked }
  | .eintr :: rest => { st with sock := rest, trace := st.trace ++ [ev []] }
  | .eagain :: rest =>
    let st1 := { st with sock := rest, trace := st.trace ++ [ev []] }
    if st.curr.isNone ∧ st.buf.length = 0 then { st1 with pc := .ret (Int.ofNat st.count) }
    else { st1 with recv_flags := 0 }
  | .error _ :: rest =>
    { st with sock := rest, trace := st.trace ++ [ev []], pc := .ret (-1) }
  | .eof :: rest =>
    rxEndOfStream { st with sock := rest, trace := st.trace ++ [ev []] }
  | .data bs :: rest =>
    let got := bs.take req
    let st1 := { st with sock := sockAfter bs req rest, trace := st.trace ++ [ev got] }
    if got = [] then rxEndOfStream st1 else rxGotBytes cfg st1 got

/-- One pass through the label `next:` (lines 293-338).  `alloc_f sz` tells whether the
allocator succeeds for a request of `sz` bytes.  The `assert` of line 308 aborts the call
when it fails, unless `NDEBUG` removed it. -/
def rxNextStep (cfg : XpuConfig) (alloc_f : Nat → Bool) (st : RxState) : RxState :=
  if st.buf.length < cfg.hdrsz then
    let st1 := if st.buffer ≠ .loc 0
               then { st with buffer := .loc 0, bufsz := 2 * cfg.BLCKSZ } else st
    { st1 with recv_flags := 0, pc := .loop }
  else
    let hdr := st.buf.take cfg.hdrsz
    let len := cfg.length hdr
    if len ≤ st.buf.length then
      if cfg.NDEBUG = false ∧ cfg.magic hdr ≠ cfg.XpuCommandMagicNumber then
        { st with pc := .abort }
      else if alloc_f len = false then
        { st with trace := st.trace ++ [.alloc len none], pc := .ret (-1) }
      else
        let st1 := { st with
          trace := st.trace ++ [.alloc len (some st.nalloc), .attach st.nalloc (st.buf.take len)],
          nalloc := st.nalloc + 1, count := st.count + 1 }
        if len = st.buf.length then rxRestart cfg st1
        else { st1 with buffer := st.buffer.add len, buf := st.buf.drop len }
    else
      if alloc_f len = false then
        { st with trace := st.trace ++ [.alloc len none], pc := .ret (-1) }
      else
        { st with trace := st.trace ++ [.alloc len (some st.nalloc)],
                  nalloc := st.nalloc + 1, curr := some st.nalloc,
                  buffer := .heap st.nalloc 0, bufsz := len, recv_flags := 0, pc := .loop }

/-- One step of the machine.  A call that has ended stays where it is. -/
def rxStep (cfg : XpuConfig) (alloc_f : Nat → Bool) (st : RxState) : RxState :=
  match st.pc with
  | .loop => rxRecvStep cfg st
  | .next => rxNextStep cfg alloc_f st
  | _ => st

/-- Entry of the call: `count = 0`, then `restart:`. -/
def rxInit (cfg : XpuConfig) (sock : List RecvOutcome) : RxState :=
  rxRestart cfg { pc := .loop, buffer := .loc 0, buf := [], bufsz := 0, recv_flags := 0,
                  count := 0, curr := none, nalloc := 0, sock := sock, trace := [] }

/-- The machine after `n` steps. -/
def rxRun (cfg : XpuConfig) (alloc_f : Nat → Bool) (n : Nat) (st : RxState) : RxState :=
  (rxStep cfg alloc_f)^[n] st

/-- How a call of `pgstrom_receive_xpu_command` ends: the value returned (`none` when an
`assert` aborted the process), what it did, and what it left unread in the socket. -/
structure RxResult where
  ret : Option Int
  trace : List RxEvent
  sock : List RecvOutcome
deriving DecidableEq, Repr

/-- The result carried by a state in which the call has ended. -/
def rxResult (st : RxState) : Option RxResult :=
  match st.pc with
  | .ret v => some { ret := some v, trace := st.trace, sock := st.sock }
  | .abort => some { ret := none, trace := st.trace, sock := st.sock }
  | _ => none

/-- The call `pgstrom_receive_xpu_command(sockfd, alloc_f, attach_f, priv, label)` run for at most
`fuel` steps on the socket script `sock`; `none` when the call has not ended by then. -/
def pgstrom_receive_xpu_command (cfg : XpuConfig) (alloc_f : Nat → Bool) (fuel : Nat)
    (sock : List RecvOutcome) : Option RxResult :=
  rxResult (rxRun cfg alloc_f fuel (rxInit cfg sock))

/-- The commands handed to `attach_f`, in order, each with the block it lives in. -/
def attachesOf : List RxEvent → List (Nat × List Byte)
  | [] => []
  | .attach id c :: t => (id, c) :: attachesOf t
  | _ :: t => attachesOf t

/-- The commands handed to `attach_f`, in order. -/
def attachedCmds (tr : List RxEvent) : List (List Byte) := (attachesOf tr).map Prod.snd

/-- The `alloc_f` calls, in order: requested size and block returned. -/
def allocsOf : List RxEvent → List (Nat × Option Nat)
  | [] => []
  | .alloc sz r :: t => (sz, r) :: allocsOf t
  | _ :: t => allocsOf t

/-- Every byte obtained from the socket, in order. -/
def receivedBytes : List RxEvent → List Byte
  | [] => []
  | .recv _ _ _ _ got :: t => got ++ receivedBytes t
  | _ :: t => receivedBytes t

/-- The bytes a socket script still holds. -/
def sockBytes : List RecvOutcome → List Byte
  | [] => []
  | .data bs :: t => bs ++ sockBytes t
  | _ :: t => sockBytes t

/-- A command as the framer expects it: the magic is the sentinel, and the declared length
is its byte count and covers at least the header. -/
def WellFormedCmd (cfg : XpuConfig) (c : List Byte) : Prop :=
  cfg.magic (c.take cfg.hdrsz) = cfg.XpuCommandMagicNumber ∧
  cfg.length (c.take cfg.hdrsz) = c.length ∧ cfg.hdrsz ≤ c.length

instance (cfg : XpuConfig) (c : List Byte) : Decidable (WellFormedCmd cfg c) := by
  unfold WellFormedCmd
  exact inferInstance

/-- A small concrete layout used to run the machine: a two-byte header, `magic` in byte 0
(sentinel 7), `length` in byte 1, and `BLCKSZ = 2` (a four-byte local buffer); built with
the `assert`s in. -/
def tinyCfg : XpuConfig :=
  { BLCKSZ := 2, hdrsz := 2, XpuCommandMagicNumber := 7,
    magic := fun h => h.getD 0 0, length := fun h => h.getD 1 0, NDEBUG := false }

/-- The socket script `sock` starts with non-empty data chunks that together carry exactly
`bytes`, and continues with `rest`. -/
def Feeds (sock : List RecvOutcome) (bytes : List Byte) (rest : List RecvOutcome) : Prop :=
  ∃ chunks : List (List Byte), (∀ ch ∈ chunks, ch ≠ []) ∧ chunks.flatten = bytes ∧
    sock = chunks.map RecvOutcome.data ++ rest

/-- Every event of `ext` is a `recv` straight into heap block `id` (of `sz` bytes) at its
current fill level `off`, asking for the `sz - off` bytes still missing and obtaining a
non-empty part of them. -/
def HeapRecvs (id sz : Nat) (ext : List RxEvent) : Prop :=
  ∀ e ∈ ext, ∃ off fl got, e = RxEvent.recv (.heap id 0) off (sz - off) fl got ∧
    got ≠ [] ∧ off + got.length ≤ sz

/-- Every event of `ext` is a `recv` into `buffer_local` at its current fill level, asking
for the room that is left and obtaining at least one byte. -/
def LocalRecvs (cfg : XpuConfig) (ext : List RxEvent) : Prop :=
  ∀ e ∈ ext, ∃ off fl got, e = RxEvent.recv (.loc 0) off (2 * cfg.BLCKSZ - off) fl got ∧
    got ≠ [] ∧ off + got.length ≤ 2 * cfg.BLCKSZ

/-- The machine is between two commands: no heap block, and either at the `recv` call with
an empty local buffer (just after `restart:`) or at the label `next:`. -/
def Between (cfg : XpuConfig) (st : RxState) : Prop :=
  st.curr = none ∧ st.bufsz = 2 * cfg.BLCKSZ ∧
  ((st.pc = .loop ∧ st.buffer = .loc 0 ∧ st.buf = []) ∨ (st.pc = .next ∧ ∃ b, st.buffer = .loc b))

/-- What decoding the command `c` leaves behind, relative to the counters `cnt`, `na` and
the trace `tr` it started from: one more command counted, one `alloc_f` of `c.length`
bytes and one `attach_f` of that block with content `c`, the machine between two commands,
and the bytes `tail` still to come (in the buffer, then in the socket). -/
def DecodedOne (cfg : XpuConfig) (c tail : List Byte) (rest : List RecvOutcome)
    (cnt na : Nat) (tr : List RxEvent) (st' : RxState) : Prop :=
  Between cfg st' ∧ st'.count = cnt + 1 ∧ st'.nalloc = na + 1 ∧
  (∃ ext, st'.trace = tr ++ ext ∧ attachesOf ext = [(na, c)] ∧
    allocsOf ext = [(c.length, some na)]) ∧
  ∃ need', Feeds st'.sock need' rest ∧ st'.buf ++ need' = tail

/-- What a whole run over the commands `cmds` leaves behind, relative to the state it
started from: the call has returned `cnt + cmds.length`, the socket is drained, and the
trace has grown by one `alloc_f` and one `attach_f` per command, in order. -/
def DecodedAll (cmds : List (List Byte)) (cnt na : Nat) (tr : List RxEvent)
    (st' : RxState) : Prop :=
  st'.pc = .ret (Int.ofNat (cnt + cmds.length)) ∧ st'.sock = [] ∧
  ∃ ext, st'.trace = tr ++ ext ∧ attachesOf ext = cmds.enumFrom na ∧
    allocsOf ext = (cmds.enumFrom na).map (fun p => (p.2.length, some p.1))

/-- The invariant of a call fed with (a leading part of) the bytes of the well-formed
commands `cmds`, whatever the `recv` outcomes are: the commands attached so far are the
first `count` of `cmds`; the bytes obtained so far are those commands followed by the
buffer content; the buffer content followed by what the socket still holds is a leading
part of the remaining commands; a heap block under construction holds a header and is
sized to its `length` field; a non-negative return value is the count, with an empty
buffer; the label `next:` is only reached without a heap block; and no `assert` has failed. -/
def StreamInv (cfg : XpuConfig) (cmds : List (List Byte)) (st : RxState) : Prop :=
  st.count ≤ cmds.length ∧
  attachedCmds st.trace = cmds.take st.count ∧
  receivedBytes st.trace = (cmds.take st.count).flatten ++ st.buf ∧
  st.buf ++ sockBytes st.sock <+: (cmds.drop st.count).flatten ∧
  (∀ id, st.curr = some id → cfg.hdrsz ≤ st.buf.length ∧ st.buf.length < st.bufsz ∧
    st.bufsz = cfg.length (st.buf.take cfg.hdrsz)) ∧
  (∀ v, st.pc = .ret v → v = -1 ∨ (v = Int.ofNat st.count ∧ st.buf = [])) ∧
  (st.pc = .next → st.curr = none) ∧
  st.pc ≠ .abort

/-- Whether the next `recv` of the state returns 0: the peer has closed the stream, or no
byte is handed over (an empty chunk, or a request for zero bytes). -/
def recvReturnsZero (st : RxState) : Bool :=
  match st.sock with
  | .eof :: _ => true
  | .data bs :: _ => (bs.take (st.bufsz - st.buf.length)).isEmpty
  | _ => false

/-- The buffer never holds more than its size, and without a heap block the buffer is
`buffer_local`, of `2 * BLCKSZ` bytes. -/
def BufBound (cfg : XpuConfig) (st : RxState) : Prop :=
  st.buf.length ≤ st.bufsz ∧ (st.curr = none → st.bufsz = 2 * cfg.BLCKSZ)

/-- What decoding the commands `cmds` one after the other leaves behind, relative to the
counters `cnt`, `na` and the trace `tr` it started from: they are counted, each got one
`alloc_f` of its length and one `attach_f` of that block with its content, in order; the
machine is between two commands; the bytes `tail` are still to come. -/
def DecodedMany (cfg : XpuConfig) (cmds : List (List Byte)) (tail : List Byte)
    (rest : List RecvOutcome) (cnt na : Nat) (tr : List RxEvent) (st' : RxState) : Prop :=
  Between cfg st' ∧ st'.count = cnt + cmds.length ∧ st'.nalloc = na + cmds.length ∧
  (∃ ext, st'.trace = tr ++ ext ∧ attachesOf ext = cmds.enumFrom na ∧
    allocsOf ext = (cmds.enumFrom na).map (fun p => (p.2.length, some p.1))) ∧
  ∃ need', Feeds st'.sock need' rest ∧ st'.buf ++ need' = tail

/-- The call is still running: it stands at the `recv` call or at the label `next:`. -/
def RxRunning (st : RxState) : Prop := st.pc = .loop ∨ st.pc = .next

instance (st : RxState) : Decidable (RxRunning st) := by
  unfold RxRunning
  exact inferInstance

/-- What is left for a call to do, as a number that every step of a running call lowers:
three per byte still in the socket, one per `recv` outcome still to come, one per byte in
the buffer, and one for standing at `next:`. -/
def rxMeasure (st : RxState) : Nat :=
  3 * (sockBytes st.sock).length + st.sock.length + st.buf.length +
    (if st.pc = .next then 1 else 0)

/-- The precondition on the `length` field of the command the decoder is looking at: at
the label `next:` with a complete header in the buffer, the declared length is at least
the header size. -/
def DeclaredLengthOK (cfg : XpuConfig) (st : RxState) : Prop :=
  st.pc = .next → cfg.hdrsz ≤ st.buf.length → cfg.hdrsz ≤ cfg.length (st.buf.take cfg.hdrsz)

instance (cfg : XpuConfig) (st : RxState) : Decidable (DeclaredLengthOK cfg st) := by
  unfold DeclaredLengthOK
  exact inferInstance

/-- The script of `recv` outcomes ends in the outcome `o`. -/
def EndsIn (o : RecvOutcome) (sock : List RecvOutcome) : Prop := ∃ pre, sock = pre ++ [o]

/-- The last outcome of the script, a would-block, finds the decoder at a command
boundary: no heap block under construction and nothing in the buffer
(`curr == NULL && offset == 0`). -/
def BoundaryAtLastEagain (st : RxState) : Prop :=
  st.pc = .loop → st.sock = [.eagain] → st.curr = none ∧ st.buf = []

instance (st : RxState) : Decidable (BoundaryAtLastEagain st) := by
  unfold BoundaryAtLastEagain
  exact inferInstance

/-- No byte is lost: what the call has obtained from the socket followed by what the
socket still holds is the byte stream `total`; and at the `recv` call without a heap block
the buffer holds less than a header. -/
def ByteInv (cfg : XpuConfig) (total : List Byte) (st : RxState) : Prop :=
  receivedBytes st.trace ++ sockBytes st.sock = total ∧
  (st.pc = .loop → st.curr = none → st.buf.length < cfg.hdrsz)

/-- The number of steps within which a call on the script `sock` has ended. -/
def rxBound (sock : List RecvOutcome) : Nat := 3 * (sockBytes sock).length + sock.length + 1

/-! ## Part 2: the dispatch scheduler `__fetchNextXpuCommand` and the scan iterator -/

/-- An `XpuCommand` object as the scheduler sees it: only its identity matters. -/
abbrev XpuCmdRef := Nat

/-- What the scheduler takes from outside `exec.c`: the GUC `pg_strom.max_async_tasks`,
the code `ERRCODE_STROM_SUCCESS`, and whether PostgreSQL `Assert`s are compiled in. -/
structure SchedConfig where
  pgstrom_max_async_tasks : Int
  ERRCODE_STROM_SUCCESS : Nat
  USE_ASSERT_CHECKING : Bool

/-- The fields of `XpuConnection` that `exec.c` reads or writes (all under `conn->mutex`);
`errcode` is `errorbuf.errcode`. -/
structure XpuConnection where
  errcode : Nat
  num_running_cmds : Int
  num_ready_cmds : Int
  ready_cmds_list : List XpuCmdRef
  active_cmds_list : List XpuCmdRef
deriving DecidableEq, Repr

/-- The fields of `pgstromTaskState` used in `exec.c`, and `host` for everything else the
host keeps there (the callbacks receive the whole task state and may update it). -/
structure pgstromTaskState (H : Type) where
  scan_done : Bool
  final_done : Bool
  curr_resp : Option XpuCmdRef
  curr_index : Nat
  host : H
deriving DecidableEq, Repr

/-- The host callbacks stored in the task state.  `cb_final_chunk` may be `NULL`. -/
structure TaskCallbacks (H : Type) where
  cb_next_chunk : pgstromTaskState H → Option XpuCmdRef × pgstromTaskState H
  cb_final_chunk : Option (pgstromTaskState H → Option XpuCmdRef × pgstromTaskState H)
  cb_next_tuple : pgstromTaskState H → Option Nat × pgstromTaskState H

/-- What the receiver agent does to the connection, one action at a time. -/
inductive ReceiverAction where
  | ready (xcmd : XpuCmdRef)
  | error (errcode : Nat)
deriving DecidableEq, Repr

/-- Modelled from the spec: the receiver agent, whose code is not in `exec.c` (section 4.4,
Concurrency: it "moves commands from running into `ready_cmds_list`, decrementing `running`
and incrementing `ready`, under the same mutex"; section 3: the error slot holds "at most
one outstanding device/worker error"). -/
def receiverStep (cfg : SchedConfig) (conn : XpuConnection) : ReceiverAction → XpuConnection
  | .ready xcmd =>
    { conn with num_running_cmds := conn.num_running_cmds - 1,
                num_ready_cmds := conn.num_ready_cmds + 1,
                ready_cmds_list := conn.ready_cmds_list ++ [xcmd] }
  | .error e =>
    if conn.errcode = cfg.ERRCODE_STROM_SUCCESS then { conn with errcode := e } else conn

/-- Modelled from the spec: `xpuClientSendCommand`, whose code is not in `exec.c` (section
4.4, Submit: sending "increments `running`, tracked by the send path"). -/
def xpuClientSendCommand (conn : XpuConnection) (_xcmd : XpuCmdRef) : XpuConnection :=
  { conn with num_running_cmds := conn.num_running_cmds + 1 }

/-- The surroundings of one scheduler run: for each successive acquisition of
`conn->mutex`, what the receiver did since the mutex was last released; for each successive
`WaitLatch`, whether it reports `WL_POSTMASTER_DEATH`.  An exhausted list means that
nothing happens any more. -/
structure SchedEnv where
  ticks : List (List ReceiverAction)
  latch : List Bool
deriving DecidableEq, Repr

/-- Taking the mutex with `pthreadMutexLock`: the scheduler now sees what the receiver did
in the meantime. -/
def pthreadMutexLock (cfg : SchedConfig) (env : SchedEnv) (conn : XpuConnection) :
    XpuConnection × SchedEnv :=
  match env.ticks with
  | [] => (conn, env)
  | acts :: rest => (acts.foldl (receiverStep cfg) conn, { env with ticks := rest })

/-- The call `WaitLatch(MyLatch, WL_LATCH_SET | WL_TIMEOUT | WL_POSTMASTER_DEATH, 1000L, ..)`:
it always comes back (timeout); the result says whether the postmaster died. -/
def WaitLatch (env : SchedEnv) : Bool × SchedEnv :=
  match env.latch with
  | [] => (false, env)
  | d :: rest => (d, { env with latch := rest })

/-- The four branches of the main loop (lines 385-443). -/
inductive SchedAction where
  | submit
  | pickup
  | wait
  | sleep
deriving DecidableEq, Repr

/-- The branch chosen by the `if / else if` chain of lines 385-443; `/` on `int` truncates
toward zero. -/
def selectAction (cfg : SchedConfig) (conn : XpuConnection) : SchedAction :=
  if conn.num_running_cmds + conn.num_ready_cmds < cfg.pgstrom_max_async_tasks ∧
      (conn.ready_cmds_list = [] ∨
        conn.num_running_cmds < Int.tdiv cfg.pgstrom_max_async_tasks 2) then .submit
  else if conn.ready_cmds_list ≠ [] then .pickup
  else if conn.num_running_cmds > 0 then .wait
  else .sleep

/-- Where a command handed to `xpuClientSendCommand` came from. -/
inductive ChunkOrigin where
  | next_chunk
  | final_chunk
deriving DecidableEq, Repr

/-- What one scheduler run does, as seen from outside; callbacks and sends are recorded
with the value of `pts->scan_done` at that moment. -/
inductive SchedEvent where
  | cb_next (scan_done : Bool) (res : Option XpuCmdRef)
  | cb_final (scan_done : Bool) (res : Option XpuCmdRef)
  | send (origin : ChunkOrigin) (scan_done : Bool) (xcmd : XpuCmdRef)
  | wait
  | sleep
deriving DecidableEq, Repr

/-- How `__fetchNextXpuCommand` ends: `return xcmd` (`none` for `NULL`), `ereport(ERROR)`
with the code of the connection's error slot, `ereport(FATAL)` on postmaster death, or a
failed `Assert`. -/
inductive FetchResult where
  | ret (xcmd : Option XpuCmdRef)
  | error (errcode : Nat)
  | fatal
  | trap
deriving DecidableEq, Repr

/-- A run of `__fetchNextXpuCommand`: its result (`none` while it is still running when the
step budget is used up), the task state, connection and surroundings it leaves, and what
it did. -/
structure FetchOut (H : Type) where
  res : Option FetchResult
  pts : pgstromTaskState H
  conn : XpuConnection
  env : SchedEnv
  trace : List SchedEvent

/-- Lines 482-486 on the connection: the `Assert`, then the head of `ready_cmds_list` moves
to the tail of `active_cmds_list` and `num_ready_cmds` is decremented.  `none` when an
`Assert` fails (that of line 482, or the one inside `dlist_pop_head_node`). -/
def popReadyCommand (cfg : SchedConfig) (conn : XpuConnection) :
    Option (XpuCmdRef × XpuConnection) :=
  if cfg.USE_ASSERT_CHECKING = true ∧ ¬ (conn.num_ready_cmds > 0) then none
  else
    match conn.ready_cmds_list with
    | [] => none
    | xcmd :: rest =>
      some (xcmd, { conn with ready_cmds_list := rest,
                              active_cmds_list := conn.active_cmds_list ++ [xcmd],
                              num_ready_cmds := conn.num_ready_cmds - 1 })

/-- Label `pickup_ready_command:` (lines 481-489), mutex held. -/
def pickup_ready_command {H : Type} (cfg : SchedConfig) (pts : pgstromTaskState H)
    (conn : XpuConnection) (env : SchedEnv) (tr : List SchedEvent) : FetchOut H :=
  match popReadyCommand cfg conn with
  | none => ⟨some .trap, pts, conn, env, tr⟩
  | some (xcmd, conn1) => ⟨some (.ret (some xcmd)), pts, conn1, env, tr⟩

/-- The loop of lines 452-480 (`while (dlist_is_empty(&conn->ready_cmds_list))`), entered
with the mutex held, followed by `pickup_ready_command:`. -/
def drainLoop {H : Type} (cfg : SchedConfig) (cbs : TaskCallbacks H) :
    Nat → pgstromTaskState H → XpuConnection → SchedEnv → List SchedEvent → FetchOut H
  | 0, pts, conn, env, tr => ⟨none, pts, conn, env, tr⟩
  | fuel + 1, pts, conn, env, tr =>
    if conn.ready_cmds_list = [] then
      let waitAndRetry := fun (pts1 : pgstromTaskState H) (conn1 : XpuConnection)
          (tr1 : List SchedEvent) =>
        let w := WaitLatch env
        if w.1 = true then (⟨some .fatal, pts1, conn1, w.2, tr1 ++ [.wait]⟩ : FetchOut H)
        else
          let l := pthreadMutexLock cfg w.2 conn1
          drainLoop cfg cbs fuel pts1 l.1 l.2 (tr1 ++ [.wait])
      if conn.num_running_cmds > 0 then waitAndRetry pts conn tr
      else
        match cbs.cb_final_chunk with
        | none => ⟨some (.ret none), pts, conn, env, tr⟩
        | some cb =>
          if pts.final_done = true then ⟨some (.ret none), pts, conn, env, tr⟩
          else
            let r := cb pts
            match r.1 with
            | none => ⟨some (.ret none), r.2, conn, env, tr ++ [.cb_final pts.scan_done none]⟩
            | some xcmd =>
              waitAndRetry r.2 (xpuClientSendCommand conn xcmd)
                (tr ++ [.cb_final pts.scan_done (some xcmd),
                        .send .final_chunk r.2.scan_done xcmd])
    else pickup_ready_command cfg pts conn env tr

/-- The loop of lines 365-444 (`while (!pts->scan_done)`), each pass starting with
`pthreadMutexLock`, and its two exits: into the loop of lines 452-480 (after taking the
mutex at line 450) or to `pickup_ready_command:`. -/
def fetchLoop {H : Type} (cfg : SchedConfig) (cbs : TaskCallbacks H) :
    Nat → pgstromTaskState H → XpuConnection → SchedEnv → List SchedEvent → FetchOut H
  | 0, pts, conn, env, tr => ⟨none, pts, conn, env, tr⟩
  | fuel + 1, pts, conn, env, tr =>
    let l := pthreadMutexLock cfg env conn
    if pts.scan_done = true then drainLoop cfg cbs fuel pts l.1 l.2 tr
    else if l.1.errcode ≠ cfg.ERRCODE_STROM_SUCCESS then
      ⟨some (.error l.1.errcode), pts, l.1, l.2, tr⟩
    else
      match selectAction cfg l.1 with
      | .submit =>
        let r := cbs.cb_next_chunk pts
        match r.1 with
        | none =>
          let l2 := pthreadMutexLock cfg l.2 l.1
          drainLoop cfg cbs fuel { r.2 with scan_done := true } l2.1 l2.2
            (tr ++ [.cb_next pts.scan_done none])
        | some xcmd =>
          fetchLoop cfg cbs fuel r.2 (xpuClientSendCommand l.1 xcmd) l.2
            (tr ++ [.cb_next pts.scan_done (some xcmd), .send .next_chunk r.2.scan_done xcmd])
      | .pickup => pickup_ready_command cfg pts l.1 l.2 tr
      | .wait =>
        let w := WaitLatch l.2
        if w.1 = true then ⟨some .fatal, pts, l.1, w.2, tr ++ [.wait]⟩
        else fetchLoop cfg cbs fuel pts l.1 w.2 (tr ++ [.wait])
      | .sleep => fetchLoop cfg cbs fuel pts l.1 l.2 (tr ++ [.sleep])

/-- The call `__fetchNextXpuCommand(pts)` on the connection `conn = pts->conn`, run for at most
`fuel` passes through its loops. -/
def __fetchNextXpuCommand {H : Type} (cfg : SchedConfig) (cbs : TaskCallbacks H) (fuel : Nat)
    (pts : pgstromTaskState H) (conn : XpuConnection) (env : SchedEnv) : FetchOut H :=
  fetchLoop cfg cbs fuel pts conn env []

/-- How `pgstromExecTaskState` ends: `return slot` (`none` would be the `NULL` slot, the end
of the scan), or one of the ways `__fetchNextXpuCommand` fails. -/
inductive ExecResult where
  | ret (slot : Option Nat)
  | error (errcode : Nat)
  | fatal
  | trap
deriving DecidableEq, Repr

/-- A run of `pgstromExecTaskState`: its result (`none` while it is still running when the
step budget is used up) and the state it leaves. -/
structure ExecOut (H : Type) where
  res : Option ExecResult
  pts : pgstromTaskState H
  conn : XpuConnection
  env : SchedEnv

/-- Lines 504-505 and the jump back to the loop test: the result of
`__fetchNextXpuCommand` becomes `curr_resp`, `curr_index` is reset, and the loop goes on
(`again`); when `__fetchNextXpuCommand` does not return, neither does the caller. -/
def execAdopt {H : Type} (out : FetchOut H)
    (again : pgstromTaskState H → XpuConnection → SchedEnv → ExecOut H) : ExecOut H :=
  match out.res with
  | none => ⟨none, out.pts, out.conn, out.env⟩
  | some (.ret xcmd) => again { out.pts with curr_resp := xcmd, curr_index := 0 } out.conn out.env
  | some (.error e) => ⟨some (.error e), out.pts, out.conn, out.env⟩
  | some .fatal => ⟨some .fatal, out.pts, out.conn, out.env⟩
  | some .trap => ⟨some .trap, out.pts, out.conn, out.env⟩

/-- The call `pgstromExecTaskState(pts)` (lines 495-508), run for at most `fuel` passes through its
`while` loop, each call of `__fetchNextXpuCommand` getting the budget that is left.  The
loop is left only through `return slot` with the row `cb_next_tuple` has just produced. -/
def pgstromExecTaskState {H : Type} (cfg : SchedConfig) (cbs : TaskCallbacks H) :
    Nat → pgstromTaskState H → XpuConnection → SchedEnv → ExecOut H
  | 0 => fun pts conn env => ⟨none, pts, conn, env⟩
  | fuel + 1 => fun pts conn env =>
    match pts.curr_resp with
    | none =>
      execAdopt (__fetchNextXpuCommand cfg cbs fuel pts conn env)
        (pgstromExecTaskState cfg cbs fuel)
    | some _ =>
      let t := cbs.cb_next_tuple pts
      match t.1 with
      | some slot => ⟨some (.ret (some slot)), t.2, conn, env⟩
      | none =>
        execAdopt (__fetchNextXpuCommand cfg cbs fuel t.2 conn env)
          (pgstromExecTaskState cfg cbs fuel)

/-- The scheduler and the receiver as two agents taking turns on one connection.
`pending` says that the scheduler has left the mutex on a decision to submit (line 396 or
line 460) and has not called `xpuClientSendCommand` yet. -/
structure SchedState where
  conn : XpuConnection
  pending : Bool
deriving DecidableEq, Repr

/-- One atomic action on the connection: the scheduler decides to submit a chunk (the guard
of lines 385-388), decides to submit the terminal command (lines 452-460: no ready
command, none running), sends the command it decided on, drops the decision because the
callback produced nothing, picks up a ready command (lines 406-413 or the exit of the loop
of line 452, then lines 481-489); or the receiver acts. -/
inductive SchedStep (cfg : SchedConfig) : SchedState → SchedState → Prop where
  | decide_submit (s : SchedState) :
      s.pending = false → selectAction cfg s.conn = .submit →
      SchedStep cfg s { s with pending := true }
  | decide_final (s : SchedState) :
      s.pending = false → s.conn.ready_cmds_list = [] → ¬ (s.conn.num_running_cmds > 0) →
      SchedStep cfg s { s with pending := true }
  | send (s : SchedState) (xcmd : XpuCmdRef) :
      s.pending = true → SchedStep cfg s ⟨xpuClientSendCommand s.conn xcmd, false⟩
  | nothing_to_send (s : SchedState) :
      s.pending = true → SchedStep cfg s { s with pending := false }
  | pick_up (s : SchedState) (xcmd : XpuCmdRef) (conn1 : XpuConnection) :
      s.pending = false → s.conn.ready_cmds_list ≠ [] →
      popReadyCommand cfg s.conn = some (xcmd, conn1) → SchedStep cfg s ⟨conn1, false⟩
  | receiver (s : SchedState) (act : ReceiverAction) :
      SchedStep cfg s { s with conn := receiverStep cfg s.conn act }

/-- The bound the admission control keeps: a command the scheduler has decided to send
already counts. -/
def BackpressureInv (cfg : SchedConfig) (s : SchedState) : Prop :=
  s.conn.num_running_cmds + s.conn.num_ready_cmds + (if s.pending then 1 else 0)
      ≤ cfg.pgstrom_max_async_tasks ∧
  s.conn.num_ready_cmds = s.conn.ready_cmds_list.length

/-- What the trace of a scheduler run must look like: `cb_next_chunk` is only invoked while
`scan_done` is false, `cb_final_chunk` is only invoked, and its command only sent, while
`scan_done` is true. -/
def EventRespectsScanDone : SchedEvent → Prop
  | .cb_next sd _ => sd = false
  | .cb_final sd _ => sd = true
  | .send .final_chunk sd _ => sd = true
  | _ => True

/-- A connection whose error slot is set (code 1) and that is otherwise idle. -/
def failedConn : XpuConnection :=
  { errcode := 1, num_running_cmds := 0, num_ready_cmds := 0,
    ready_cmds_list := [], active_cmds_list := [] }

/-- A connection without error on which nothing is running and nothing is ready. -/
def idleConn : XpuConnection :=
  { errcode := 0, num_running_cmds := 0, num_ready_cmds := 0,
    ready_cmds_list := [], active_cmds_list := [] }

/-- A configuration for running the scheduler: four tasks in flight at most, success code
0, `Assert`s compiled in. -/
def schedCfg : SchedConfig :=
  { pgstrom_max_async_tasks := 4, ERRCODE_STROM_SUCCESS := 0, USE_ASSERT_CHECKING := true }

/-- A task state whose scan is over (`scan_done`), with `curr` as current response. -/
def doneTask (curr : Option XpuCmdRef) : pgstromTaskState Unit :=
  { scan_done := true, final_done := false, curr_resp := curr, curr_index := 0, host := () }

/-- Host callbacks with no chunk and no row left, and a terminal command (number 42). -/
def flushCallbacks : TaskCallbacks Unit :=
  { cb_next_chunk := fun p => (none, p),
    cb_final_chunk := some (fun p => (some 42, p)),
    cb_next_tuple := fun p => (none, p) }

/-- Host callbacks with no chunk and no row left, and no `cb_final_chunk`. -/
def plainCallbacks : TaskCallbacks Unit :=
  { cb_next_chunk := fun p => (none, p),
    cb_final_chunk := none,
    cb_next_tuple := fun p => (none, p) }

/-! ## Part 3: the session handshake serializer `pgstromBuildSessionInfo` -/

/-- A PostgreSQL `Datum` (64 bits) and an `Oid`. -/
abbrev Datum := Nat

/-- A type `Oid`; `InvalidOid` is 0. -/
abbrev Oid := Nat

/-- The constant `MaxAllocSize`, the limit `enlargeStringInfo` enforces on a `StringInfo`. -/
def MaxAllocSize : Nat := 0x3fffffff

/-- The ways `pgstromBuildSessionInfo` fails: `elog(ERROR, ..)` in `exec.c` (parameter not
found, type mismatch, unexpected kind, unsupported type), the out-of-memory error of
`enlargeStringInfo`, a failed `Assert`, and an access outside an array (undefined
behaviour in C). -/
inductive SessionError where
  | no_value (paramid : Int)
  | type_mismatch (paramid : Int)
  | unexpected_kind
  | unsupported_type (paramtype : Oid)
  | out_of_memory
  | trap
  | undefined
deriving DecidableEq, Repr

/-- The field `paramkind` of a `Param` node. -/
inductive ParamKind where
  | PARAM_EXTERN
  | PARAM_EXEC
  | PARAM_SUBLINK
  | PARAM_MULTIEXPR
deriving DecidableEq, Repr

/-- The fields of a `Param` node that `exec.c` reads. -/
structure Param where
  paramkind : ParamKind
  paramid : Int
  paramtype : Oid
deriving DecidableEq, Repr

/-- One entry of `econtext->ecxt_param_exec_vals`; `execPlan` is `none` for `NULL`. -/
structure ParamExecData where
  execPlan : Option Nat
  value : Datum
  isnull : Bool
deriving DecidableEq, Repr

/-- One entry of `param_info->params`, or what `paramFetch` hands back. -/
structure ParamExternData where
  value : Datum
  isnull : Bool
  ptype : Oid
deriving DecidableEq, Repr

/-- The fields of `ParamListInfoData` that `exec.c` reads; `paramFetch` is `none` for
`NULL`. -/
structure ParamListInfoData where
  paramFetch : Option (Int → ParamExternData)
  numParams : Nat
  params : List ParamExternData

/-- The part of `ExprContext` that `exec.c` reads: `ecxt_param_list_info` (`none` for
`NULL`) and `ecxt_param_exec_vals`. -/
structure ExprContext where
  ecxt_param_list_info : Option ParamListInfoData
  ecxt_param_exec_vals : List ParamExecData

/-- The header `kernSessionInfo`; offsets are byte positions in the session buffer, 0 for
"absent"; `poffset` has `nparams` slots. -/
structure kernSessionInfo where
  kcxt_extra_bufsz : Nat
  kcxt_kvars_nslots : Nat
  xactStartTimestamp : Nat
  xpucode_scan_quals : Nat
  xpucode_scan_projs : Nat
  xact_id_array : Nat
  session_timezone : Nat
  session_encode : Nat
  nparams : Nat
  poffset : List Nat
deriving DecidableEq, Repr

/-- What the serializer takes from the host and from `pg_strom.h`: whether `Assert`s are
compiled in; `offsetof(kernSessionInfo, poffset)`; the layout of `kernSessionInfo`, as the
function that gives the memory image of a header with its `poffset` slots
(`sessionImage`); `offsetof(XpuCommand, u.session)`, the magic number and the tag
`XpuCommandTag__OpenSession`; the type catalog (`get_typlenbyval`); memory as seen through
`DatumGetPointer`; `PG_DETOAST_DATUM`, giving the address of the detoasted value, a
varlena with a 4-byte header; `ExecSetParamPlan`; the transaction ids of `xact.c`;
`session_timezone` as the image of its `struct pg_tz` (`none` for `NULL`); the image of
the `xpu_encode_info` that `__build_session_encode` fills in; and
`GetCurrentTransactionStartTimestamp()`. -/
structure SessionHost where
  USE_ASSERT_CHECKING : Bool
  sessionHeaderSize : Nat
  sessionImage : kernSessionInfo → List Byte
  commandHeaderSize : Nat
  XpuCommandMagicNumber : Nat
  XpuCommandTag__OpenSession : Nat
  get_typlenbyval : Oid → Int × Bool
  mem : Nat → Byte
  pg_detoast_datum : Datum → Datum
  ExecSetParamPlan : Nat → ExprContext → ExprContext
  nParallelCurrentXids : Int
  ParallelCurrentXids : List Nat
  session_timezone : Option (List Byte)
  xpu_encode_info : List Byte
  xactStartTimestamp : Nat

/-- The `XpuCommand` that `pgstromBuildSessionInfo` returns.  `payload` is the session
buffer `buf.data[0 .. buf.len)` copied to `u.session`, whose first `session_sz` bytes line
201 has overwritten with the memory of the local `session`; `session` and `session_sz`
record the content of that local and its size at that moment. -/
structure SessionCommand where
  magic : Nat
  tag : Nat
  length : Nat
  session_sz : Nat
  session : kernSessionInfo
  payload : List Byte
deriving DecidableEq, Repr

/-- Four bytes of a 32-bit value, least significant first. -/
def u32le (x : Nat) : List Byte :=
  [x % 256, x / 256 % 256, x / 65536 % 256, x / 16777216 % 256]

/-- The 32-bit value held by four bytes, least significant first. -/
def u32ofLe (bs : List Byte) : Nat :=
  bs.getD 0 0 + 256 * bs.getD 1 0 + 65536 * bs.getD 2 0 + 16777216 * bs.getD 3 0

/-- PostgreSQL's `VARSIZE` for a 4-byte varlena header on a little-endian machine: the upper
30 bits of the header word, `(va_header >> 2) & 0x3FFFFFFF`. -/
def VARSIZE (bs : List Byte) : Nat := u32ofLe (bs.take 4) / 4 % 2 ^ 30

/-- The first `n` bytes of a `Datum` variable, `(char *)&param_value` (little endian). -/
def datumBytes (d : Datum) (n : Nat) : List Byte :=
  (List.range n).map (fun i => d / 256 ^ i % 256)

/-- The `n` bytes at `DatumGetPointer(d)`. -/
def pointerBytes (host : SessionHost) (d : Datum) (n : Nat) : List Byte :=
  (List.range n).map (fun i => host.mem (d + i))

/-- PostgreSQL's `appendBinaryStringInfo`: the data goes to the end of the buffer, unless
`enlargeStringInfo` refuses the size. -/
def appendBinaryStringInfo (buf : List Byte) (data : List Byte) :
    Except SessionError (List Byte) :=
  if MaxAllocSize - buf.length ≤ data.length then .error .out_of_memory
  else .ok (buf ++ data)

/-- Modelled from the spec: `__appendBinaryStringInfo` of `pg_strom.h`, not part of
`exec.c` (section 4.1: "`append(bytes) -> offset` returns the byte offset at which `bytes`
was written, measured from the start of the buffer").  Returns the offset and the grown
buffer. -/
def __appendBinaryStringInfo (buf : List Byte) (data : List Byte) :
    Except SessionError (Nat × List Byte) :=
  match appendBinaryStringInfo buf data with
  | .error e => .error e
  | .ok buf1 => .ok (buf.length, buf1)

/-- Modelled from the spec: `__appendZeroStringInfo` of `pg_strom.h`, not part of `exec.c`
(section 4.1: "`appendZero(n) -> offset` reserves `n` zeroed bytes"). -/
def __appendZeroStringInfo (buf : List Byte) (n : Nat) :
    Except SessionError (Nat × List Byte) :=
  __appendBinaryStringInfo buf (List.replicate n 0)

/-- The function `__build_session_xact_id_vector` (lines 18-34): offset (0 when there is no id) and
grown buffer.  `SET_VARSIZE` stores `sz << 2` in a 4-byte header (little endian); each
`TransactionId` takes 4 bytes. -/
def __build_session_xact_id_vector (host : SessionHost) (buf : List Byte) :
    Except SessionError (Nat × List Byte) :=
  if host.nParallelCurrentXids > 0 then
    let n := host.nParallelCurrentXids.toNat
    let sz := (4 + 4 * n) % 2 ^ 32
    match __appendBinaryStringInfo buf (u32le (sz * 4 % 2 ^ 32)) with
    | .error e => .error e
    | .ok (offset, buf1) =>
      match appendBinaryStringInfo buf1
          (((host.ParallelCurrentXids.take n).map u32le).flatten) with
      | .error e => .error e
      | .ok buf2 => .ok (offset, buf2)
  else .ok (0, buf)

/-- The function `__build_session_timezone` (lines 36-47). -/
def __build_session_timezone (host : SessionHost) (buf : List Byte) :
    Except SessionError (Nat × List Byte) :=
  match host.session_timezone with
  | some tz => __appendBinaryStringInfo buf tz
  | none => .ok (0, buf)

/-- The function `__build_session_encode` (lines 49-62). -/
def __build_session_encode (host : SessionHost) (buf : List Byte) :
    Except SessionError (Nat × List Byte) :=
  __appendBinaryStringInfo buf host.xpu_encode_info

/-- Lines 112-152: the current value of one parameter.  Gives the expression context (which
`ExecSetParamPlan` may have changed), `param_isnull` and `param_value`. -/
def resolveParam (host : SessionHost) (param_info : ParamListInfoData) (econtext : ExprContext)
    (param : Param) : Except SessionError (ExprContext × Bool × Datum) :=
  match param.paramkind with
  | .PARAM_EXEC =>
    if param.paramid < 0 then .error .undefined
    else
      match econtext.ecxt_param_exec_vals[param.paramid.toNat]? with
      | none => .error .undefined
      | some prm =>
        match prm.execPlan with
        | none => .ok (econtext, prm.isnull, prm.value)
        | some plan =>
          let econtext1 := host.ExecSetParamPlan plan econtext
          match econtext1.ecxt_param_exec_vals[param.paramid.toNat]? with
          | none => .error .undefined
          | some prm1 =>
            if host.USE_ASSERT_CHECKING = true ∧ prm1.execPlan ≠ none then .error .trap
            else .ok (econtext1, prm1.isnull, prm1.value)
  | .PARAM_EXTERN =>
    let fetched : Except SessionError ParamExternData :=
      match param_info.paramFetch with
      | some fetch => .ok (fetch param.paramid)
      | none =>
        if param.paramid - 1 < 0 then .error .undefined
        else
          match param_info.params[(param.paramid - 1).toNat]? with
          | none => .error .undefined
          | some prm => .ok prm
    match fetched with
    | .error e => .error e
    | .ok prm =>
      if prm.ptype = 0 then .error (.no_value param.paramid)
      else if prm.ptype ≠ param.paramtype then .error (.type_mismatch param.paramid)
      else .ok (econtext, prm.isnull, prm.value)
  | _ => .error .unexpected_kind

/-- Lines 161-188: the bytes appended for a non-NULL value of type `paramtype`. -/
def paramBytes (host : SessionHost) (paramtype : Oid) (value : Datum) :
    Except SessionError (List Byte) :=
  let typlen := (host.get_typlenbyval paramtype).1
  let typbyval := (host.get_typlenbyval paramtype).2
  if typbyval = true then
    if typlen < 0 then .error .out_of_memory
    else if 8 < typlen then .error .undefined
    else .ok (datumBytes value typlen.toNat)
  else if typlen > 0 then .ok (pointerBytes host value typlen.toNat)
  else if typlen = -1 then
    let temp := host.pg_detoast_datum value
    .ok (pointerBytes host temp (VARSIZE (pointerBytes host temp 4)))
  else .error (.unsupported_type paramtype)

/-- The variables the `foreach` loop of lines 105-192 carries along: the expression
context, the buffer, and `session->poffset`. -/
structure ParamLoopState where
  econtext : ExprContext
  buf : List Byte
  poffset : List Nat

/-- One pass through the body of the `foreach` loop (lines 107-191). -/
def putParam (host : SessionHost) (param_info : ParamListInfoData) (nparams : Nat)
    (st : ParamLoopState) (param : Param) : Except SessionError ParamLoopState :=
  match resolveParam host param_info st.econtext param with
  | .error e => .error e
  | .ok (econtext1, param_isnull, param_value) =>
    let appended : Except SessionError (Nat × List Byte) :=
      if param_isnull = true then .ok (0, st.buf)
      else
        match paramBytes host param.paramtype param_value with
        | .error e => .error e
        | .ok bytes => __appendBinaryStringInfo st.buf bytes
    match appended with
    | .error e => .error e
    | .ok (offset, buf1) =>
      if param.paramid ≥ 0 ∧ param.paramid < nparams then
        .ok ⟨econtext1, buf1, st.poffset.set param.paramid.toNat offset⟩
      else if host.USE_ASSERT_CHECKING = true then .error .trap
      else .error .undefined

/-- The `foreach (lc, used_params)` loop. -/
def putParams (host : SessionHost) (param_info : ParamListInfoData) (nparams : Nat) :
    ParamLoopState → List Param → Except SessionError ParamLoopState
  | st, [] => .ok st
  | st, param :: rest =>
    match putParam host param_info nparams st param with
    | .error e => .error e
    | .ok st1 => putParams host param_info nparams st1 rest

/-- Lines 86-97: an optional code blob (`bytea`, all `VARSIZE` bytes of it) is appended and
its offset recorded; a `NULL` blob leaves offset 0. -/
def putCode (buf : List Byte) (code : Option (List Byte)) :
    Except SessionError (Nat × List Byte) :=
  match code with
  | some bytes => __appendBinaryStringInfo buf bytes
  | none => .ok (0, buf)

/-- The effect of `memcpy(dst, src, n)` on a buffer `dst` of at least `n` bytes: the first
`n` bytes of `src` take the place of the bytes of `dst` at their positions, the rest of
`dst` stays. -/
def memcpy (dst src : List Byte) (n : Nat) : List Byte :=
  src.take n ++ dst.drop (src.take n).length

/-- What `nparams` is in `pgstromBuildSessionInfo` (line 74). -/
def nparamsOf (econtext : ExprContext) : Nat :=
  match econtext.ecxt_param_list_info with
  | some pi => pi.numParams
  | none => 0

/-- The call `pgstromBuildSessionInfo(ps, used_params, kcxt_extra_bufsz, kcxt_kvars_nslots,
xpucode_scan_quals, xpucode_scan_projs)` (lines 64-213), with `econtext` for
`ps->ps_ExprContext`.  `nparams` is `param_info->numParams`, an array length, so
`offsetof(kernSessionInfo, poffset[nparams])` is taken without wrap-around; a slot of
`poffset` is a `uint32_t`, 4 bytes.  Line 201 copies the `session_sz` bytes of the local
`session` over the bytes reserved at line 81. -/
def pgstromBuildSessionInfo (host : SessionHost) (econtext : ExprContext)
    (used_params : List Param) (kcxt_extra_bufsz kcxt_kvars_nslots : Nat)
    (xpucode_scan_quals xpucode_scan_projs : Option (List Byte)) :
    Except SessionError SessionCommand :=
  let param_info := econtext.ecxt_param_list_info
  let nparams := nparamsOf econtext
  let session_sz := host.sessionHeaderSize + 4 * nparams
  match __appendZeroStringInfo [] session_sz with
  | .error e => .error e
  | .ok (_, buf0) =>
  match putCode buf0 xpucode_scan_quals with
  | .error e => .error e
  | .ok (quals, buf1) =>
  match putCode buf1 xpucode_scan_projs with
  | .error e => .error e
  | .ok (projs, buf2) =>
  let looped : Except SessionError ParamLoopState :=
    match param_info with
    | some pi => putParams host pi nparams ⟨econtext, buf2, List.replicate nparams 0⟩ used_params
    | none => .ok ⟨econtext, buf2, List.replicate nparams 0⟩
  match looped with
  | .error e => .error e
  | .ok st =>
  match __build_session_xact_id_vector host st.buf with
  | .error e => .error e
  | .ok (xact_id_array, buf3) =>
  match __build_session_timezone host buf3 with
  | .error e => .error e
  | .ok (session_timezone, buf4) =>
  match __build_session_encode host buf4 with
  | .error e => .error e
  | .ok (session_encode, buf5) =>
  let session : kernSessionInfo := {
    kcxt_extra_bufsz := kcxt_extra_bufsz
    kcxt_kvars_nslots := kcxt_kvars_nslots
    xactStartTimestamp := host.xactStartTimestamp
    xpucode_scan_quals := quals
    xpucode_scan_projs := projs
    xact_id_array := xact_id_array
    session_timezone := session_timezone
    session_encode := session_encode
    nparams := match param_info with
      | some _ => nparams
      | none => 0
    poffset := st.poffset }
  .ok {
    magic := host.XpuCommandMagicNumber
    tag := host.XpuCommandTag__OpenSession
    length := host.commandHeaderSize + buf5.length
    session_sz := session_sz
    session := session
    payload := memcpy buf5 (host.sessionImage session) session_sz }

/-- The values the `foreach` loop resolves for the parameters of `used_params`, in order
(`param_isnull`, `param_value`), the expression context being handed from one parameter to
the next as the loop does. -/
def resolveAll (host : SessionHost) (param_info : ParamListInfoData) :
    ExprContext → List Param → Except SessionError (List (Bool × Datum))
  | _, [] => .ok []
  | econtext, param :: rest =>
    match resolveParam host param_info econtext param with
    | .error e => .error e
    | .ok (econtext1, isnull, value) =>
      match resolveAll host param_info econtext1 rest with
      | .error e => .error e
      | .ok rs => .ok ((isnull, value) :: rs)

/-- Following the claim's words, not the code: the number `n` of raw bytes of a non-NULL
value of type `paramtype`: `typlen` for a fixed-width type; for a variable-length type the
`VARSIZE` of the detoasted value, that is the upper 30 bits of the 32-bit word (little
endian) found in memory at its address. -/
def valueSize (host : SessionHost) (paramtype : Oid) (value : Datum) : Nat :=
  if (host.get_typlenbyval paramtype).2 = true ∨ (host.get_typlenbyval paramtype).1 > 0
  then (host.get_typlenbyval paramtype).1.toNat
  else (host.mem (host.pg_detoast_datum value)
        + 256 * host.mem (host.pg_detoast_datum value + 1)
        + 65536 * host.mem (host.pg_detoast_datum value + 2)
        + 16777216 * host.mem (host.pg_detoast_datum value + 3)) / 4 % 2 ^ 30

/-- Following the claim's words, not the code: raw byte number `i` of a non-NULL value of
type `paramtype`: for a by-value type, byte `i` of the `Datum` itself (little endian); for
a fixed-width by-reference type, the byte in memory at the address the `Datum` holds, plus
`i`; for a variable-length type, the byte in memory at the address of the detoasted value,
plus `i`. -/
def valueByte (host : SessionHost) (paramtype : Oid) (value : Datum) (i : Nat) : Byte :=
  if (host.get_typlenbyval paramtype).2 = true then value / 256 ^ i % 256
  else if (host.get_typlenbyval paramtype).1 > 0 then host.mem (value + i)
  else host.mem (host.pg_detoast_datum value + i)

/-- Following the claim's words, not the code: the raw bytes of a non-NULL value. -/
def valueRawBytes (host : SessionHost) (paramtype : Oid) (value : Datum) : List Byte :=
  (List.range (valueSize host paramtype value)).map (valueByte host paramtype value)

/-- The bytes `[off, off + n)` of a buffer. -/
def bytesAt (buf : List Byte) (off n : Nat) : List Byte := (buf.drop off).take n

/-- The values resolved for `used_params` by `pgstromBuildSessionInfo`; without
`param_info` the loop is skipped and nothing is resolved. -/
def resolvedValues (host : SessionHost) (econtext : ExprContext) (used_params : List Param) :
    Except SessionError (List (Bool × Datum)) :=
  match econtext.ecxt_param_list_info with
  | some pi => resolveAll host pi econtext used_params
  | none => .ok []

/-- What the loop leaves for a parameter and the value resolved for it: the slot
`poffset[paramid]` is 0 exactly for a NULL value; for a non-NULL value the buffer holds,
at that offset, the bytes that lines 161-188 append. -/
def ParamAppended (host : SessionHost) (poffset : List Nat) (buf : List Byte)
    (param : Param) (r : Bool × Datum) : Prop :=
  (poffset.getD param.paramid.toNat 0 = 0 ↔ r.1 = true) ∧
  (r.1 = false → ∃ bytes, paramBytes host param.paramtype r.2 = .ok bytes ∧
    bytesAt buf (poffset.getD param.paramid.toNat 0) bytes.length = bytes)

/-- How a parameter and the value resolved for it show in the session, in the claim's
words: the slot `poffset[paramid]` is 0 exactly for a NULL value; for a non-NULL value the
`n` bytes of the buffer from `poffset[paramid]` on are the value's raw bytes, `n` being
`valueSize`. -/
def ParamStored (host : SessionHost) (poffset : List Nat) (buf : List Byte)
    (param : Param) (r : Bool × Datum) : Prop :=
  (poffset.getD param.paramid.toNat 0 = 0 ↔ r.1 = true) ∧
  (r.1 = false →
    bytesAt buf (poffset.getD param.paramid.toNat 0) (valueSize host param.paramtype r.2)
      = valueRawBytes host param.paramtype r.2)

/-- A small host for running the serializer.  The header `kernSessionInfo` is laid out as
nine 32-bit fields (little endian) followed by the `poffset` slots.  Type 23 is a 4-byte
by-value type, type 600 a 3-byte by-reference type, every other type is variable-length.
Memory holds at address `a` the byte `a % 7`, except for the four bytes from address 1000
on, which hold the varlena header of a 7-byte value (`7 << 2`); the datum 9 is a toasted
value that `PG_DETOAST_DATUM` expands at address 1000, any other datum is plain. -/
def demoHost : SessionHost :=
  { USE_ASSERT_CHECKING := true
    sessionHeaderSize := 36
    sessionImage := fun s =>
      (([s.nparams, s.kcxt_extra_bufsz, s.kcxt_kvars_nslots, s.xactStartTimestamp,
         s.xpucode_scan_quals, s.xpucode_scan_projs, s.xact_id_array, s.session_timezone,
         s.session_encode] ++ s.poffset).map u32le).flatten
    commandHeaderSize := 4
    XpuCommandMagicNumber := 7
    XpuCommandTag__OpenSession := 1
    get_typlenbyval := fun t => if t = 23 then (4, true) else if t = 600 then (3, false)
                                else (-1, false)
    mem := fun a => if a = 1000 then 28 else if 1000 < a ∧ a < 1004 then 0 else a % 7
    pg_detoast_datum := fun d => if d = 9 then 1000 else d
    ExecSetParamPlan := fun _ ec => ec
    nParallelCurrentXids := 2
    ParallelCurrentXids := [5, 6]
    session_timezone := none
    xpu_encode_info := [1, 2]
    xactStartTimestamp := 0 }

/-- An expression context with five external parameter slots: a by-value value, a NULL, a
by-reference value, a variable-length value, and a spare one. -/
def demoContext : ExprContext :=
  { ecxt_param_list_info := some
      { paramFetch := none
        numParams := 5
        params := [⟨258, false, 23⟩, ⟨0, true, 23⟩, ⟨100, false, 600⟩, ⟨9, false, 25⟩,
                   ⟨0, true, 23⟩] }
    ecxt_param_exec_vals := [] }

/-- The parameters 1 to 4 of `demoContext`. -/
def demoParams : List Param :=
  [⟨.PARAM_EXTERN, 1, 23⟩, ⟨.PARAM_EXTERN, 2, 23⟩, ⟨.PARAM_EXTERN, 3, 600⟩,
   ⟨.PARAM_EXTERN, 4, 25⟩]

/-- The blob that `__build_session_xact_id_vector` appends, as a list of at most one blob:
the 4-byte varlena header followed by the transaction ids; nothing when there is no id. -/
def xactBlobs (host : SessionHost) : List (List Byte) :=
  if host.nParallelCurrentXids > 0 then
    [u32le ((4 + 4 * host.nParallelCurrentXids.toNat) % 2 ^ 32 * 4 % 2 ^ 32) ++
      ((host.ParallelCurrentXids.take host.nParallelCurrentXids.toNat).map u32le).flatten]
  else []

/-- The blobs the `foreach` loop of lines 105-192 appends, in order: the raw bytes of every
value that is not NULL. -/
def paramBlobs (host : SessionHost) (param_info : ParamListInfoData) :
    ExprContext → List Param → List (List Byte)
  | _, [] => []
  | econtext, param :: rest =>
    match resolveParam host param_info econtext param with
    | .error _ => []
    | .ok (econtext1, isnull, value) =>
      (if isnull = true then []
       else match paramBytes host param.paramtype value with
         | .ok bytes => [bytes]
         | .error _ => []) ++ paramBlobs host param_info econtext1 rest

/-- The parameter blobs of a call of `pgstromBuildSessionInfo`: those of the `foreach`
loop, which only runs when `param_info` is not `NULL` (line 100). -/
def usedParamBlobs (host : SessionHost) (econtext : ExprContext) (used_params : List Param) :
    List (List Byte) :=
  match econtext.ecxt_param_list_info with
  | some pi => paramBlobs host pi econtext used_params
  | none => []

/-- Every blob a call of `pgstromBuildSessionInfo` appends behind the header, in the order
of the appends: the two code blobs, the parameter values, the transaction-id vector, the
timezone, the encoding descriptor. -/
def sessionBlobs (host : SessionHost) (econtext : ExprContext) (used_params : List Param)
    (xpucode_scan_quals xpucode_scan_projs : Option (List Byte)) : List (List Byte) :=
  xpucode_scan_quals.toList ++ xpucode_scan_projs.toList ++
  usedParamBlobs host econtext used_params ++
  xactBlobs host ++ host.session_timezone.toList ++ [host.xpu_encode_info]

/-- The position of the `k`-th blob in a buffer that holds a header of `sz` bytes followed
by the blobs. -/
def blobStart (sz : Nat) (blobs : List (List Byte)) (k : Nat) : Nat :=
  sz + (blobs.take k).flatten.length

/-- The offset fields of the session header. -/
def offsetFields (s : kernSessionInfo) : List Nat :=
  [s.xpucode_scan_quals, s.xpucode_scan_projs, s.xact_id_array, s.session_timezone,
   s.session_encode] ++ s.poffset

/-- The offset `o` is the position of one of the blobs, `sz` being the header size. -/
def IsBlobStart (sz : Nat) (blobs : List (List Byte)) (o : Nat) : Prop :=
  ∃ pre b post, blobs = pre ++ b :: post ∧ o = sz + pre.flatten.length

/-- The offset `o` designates a blob of `blobs` that lies inside `buf`: it is the position
of blob number `k`, whose bytes the buffer holds from `o` on. -/
def DesignatesBlob (sz : Nat) (blobs : List (List Byte)) (buf : List Byte) (o : Nat) : Prop :=
  ∃ k, k < blobs.length ∧ o = blobStart sz blobs k ∧
    o + (blobs.getD k []).length ≤ buf.length ∧
    bytesAt buf o (blobs.getD k []).length = blobs.getD k []

/-- The expression context of a statement with one external parameter, `$1`, a 4-byte
by-value value (258); no executor parameter. -/
def oneParamContext : ExprContext :=
  { ecxt_param_list_info := some
      { paramFetch := none, numParams := 1, params := [⟨258, false, 23⟩] }
    ecxt_param_exec_vals := [] }

/-- The expression context of a statement with one external parameter and two executor
parameters (outputs of init-plans), all evaluated. -/
def execParamContext : ExprContext :=
  { ecxt_param_list_info := some
      { paramFetch := none, numParams := 1, params := [⟨258, false, 23⟩] }
    ecxt_param_exec_vals := [⟨none, 5, false⟩, ⟨none, 6, false⟩] }

/-- The expression context of a statement without external parameter whose `param_info`
is not `NULL` (a list of zero parameters), with one evaluated executor parameter. -/
def noExternContext : ExprContext :=
  { ecxt_param_list_info := some { paramFetch := none, numParams := 0, params := [] }
    ecxt_param_exec_vals := [⟨none, 5, false⟩] }

/-! ## Theorems -/

theorem attachesOf_append (a b : List RxEvent) :
    attachesOf (a ++ b) = attachesOf a ++ attachesOf b := by
  induction a with
  | nil => rfl
  | cons e t ih => cases e <;> simp [attachesOf, ih]

theorem allocsOf_append (a b : List RxEvent) :
    allocsOf (a ++ b) = allocsOf a ++ allocsOf b := by
  induction a with
  | nil => rfl
  | cons e t ih => cases e <;> simp [allocsOf, ih]

theorem receivedBytes_append (a b : List RxEvent) :
    receivedBytes (a ++ b) = receivedBytes a ++ receivedBytes b := by
  induction a with
  | nil => rfl
  | cons e t ih => cases e <;> simp [receivedBytes, ih]

theorem sockBytes_append (a b : List RecvOutcome) :
    sockBytes (a ++ b) = sockBytes a ++ sockBytes b := by
  induction a with
  | nil => rfl
  | cons e t ih => cases e <;> simp [sockBytes, ih]

theorem sockBytes_map_data (chunks : List (List Byte)) :
    sockBytes (chunks.map RecvOutcome.data) = chunks.flatten := by
  induction chunks with
  | nil => rfl
  | cons c t ih => simp [sockBytes, ih]

theorem rxRun_succ (cfg : XpuConfig) (alloc_f : Nat → Bool) (n : Nat) (st : RxState) :
    rxRun cfg alloc_f (n + 1) st = rxRun cfg alloc_f n (rxStep cfg alloc_f st) := by
  simp [rxRun, Function.iterate_succ_apply]

theorem rxRun_add (cfg : XpuConfig) (alloc_f : Nat → Bool) (m n : Nat) (st : RxState) :
    rxRun cfg alloc_f (m + n) st = rxRun cfg alloc_f n (rxRun cfg alloc_f m st) := by
  unfold rxRun
  rw [Nat.add_comm, Function.iterate_add_apply]

theorem feeds_nil {sock rest : List RecvOutcome} (h : Feeds sock [] rest) : sock = rest := by
  obtain ⟨chunks, hne, hfl, rfl⟩ := h
  cases chunks with
  | nil => rfl
  | cons c t =>
    have hc : c ≠ [] := hne c (by simp)
    simp at hfl
    exact absurd hfl.1 hc

theorem feeds_sockBytes {sock rest : List RecvOutcome} {bytes : List Byte}
    (h : Feeds sock bytes rest) : sockBytes sock = bytes ++ sockBytes rest := by
  obtain ⟨chunks, _, hfl, rfl⟩ := h
  rw [sockBytes_append, sockBytes_map_data, hfl]

theorem feeds_recv {sock rest : List RecvOutcome} {bytes : List Byte} (req : Nat)
    (h : Feeds sock bytes rest) (hb : bytes ≠ []) (hreq : 0 < req) :
    ∃ ch tl k, sock = RecvOutcome.data ch :: tl ∧ 0 < k ∧ k ≤ req ∧ k ≤ bytes.length ∧
      ch.take req = bytes.take k ∧ Feeds (sockAfter ch req tl) (bytes.drop k) rest := by
  obtain ⟨chunks, hne, hfl, rfl⟩ := h
  cases chunks with
  | nil => simp at hfl; exact absurd hfl.symm hb.symm |> False.elim
  | cons c t =>
    have hc : c ≠ [] := hne c (by simp)
    have hcl : 0 < c.length := List.length_pos.mpr hc
    have ht : ∀ ch ∈ t, ch ≠ [] := fun ch hch => hne ch (by simp [hch])
    simp only [List.flatten_cons] at hfl
    subst hfl
    refine ⟨c, t.map RecvOutcome.data ++ rest, min req c.length, by simp, ?_, ?_, ?_, ?_, ?_⟩
    · omega
    · omega
    · simp
    · rw [List.take_append_eq_append_take]
      have : min req c.length - c.length = 0 := by omega
      simp [this]
    · unfold sockAfter
      by_cases hd : c.drop req = []
      · rw [if_pos hd]
        have hle : c.length ≤ req := by simpa using hd
        refine ⟨t, ht, ?_, rfl⟩
        rw [Nat.min_eq_right hle]; simp
      · rw [if_neg hd]
        have hlt : req < c.length := by
          by_contra hcon
          exact hd (by simp; omega)
        refine ⟨c.drop req :: t, ?_, ?_, by simp⟩
        · intro ch hch
          simp at hch
          rcases hch with rfl | hch
          · exact hd
          · exact ht ch hch
        · rw [Nat.min_eq_left (le_of_lt hlt)]
          have hz : req - c.length = 0 := by omega
          simp [List.drop_append_eq_append_drop, hz]

theorem take_hdr_of_isPrefix {q c : List Byte} {h : Nat} (hp : q <+: c) (hh : h ≤ q.length) :
    q.take h = c.take h := by
  obtain ⟨t, rfl⟩ := hp
  rw [List.take_append_of_le_length hh]

theorem isPrefix_append_take {q c : List Byte} (hp : q <+: c) (k : Nat) :
    q ++ (c.drop q.length).take k <+: c := by
  obtain ⟨t, rfl⟩ := hp
  simp
  exact List.take_prefix k t

theorem heap_phase (cfg : XpuConfig) (alloc_f : Nat → Bool) (c : List Byte)
    (hwf : WellFormedCmd cfg c) (id : Nat) :
    ∀ (m : Nat) (q : List Byte) (fl cnt na : Nat) (sock : List RecvOutcome)
      (tr : List RxEvent) (tail : List Byte) (rest : List RecvOutcome),
      c.length - q.length = m → q <+: c → cfg.hdrsz ≤ q.length → q.length < c.length →
      Feeds sock (c.drop q.length ++ tail) rest →
      ∃ n sock' ext,
        rxRun cfg alloc_f n ⟨.loop, .heap id 0, q, c.length, fl, cnt, some id, na, sock, tr⟩
          = ⟨.loop, .loc 0, [], 2 * cfg.BLCKSZ, MSG_DONTWAIT, cnt + 1, none, na, sock',
             tr ++ ext ++ [.attach id c]⟩ ∧
        Feeds sock' tail rest ∧ HeapRecvs id c.length ext ∧
        receivedBytes ext = c.drop q.length := by
  intro m
  induction m using Nat.strong_induction_on with
  | _ m ih =>
    intro q fl cnt na sock tr tail rest hm hp hh hlt hf
    have hneed : c.drop q.length ++ tail ≠ [] := by
      intro h
      have := congrArg List.length h
      simp at this
      omega
    obtain ⟨ch, tl, k, rfl, hk0, hkreq, hklen, htake, hf'⟩ :=
      feeds_recv (c.length - q.length) hf hneed (by omega)
    have htake' : ch.take (c.length - q.length) = (c.drop q.length).take k := by
      rw [htake, List.take_append_of_le_length]
      simp; omega
    have hgl : (ch.take (c.length - q.length)).length = k := by
      rw [htake']; simp; omega
    have hgne : ch.take (c.length - q.length) ≠ [] := by
      intro h; rw [h] at hgl; simp at hgl; omega
    have hp' : q ++ ch.take (c.length - q.length) <+: c := by
      rw [htake']; exact isPrefix_append_take hp k
    have hhdr : (q ++ ch.take (c.length - q.length)).take cfg.hdrsz = c.take cfg.hdrsz :=
      take_hdr_of_isPrefix hp' (by simp; omega)
    have hdrop : List.drop k (c.drop q.length ++ tail) = c.drop (q.length + k) ++ tail := by
      rw [List.drop_append_of_le_length (by simp; omega), List.drop_drop]
    rw [hdrop] at hf'
    have hql : (q ++ ch.take (c.length - q.length)).length = q.length + k := by
      simp only [List.length_append, hgl]
    obtain ⟨hmagic, hlen, hhs⟩ := hwf
    by_cases hdone : c.length ≤ q.length + k
    · have hkeq : q.length + k = c.length := by omega
      have hqc : q ++ ch.take (c.length - q.length) = c :=
        List.IsPrefix.eq_of_length hp' (by rw [hql, hkeq])
      refine ⟨1, sockAfter ch (c.length - q.length) tl,
        [RxEvent.recv (.heap id 0) q.length (c.length - q.length) fl
          (ch.take (c.length - q.length))], ?_, ?_, ?_, ?_⟩
      · simp [rxRun, rxStep, rxRecvStep, rxGotBytes, hgne, hhdr, hmagic, hlen, hqc, rxRestart]
      · rw [hkeq] at hf'; simpa using hf'
      · intro e he
        simp at he
        exact ⟨q.length, fl, ch.take (c.length - q.length), he, hgne, by rw [hgl]; omega⟩
      · simp [receivedBytes, htake']
        omega
    · have hlt' : q.length + k < c.length := by omega
      obtain ⟨n, sock', ext, hrun, hfeeds, hrecvs, hbytes⟩ :=
        ih (c.length - (q.length + k)) (by omega) (q ++ ch.take (c.length - q.length)) fl cnt na
          (sockAfter ch (c.length - q.length) tl)
          (tr ++ [RxEvent.recv (.heap id 0) q.length (c.length - q.length) fl
            (ch.take (c.length - q.length))]) tail rest
          (by rw [hql]) hp' (by rw [hql]; omega) (by rw [hql]; exact hlt') (by rw [hql]; exact hf')
      refine ⟨n + 1, sock', RxEvent.recv (.heap id 0) q.length (c.length - q.length) fl
            (ch.take (c.length - q.length)) :: ext, ?_, hfeeds, ?_, ?_⟩
      · rw [rxRun_succ]
        have hstep : rxStep cfg alloc_f
            ⟨.loop, .heap id 0, q, c.length, fl, cnt, some id, na, RecvOutcome.data ch :: tl, tr⟩
            = ⟨.loop, .heap id 0, q ++ ch.take (c.length - q.length), c.length, fl, cnt, some id,
                na, sockAfter ch (c.length - q.length) tl,
                tr ++ [RxEvent.recv (.heap id 0) q.length (c.length - q.length) fl
                  (ch.take (c.length - q.length))]⟩ := by
          simp [rxStep, rxRecvStep, rxGotBytes, hgne, hhdr, hlen]
          intro hcon
          have h1 := hgl
          have h2 := hql
          simp only [List.length_take] at h1
          omega
        rw [hstep, hrun]
        simp
      · intro e he
        simp at he
        rcases he with rfl | he
        · exact ⟨q.length, fl, ch.take (c.length - q.length), rfl, hgne, by rw [hgl]; omega⟩
        · exact hrecvs e he
      · simp only [receivedBytes, hbytes, hql]
        rw [htake', ← List.drop_drop]
        exact List.take_append_drop k _

theorem header_phase (cfg : XpuConfig) (alloc_f : Nat → Bool)
    (hfit : cfg.hdrsz ≤ 2 * cfg.BLCKSZ) :
    ∀ (m : Nat) (q : List Byte) (fl cnt na : Nat) (sock : List RecvOutcome)
      (tr : List RxEvent) (need : List Byte) (rest : List RecvOutcome),
      cfg.hdrsz - q.length = m → q.length < cfg.hdrsz → cfg.hdrsz ≤ q.length + need.length →
      Feeds sock need rest →
      ∃ n sock' ext fl' k,
        rxRun cfg alloc_f n ⟨.loop, .loc 0, q, 2 * cfg.BLCKSZ, fl, cnt, none, na, sock, tr⟩
          = ⟨.next, .loc 0, q ++ need.take k, 2 * cfg.BLCKSZ, fl', cnt, none, na, sock',
             tr ++ ext⟩ ∧
        cfg.hdrsz ≤ q.length + k ∧ q.length + k ≤ 2 * cfg.BLCKSZ ∧ k ≤ need.length ∧
        Feeds sock' (need.drop k) rest ∧ LocalRecvs cfg ext ∧
        receivedBytes ext = need.take k := by
  intro m
  induction m using Nat.strong_induction_on with
  | _ m ih =>
    intro q fl cnt na sock tr need rest hm hlt hen hf
    have hneed : need ≠ [] := by
      intro h; rw [h] at hen; simp at hen; omega
    obtain ⟨ch, tl, k, rfl, hk0, hkreq, hklen, htake, hf'⟩ :=
      feeds_recv (2 * cfg.BLCKSZ - q.length) hf hneed (by omega)
    have hgl : (ch.take (2 * cfg.BLCKSZ - q.length)).length = k := by
      rw [htake]; simp; omega
    have hgne : ch.take (2 * cfg.BLCKSZ - q.length) ≠ [] := by
      intro h; rw [h] at hgl; simp at hgl; omega
    have hstep : rxStep cfg alloc_f
        ⟨.loop, .loc 0, q, 2 * cfg.BLCKSZ, fl, cnt, none, na, RecvOutcome.data ch :: tl, tr⟩
        = ⟨.next, .loc 0, q ++ need.take k, 2 * cfg.BLCKSZ, fl, cnt, none, na,
            sockAfter ch (2 * cfg.BLCKSZ - q.length) tl,
            tr ++ [RxEvent.recv (.loc 0) q.length (2 * cfg.BLCKSZ - q.length) fl
              (need.take k)]⟩ := by
      simp [rxStep, rxRecvStep, rxGotBytes, hgne, htake]
      intro h
      rcases h with h | h
      · omega
      · exact absurd h hneed
    have hev : ∃ off fl' got, RxEvent.recv (.loc 0) q.length (2 * cfg.BLCKSZ - q.length) fl
        (need.take k) = RxEvent.recv (.loc 0) off (2 * cfg.BLCKSZ - off) fl' got ∧
        got ≠ [] ∧ off + got.length ≤ 2 * cfg.BLCKSZ :=
      ⟨q.length, fl, need.take k, rfl, by rw [← htake]; exact hgne,
        by rw [← htake, hgl]; omega⟩
    by_cases hdone : cfg.hdrsz ≤ q.length + k
    · refine ⟨1, _, [RxEvent.recv (.loc 0) q.length (2 * cfg.BLCKSZ - q.length) fl
              (need.take k)], fl, k, ?_, hdone, by omega, hklen, hf', ?_, ?_⟩
      · simp only [rxRun, Function.iterate_succ, Function.iterate_zero, Function.comp_apply,
          id_eq]
        exact hstep
      · intro e he
        simp at he
        rw [he]; exact hev
      · simp [receivedBytes]
    · have hql : (q ++ need.take k).length = q.length + k := by
        simp; omega
      have hstep2 : rxStep cfg alloc_f
          ⟨.next, .loc 0, q ++ need.take k, 2 * cfg.BLCKSZ, fl, cnt, none, na,
            sockAfter ch (2 * cfg.BLCKSZ - q.length) tl,
            tr ++ [RxEvent.recv (.loc 0) q.length (2 * cfg.BLCKSZ - q.length) fl
              (need.take k)]⟩
          = ⟨.loop, .loc 0, q ++ need.take k, 2 * cfg.BLCKSZ, 0, cnt, none, na,
            sockAfter ch (2 * cfg.BLCKSZ - q.length) tl,
            tr ++ [RxEvent.recv (.loc 0) q.length (2 * cfg.BLCKSZ - q.length) fl
              (need.take k)]⟩ := by
        have : (q ++ need.take k).length < cfg.hdrsz := by rw [hql]; omega
        simp only [rxStep, rxNextStep, this]
        simp
      obtain ⟨n, sock', ext, fl', k', hrun, h1, h2, h3, h4, h5, h6⟩ :=
        ih (cfg.hdrsz - (q.length + k)) (by omega) (q ++ need.take k) 0 cnt na _
          (tr ++ [RxEvent.recv (.loc 0) q.length (2 * cfg.BLCKSZ - q.length) fl
              (need.take k)]) (need.drop k) rest (by rw [hql]) (by rw [hql]; omega)
          (by rw [hql]; simp; omega) hf'
      refine ⟨n + 2, sock', RxEvent.recv (.loc 0) q.length (2 * cfg.BLCKSZ - q.length) fl
              (need.take k) :: ext, fl', k + k', ?_, ?_, ?_, ?_, ?_, ?_, ?_⟩
      · rw [rxRun_succ, hstep, rxRun_succ, hstep2, hrun]
        simp [List.take_add]
      · rw [hql] at h1; omega
      · rw [hql] at h2; omega
      · simp at h3; omega
      · simpa [List.drop_drop, Nat.add_comm] using h4
      · intro e he
        simp at he
        rcases he with rfl | he
        · exact hev
        · exact h5 e he
      · simp [receivedBytes, h6, List.take_add]

theorem next_attach_exact (cfg : XpuConfig) (alloc_f : Nat → Bool)
    (halloc : ∀ n, alloc_f n = true) (c : List Byte) (hwf : WellFormedCmd cfg c)
    (b fl cnt na : Nat) (sock : List RecvOutcome) (tr : List RxEvent) :
    rxStep cfg alloc_f ⟨.next, .loc b, c, 2 * cfg.BLCKSZ, fl, cnt, none, na, sock, tr⟩
      = ⟨.loop, .loc 0, [], 2 * cfg.BLCKSZ, MSG_DONTWAIT, cnt + 1, none, na + 1, sock,
          tr ++ [.alloc c.length (some na), .attach na c]⟩ := by
  obtain ⟨hmagic, hlen, hhs⟩ := hwf
  have h1 : ¬ c.length < cfg.hdrsz := by omega
  simp [rxStep, rxNextStep, h1, hlen, hmagic, halloc, rxRestart]

theorem next_attach_more (cfg : XpuConfig) (alloc_f : Nat → Bool)
    (halloc : ∀ n, alloc_f n = true) (c r : List Byte) (hwf : WellFormedCmd cfg c)
    (hr : r ≠ []) (b fl cnt na : Nat) (sock : List RecvOutcome) (tr : List RxEvent) :
    rxStep cfg alloc_f ⟨.next, .loc b, c ++ r, 2 * cfg.BLCKSZ, fl, cnt, none, na, sock, tr⟩
      = ⟨.next, .loc (b + c.length), r, 2 * cfg.BLCKSZ, fl, cnt + 1, none, na + 1, sock,
          tr ++ [.alloc c.length (some na), .attach na c]⟩ := by
  obtain ⟨hmagic, hlen, hhs⟩ := hwf
  have h1 : ¬ (c ++ r).length < cfg.hdrsz := by simp; omega
  have h2 : (c ++ r).take cfg.hdrsz = c.take cfg.hdrsz := List.take_append_of_le_length hhs
  have h3 : 0 < r.length := List.length_pos.mpr hr
  have h4 : c.length ≤ (c ++ r).length := by simp
  have h5 : ¬ c.length = (c ++ r).length := by
    rw [List.length_append]; omega
  simp only [rxStep, rxNextStep, h1, h2, hlen, hmagic, halloc, h4, h5]
  simp [BufPtr.add]

theorem next_heap (cfg : XpuConfig) (alloc_f : Nat → Bool)
    (halloc : ∀ n, alloc_f n = true) (c q : List Byte) (hwf : WellFormedCmd cfg c)
    (hp : q <+: c) (hh : cfg.hdrsz ≤ q.length) (hlt : q.length < c.length)
    (b fl cnt na : Nat) (sock : List RecvOutcome) (tr : List RxEvent) :
    rxStep cfg alloc_f ⟨.next, .loc b, q, 2 * cfg.BLCKSZ, fl, cnt, none, na, sock, tr⟩
      = ⟨.loop, .heap na 0, q, c.length, 0, cnt, some na, na + 1, sock,
          tr ++ [.alloc c.length (some na)]⟩ := by
  obtain ⟨hmagic, hlen, hhs⟩ := hwf
  have h1 : ¬ q.length < cfg.hdrsz := by omega
  have h2 : q.take cfg.hdrsz = c.take cfg.hdrsz := take_hdr_of_isPrefix hp hh
  have h3 : ¬ c.length ≤ q.length := by omega
  simp only [rxStep, rxNextStep, h1, h2, hlen, h3, halloc]
  simp

theorem next_short (cfg : XpuConfig) (alloc_f : Nat → Bool) (q : List Byte)
    (hlt : q.length < cfg.hdrsz)
    (b fl cnt na : Nat) (sock : List RecvOutcome) (tr : List RxEvent) :
    rxStep cfg alloc_f ⟨.next, .loc b, q, 2 * cfg.BLCKSZ, fl, cnt, none, na, sock, tr⟩
      = ⟨.loop, .loc 0, q, 2 * cfg.BLCKSZ, 0, cnt, none, na, sock, tr⟩ := by
  simp only [rxStep, rxNextStep, hlt]
  by_cases hb : BufPtr.loc b = BufPtr.loc 0
  · simp [hb]
  · simp [hb]

theorem heapRecvs_proj {id sz : Nat} {ext : List RxEvent} (h : HeapRecvs id sz ext) :
    attachesOf ext = [] ∧ allocsOf ext = [] := by
  induction ext with
  | nil => exact ⟨rfl, rfl⟩
  | cons e t ih =>
    obtain ⟨off, fl, got, rfl, _⟩ := h e (by simp)
    have := ih (fun e he => h e (by simp [he]))
    simpa [attachesOf, allocsOf] using this

theorem localRecvs_proj {cfg : XpuConfig} {ext : List RxEvent} (h : LocalRecvs cfg ext) :
    attachesOf ext = [] ∧ allocsOf ext = [] := by
  induction ext with
  | nil => exact ⟨rfl, rfl⟩
  | cons e t ih =>
    obtain ⟨off, fl, got, rfl, _⟩ := h e (by simp)
    have := ih (fun e he => h e (by simp [he]))
    simpa [attachesOf, allocsOf] using this

theorem decode_buffered (cfg : XpuConfig) (alloc_f : Nat → Bool)
    (halloc : ∀ n, alloc_f n = true) (c : List Byte) (hwf : WellFormedCmd cfg c)
    (q need tail : List Byte) (rest : List RecvOutcome)
    (b fl cnt na : Nat) (sock : List RecvOutcome) (tr : List RxEvent)
    (hh : cfg.hdrsz ≤ q.length) (hstream : q ++ need = c ++ tail) (hf : Feeds sock need rest) :
    ∃ n, DecodedOne cfg c tail rest cnt na tr
      (rxRun cfg alloc_f n ⟨.next, .loc b, q, 2 * cfg.BLCKSZ, fl, cnt, none, na, sock, tr⟩) := by
  rcases List.append_eq_append_iff.mp hstream with ⟨a', hc, hn⟩ | ⟨c', hq, ht⟩
  · -- the buffer holds a leading part of `c`
    by_cases ha : a' = []
    · subst ha
      simp at hc hn
      subst hc; subst hn
      refine ⟨1, ?_⟩
      simp only [rxRun, Function.iterate_succ, Function.iterate_zero, Function.comp_apply, id_eq]
      rw [next_attach_exact cfg alloc_f halloc c hwf]
      refine ⟨⟨rfl, rfl, Or.inl ⟨rfl, rfl, rfl⟩⟩, rfl, rfl, ⟨_, rfl, ?_, ?_⟩, need, hf, by simp⟩
      · simp [attachesOf]
      · simp [allocsOf]
    · have hal : 0 < a'.length := List.length_pos.mpr ha
      have hp : q <+: c := ⟨a', hc.symm⟩
      have hlt : q.length < c.length := by rw [hc]; simp; omega
      have hdrop : c.drop q.length = a' := by rw [hc]; simp
      obtain ⟨n, sock', ext, hrun, hfeeds, hrecvs, _⟩ :=
        heap_phase cfg alloc_f c hwf na (c.length - q.length) q 0 cnt (na + 1) sock
          (tr ++ [.alloc c.length (some na)]) tail rest rfl hp hh hlt (by rw [hdrop, ← hn]; exact hf)
      refine ⟨n + 1, ?_⟩
      rw [rxRun_succ, next_heap cfg alloc_f halloc c q hwf hp hh hlt, hrun]
      obtain ⟨h1, h2⟩ := heapRecvs_proj hrecvs
      refine ⟨⟨rfl, rfl, Or.inl ⟨rfl, rfl, rfl⟩⟩, rfl, rfl,
        ⟨[.alloc c.length (some na)] ++ ext ++ [.attach na c], by simp, ?_, ?_⟩,
        tail, hfeeds, by simp⟩
      · simp [attachesOf_append, attachesOf, h1]
      · simp [allocsOf_append, allocsOf, h2]
  · -- the buffer holds all of `c`
    by_cases hc' : c' = []
    · subst hc'
      simp at hq ht
      subst hq; subst ht
      refine ⟨1, ?_⟩
      simp only [rxRun, Function.iterate_succ, Function.iterate_zero, Function.comp_apply, id_eq]
      rw [next_attach_exact cfg alloc_f halloc q hwf]
      refine ⟨⟨rfl, rfl, Or.inl ⟨rfl, rfl, rfl⟩⟩, rfl, rfl, ⟨_, rfl, ?_, ?_⟩, tail, hf, by simp⟩
      · simp [attachesOf]
      · simp [allocsOf]
    · subst hq
      refine ⟨1, ?_⟩
      simp only [rxRun, Function.iterate_succ, Function.iterate_zero, Function.comp_apply, id_eq]
      rw [next_attach_more cfg alloc_f halloc c c' hwf hc']
      refine ⟨⟨rfl, rfl, Or.inr ⟨rfl, _, rfl⟩⟩, rfl, rfl, ⟨_, rfl, ?_, ?_⟩, need, hf, ht.symm⟩
      · simp [attachesOf]
      · simp [allocsOf]

theorem decodedOne_extend {cfg : XpuConfig} {c tail : List Byte} {rest : List RecvOutcome}
    {cnt na : Nat} {tr ext1 : List RxEvent} {st' : RxState}
    (h : DecodedOne cfg c tail rest cnt na (tr ++ ext1) st')
    (h1 : attachesOf ext1 = []) (h2 : allocsOf ext1 = []) :
    DecodedOne cfg c tail rest cnt na tr st' := by
  obtain ⟨hb, hc, hn, ⟨ext, he, ha, hl⟩, hr⟩ := h
  refine ⟨hb, hc, hn, ⟨ext1 ++ ext, by rw [he, List.append_assoc], ?_, ?_⟩, hr⟩
  · rw [attachesOf_append, h1, ha]; rfl
  · rw [allocsOf_append, h2, hl]; rfl

theorem decode_local (cfg : XpuConfig) (alloc_f : Nat → Bool)
    (hfit : cfg.hdrsz ≤ 2 * cfg.BLCKSZ)
    (halloc : ∀ n, alloc_f n = true) (c : List Byte) (hwf : WellFormedCmd cfg c)
    (q need tail : List Byte) (rest : List RecvOutcome)
    (fl cnt na : Nat) (sock : List RecvOutcome) (tr : List RxEvent)
    (hlt : q.length < cfg.hdrsz) (hstream : q ++ need = c ++ tail) (hf : Feeds sock need rest) :
    ∃ n, DecodedOne cfg c tail rest cnt na tr
      (rxRun cfg alloc_f n ⟨.loop, .loc 0, q, 2 * cfg.BLCKSZ, fl, cnt, none, na, sock, tr⟩) := by
  have hlen : q.length + need.length = c.length + tail.length := by
    have := congrArg List.length hstream
    simpa using this
  obtain ⟨n1, sock1, ext1, fl1, k, hrun1, hk1, _, hk3, hf1, hloc, _⟩ :=
    header_phase cfg alloc_f hfit (cfg.hdrsz - q.length) q fl cnt na sock tr need rest rfl hlt
      (by have := hwf.2.2; omega) hf
  obtain ⟨n2, hdec⟩ := decode_buffered cfg alloc_f halloc c hwf (q ++ need.take k)
    (need.drop k) tail rest 0 fl1 cnt na sock1 (tr ++ ext1)
    (by simp; omega) (by rw [List.append_assoc, List.take_append_drop]; exact hstream) hf1
  refine ⟨n1 + n2, ?_⟩
  rw [rxRun_add, hrun1]
  exact decodedOne_extend hdec (localRecvs_proj hloc).1 (localRecvs_proj hloc).2

theorem decode_one (cfg : XpuConfig) (alloc_f : Nat → Bool)
    (hpos : 0 < cfg.hdrsz) (hfit : cfg.hdrsz ≤ 2 * cfg.BLCKSZ)
    (halloc : ∀ n, alloc_f n = true) (c : List Byte) (hwf : WellFormedCmd cfg c)
    (need tail : List Byte) (rest : List RecvOutcome) (st : RxState)
    (hb : Between cfg st) (hstream : st.buf ++ need = c ++ tail)
    (hf : Feeds st.sock need rest) :
    ∃ n, DecodedOne cfg c tail rest st.count st.nalloc st.trace (rxRun cfg alloc_f n st) := by
  obtain ⟨pc, buffer, buf, bufsz, fl, cnt, curr, na, sock, tr⟩ := st
  obtain ⟨hcurr, hsz, hpc⟩ := hb
  simp only at hcurr hsz hpc hstream hf ⊢
  subst hcurr; subst hsz
  rcases hpc with ⟨rfl, rfl, rfl⟩ | ⟨rfl, b, rfl⟩
  · exact decode_local cfg alloc_f hfit halloc c hwf [] need tail rest fl cnt na sock tr
      (by simpa using hpos) hstream hf
  · by_cases hh : cfg.hdrsz ≤ buf.length
    · exact decode_buffered cfg alloc_f halloc c hwf buf need tail rest b fl cnt na sock tr
        hh hstream hf
    · obtain ⟨n, hdec⟩ := decode_local cfg alloc_f hfit halloc c hwf buf need tail rest 0 cnt na
        sock tr (by omega) hstream hf
      refine ⟨n + 1, ?_⟩
      rw [rxRun_succ, next_short cfg alloc_f buf (by omega)]
      exact hdec

theorem rxStep_halted (cfg : XpuConfig) (alloc_f : Nat → Bool) (st : RxState)
    (h : st.pc ≠ .loop ∧ st.pc ≠ .next) : rxStep cfg alloc_f st = st := by
  unfold rxStep
  split
  · exact absurd (by assumption) h.1
  · exact absurd (by assumption) h.2
  · rfl

theorem rxRun_halted (cfg : XpuConfig) (alloc_f : Nat → Bool) (n : Nat) (st : RxState)
    (h : st.pc ≠ .loop ∧ st.pc ≠ .next) : rxRun cfg alloc_f n st = st := by
  induction n with
  | zero => rfl
  | succ n ih => rw [rxRun_succ, rxStep_halted cfg alloc_f st h, ih]

theorem decode_all (cfg : XpuConfig) (alloc_f : Nat → Bool)
    (hpos : 0 < cfg.hdrsz) (hfit : cfg.hdrsz ≤ 2 * cfg.BLCKSZ)
    (halloc : ∀ n, alloc_f n = true) :
    ∀ (cmds : List (List Byte)), (∀ c ∈ cmds, WellFormedCmd cfg c) →
    ∀ (need : List Byte) (st : RxState), Between cfg st → st.buf ++ need = cmds.flatten →
      Feeds st.sock need [.eof] →
      ∃ n, DecodedAll cmds st.count st.nalloc st.trace (rxRun cfg alloc_f n st) := by
  intro cmds
  induction cmds with
  | nil =>
    intro _ need st hb hstream hf
    simp at hstream
    obtain ⟨hbuf, rfl⟩ := hstream
    have hsock := feeds_nil hf
    obtain ⟨pc, buffer, buf, bufsz, fl, cnt, curr, na, sock, tr⟩ := st
    obtain ⟨hcurr, hsz, hpc⟩ := hb
    simp only at hcurr hsz hpc hbuf hsock ⊢
    subst hcurr; subst hsz; subst hbuf; subst hsock
    rcases hpc with ⟨rfl, rfl, _⟩ | ⟨rfl, b, rfl⟩
    · refine ⟨1, ?_⟩
      simp [rxRun, rxStep, rxRecvStep, rxEndOfStream, DecodedAll, attachesOf, allocsOf]
    · refine ⟨2, ?_⟩
      rw [rxRun_succ, next_short cfg alloc_f [] (by simpa using hpos)]
      simp [rxRun, rxStep, rxRecvStep, rxEndOfStream, DecodedAll, attachesOf, allocsOf]
  | cons c cs ih =>
    intro hwf need st hb hstream hf
    obtain ⟨n1, hb1, hc1, hn1, ⟨ext1, he1, ha1, hl1⟩, need1, hf1, hs1⟩ :=
      decode_one cfg alloc_f hpos hfit halloc c (hwf c (by simp)) need cs.flatten [.eof] st hb
        (by simpa using hstream) hf
    obtain ⟨n2, hpc2, hsock2, ext2, he2, ha2, hl2⟩ :=
      ih (fun c hc => hwf c (by simp [hc])) need1 _ hb1 hs1 hf1
    refine ⟨n1 + n2, ?_⟩
    rw [rxRun_add]
    refine ⟨?_, hsock2, ext1 ++ ext2, ?_, ?_, ?_⟩
    · rw [hpc2, hc1]; simp; omega
    · rw [he2, he1, List.append_assoc]
    · rw [attachesOf_append, ha1, ha2, hn1]; rfl
    · rw [allocsOf_append, hl1, hl2, hn1]; rfl

/-- C1 (framing correctness).  For every list of well-formed commands and every cutting of
their concatenated bytes into non-empty `recv` chunks followed by end-of-stream, with an
allocator that never fails, `pgstrom_receive_xpu_command` returns (for every sufficiently
large step budget) the number of commands, and the commands passed to `attach_f` are,
in stream order, exactly the original commands, byte for byte. -/
theorem receive_framing_correct (cfg : XpuConfig) (alloc_f : Nat → Bool)
    (hpos : 0 < cfg.hdrsz) (hfit : cfg.hdrsz ≤ 2 * cfg.BLCKSZ)
    (halloc : ∀ n, alloc_f n = true)
    (cmds : List (List Byte)) (hwf : ∀ c ∈ cmds, WellFormedCmd cfg c)
    (chunks : List (List Byte)) (hne : ∀ ch ∈ chunks, ch ≠ [])
    (hcut : chunks.flatten = cmds.flatten) :
    ∃ fuel, ∀ fuel', fuel ≤ fuel' →
      ∃ r, pgstrom_receive_xpu_command cfg alloc_f fuel'
              (chunks.map RecvOutcome.data ++ [.eof]) = some r ∧
        r.ret = some (Int.ofNat cmds.length) ∧ attachedCmds r.trace = cmds := by
  obtain ⟨n, hpc, hsock, ext, he, ha, _⟩ :=
    decode_all cfg alloc_f hpos hfit halloc cmds hwf cmds.flatten
      (rxInit cfg (chunks.map RecvOutcome.data ++ [.eof]))
      ⟨rfl, rfl, Or.inl ⟨rfl, rfl, rfl⟩⟩ (by simp [rxInit, rxRestart])
      ⟨chunks, hne, hcut, by simp [rxInit, rxRestart]⟩
  refine ⟨n, fun fuel' hle => ?_⟩
  obtain ⟨d, rfl⟩ := Nat.exists_eq_add_of_le hle
  have hrun : rxRun cfg alloc_f (n + d) (rxInit cfg (chunks.map RecvOutcome.data ++ [.eof]))
      = rxRun cfg alloc_f n (rxInit cfg (chunks.map RecvOutcome.data ++ [.eof])) := by
    rw [rxRun_add]
    exact rxRun_halted cfg alloc_f d _ (by rw [hpc]; simp)
  refine ⟨⟨some (Int.ofNat cmds.length),
    (rxRun cfg alloc_f n (rxInit cfg (chunks.map RecvOutcome.data ++ [.eof]))).trace,
    (rxRun cfg alloc_f n (rxInit cfg (chunks.map RecvOutcome.data ++ [.eof]))).sock⟩,
    ?_, rfl, ?_⟩
  · unfold pgstrom_receive_xpu_command
    rw [hrun]
    unfold rxResult
    rw [hpc]
    simp [rxInit, rxRestart]
  · simp only [attachedCmds]
    rw [he]
    simp [rxInit, rxRestart, ha, List.enumFrom_map_snd, attachesOf]

theorem receive_framing_correct_witness :
    ∃ fuel, ∀ fuel', fuel ≤ fuel' →
      ∃ r, pgstrom_receive_xpu_command tinyCfg (fun _ => true) fuel'
              ([[7, 3], [9, 7, 2, 7, 6, 1], [2, 3, 4]].map RecvOutcome.data ++ [.eof]) = some r ∧
        r.ret = some (Int.ofNat [[7, 3, 9], [7, 2], [7, 6, 1, 2, 3, 4]].length) ∧
        attachedCmds r.trace = [[7, 3, 9], [7, 2], [7, 6, 1, 2, 3, 4]] :=
  receive_framing_correct tinyCfg (fun _ => true) (by decide) (by decide) (fun _ => rfl)
    [[7, 3, 9], [7, 2], [7, 6, 1, 2, 3, 4]] (by decide) [[7, 3], [9, 7, 2, 7, 6, 1], [2, 3, 4]]
    (by decide) (by decide)

theorem attachedCmds_append (a b : List RxEvent) :
    attachedCmds (a ++ b) = attachedCmds a ++ attachedCmds b := by
  simp [attachedCmds, attachesOf_append]

theorem attachedCmds_snoc_recv (tr : List RxEvent) (b : BufPtr) (o r f : Nat)
    (g : List Byte) : attachedCmds (tr ++ [RxEvent.recv b o r f g]) = attachedCmds tr := by
  rw [attachedCmds_append]; simp [attachedCmds, attachesOf]

theorem attachedCmds_snoc_alloc (tr : List RxEvent) (sz : Nat) (r : Option Nat) :
    attachedCmds (tr ++ [RxEvent.alloc sz r]) = attachedCmds tr := by
  rw [attachedCmds_append]; simp [attachedCmds, attachesOf]

theorem attachedCmds_snoc_attach (tr : List RxEvent) (id : Nat) (c : List Byte) :
    attachedCmds (tr ++ [RxEvent.attach id c]) = attachedCmds tr ++ [c] := by
  rw [attachedCmds_append]; simp [attachedCmds, attachesOf]

theorem receivedBytes_snoc_recv (tr : List RxEvent) (b : BufPtr) (o r f : Nat)
    (g : List Byte) : receivedBytes (tr ++ [RxEvent.recv b o r f g]) = receivedBytes tr ++ g := by
  simp [receivedBytes_append, receivedBytes]

theorem receivedBytes_snoc_alloc (tr : List RxEvent) (sz : Nat) (r : Option Nat) :
    receivedBytes (tr ++ [RxEvent.alloc sz r]) = receivedBytes tr := by
  simp [receivedBytes_append, receivedBytes]

theorem receivedBytes_snoc_attach (tr : List RxEvent) (id : Nat) (c : List Byte) :
    receivedBytes (tr ++ [RxEvent.attach id c]) = receivedBytes tr := by
  simp [receivedBytes_append, receivedBytes]

theorem sockBytes_sockAfter (bs : List Byte) (req : Nat) (rest : List RecvOutcome) :
    sockBytes (sockAfter bs req rest) = bs.drop req ++ sockBytes rest := by
  unfold sockAfter
  by_cases h : bs.drop req = []
  · simp [h]
  · simp [h, sockBytes]

theorem head_command {cfg : XpuConfig} {cmds : List (List Byte)} {buf s : List Byte} {k : Nat}
    (hpos : 0 < cfg.hdrsz) (hwf : ∀ c ∈ cmds, WellFormedCmd cfg c)
    (hp : buf ++ s <+: (cmds.drop k).flatten) (hh : cfg.hdrsz ≤ buf.length) :
    ∃ c cs, cmds.drop k = c :: cs ∧ WellFormedCmd cfg c ∧
      buf.take cfg.hdrsz = c.take cfg.hdrsz ∧ buf ++ s <+: c ++ cs.flatten := by
  cases hd : cmds.drop k with
  | nil =>
    rw [hd] at hp
    simp at hp
    rw [hp.1] at hh
    simp at hh
    omega
  | cons c cs =>
    rw [hd] at hp
    simp only [List.flatten_cons] at hp
    have hc : c ∈ cmds := List.mem_of_mem_drop (by rw [hd]; simp)
    have hwfc := hwf c hc
    refine ⟨c, cs, rfl, hwfc, ?_, hp⟩
    have hb : buf <+: c ++ cs.flatten := (List.prefix_append buf s).trans hp
    rw [take_hdr_of_isPrefix hb hh, List.take_append_of_le_length hwfc.2.2]

theorem drop_cons_facts {cmds : List (List Byte)} {k : Nat} {c : List Byte}
    {cs : List (List Byte)} (hd : cmds.drop k = c :: cs) :
    k < cmds.length ∧ cmds.take (k + 1) = cmds.take k ++ [c] ∧ cmds.drop (k + 1) = cs := by
  have hk : k < cmds.length := by
    by_contra hcon
    have : cmds.drop k = [] := List.drop_eq_nil_of_le (by omega)
    rw [this] at hd
    exact absurd hd (by simp)
  have hsplit : cmds = cmds.take k ++ c :: cs := by rw [← hd, List.take_append_drop]
  have hlen : (cmds.take k).length = k := by simp; omega
  generalize cmds.take k = t at hsplit hlen
  subst hsplit
  subst hlen
  refine ⟨hk, ?_, ?_⟩
  · rw [List.take_append]; simp
  · rw [← List.drop_drop, List.drop_left]; simp

theorem streamInv_endOfStream (cfg : XpuConfig) (cmds : List (List Byte))
    (st : RxState) (h : StreamInv cfg cmds st) :
    StreamInv cfg cmds (rxEndOfStream st) := by
  obtain ⟨hcnt, hatt, hrecv, hpre, hcurr, hret, hnext, hab⟩ := h
  unfold rxEndOfStream
  by_cases hc : st.curr.isSome ∨ 0 < st.buf.length
  · rw [if_pos hc]
    exact ⟨hcnt, hatt, hrecv, hpre, hcurr, by simp, by simp, by simp⟩
  · rw [if_neg hc]
    refine ⟨hcnt, hatt, hrecv, hpre, hcurr, ?_, by simp, by simp⟩
    intro v hv
    simp at hv
    right
    refine ⟨hv.symm, ?_⟩
    simp at hc
    simpa using hc.2

theorem isPrefix_eq_of_length_le {a b : List Byte} (h : a <+: b) (hl : b.length ≤ a.length) :
    a = b :=
  List.IsPrefix.eq_of_length h (Nat.le_antisymm h.length_le hl)

theorem streamInv_recv (cfg : XpuConfig) (cmds : List (List Byte))
    (hpos : 0 < cfg.hdrsz) (hwf : ∀ c ∈ cmds, WellFormedCmd cfg c)
    (st : RxState) (h : StreamInv cfg cmds st) (hpc : st.pc = .loop) :
    StreamInv cfg cmds (rxRecvStep cfg st) := by
  obtain ⟨pc, buffer, buf, bufsz, fl, cnt, curr, na, sock, tr⟩ := st
  obtain ⟨hcnt, hatt, hrecv, hpre, hcurr, hret, hnext, hab⟩ := h
  simp only at hcnt hatt hrecv hpre hcurr hret hnext hab hpc
  subst hpc
  unfold rxRecvStep
  cases sock with
  | nil => exact ⟨hcnt, hatt, hrecv, hpre, hcurr, by simp, by simp, by simp⟩
  | cons o rest =>
    cases o with
    | eintr =>
      refine ⟨hcnt, ?_, ?_, ?_, hcurr, by simp, by simp, by simp⟩
      · simpa [attachedCmds_snoc_recv] using hatt
      · simpa [receivedBytes_snoc_recv] using hrecv
      · simpa [sockBytes] using hpre
    | eagain =>
      by_cases hc : curr.isNone ∧ buf.length = 0
      · simp only [hc, and_self, if_true]
        refine ⟨hcnt, ?_, ?_, ?_, hcurr, ?_, by simp, by simp⟩
        · simpa [attachedCmds_snoc_recv] using hatt
        · simpa [receivedBytes_snoc_recv] using hrecv
        · simpa [sockBytes] using hpre
        · intro v hv
          simp at hv
          right
          exact ⟨hv.symm, List.length_eq_zero.mp hc.2⟩
      · simp only [hc, if_false]
        refine ⟨hcnt, ?_, ?_, ?_, hcurr, by simp, by simp, by simp⟩
        · simpa [attachedCmds_snoc_recv] using hatt
        · simpa [receivedBytes_snoc_recv] using hrecv
        · simpa [sockBytes] using hpre
    | error e =>
      refine ⟨hcnt, ?_, ?_, ?_, hcurr, ?_, by simp, by simp⟩
      · simpa [attachedCmds_snoc_recv] using hatt
      · simpa [receivedBytes_snoc_recv] using hrecv
      · simpa [sockBytes] using hpre
      · intro v hv
        simp at hv
        left; exact hv.symm
    | eof =>
      apply streamInv_endOfStream
      refine ⟨hcnt, ?_, ?_, ?_, hcurr, by simp, by simp, by simp⟩
      · simpa [attachedCmds_snoc_recv] using hatt
      · simpa [receivedBytes_snoc_recv] using hrecv
      · simpa [sockBytes] using hpre
    | data bs =>
      have hsplit : buf ++ sockBytes (RecvOutcome.data bs :: rest)
          = (buf ++ bs.take (bufsz - buf.length))
            ++ sockBytes (sockAfter bs (bufsz - buf.length) rest) := by
        rw [sockBytes_sockAfter]
        simp only [sockBytes, List.append_assoc]
        rw [← List.append_assoc (bs.take _), List.take_append_drop]
      rw [hsplit] at hpre
      by_cases hg : bs.take (bufsz - buf.length) = []
      · simp only [hg, if_true]
        apply streamInv_endOfStream
        refine ⟨hcnt, ?_, ?_, ?_, hcurr, by simp, by simp, by simp⟩
        · simpa [attachedCmds_snoc_recv] using hatt
        · simpa [receivedBytes_snoc_recv] using hrecv
        · simpa [hg] using hpre
      · simp only [hg, if_false]
        unfold rxGotBytes
        cases curr with
        | none =>
          refine ⟨hcnt, ?_, ?_, hpre, by simp, by simp, by simp, by simp⟩
          · simpa [attachedCmds_snoc_recv] using hatt
          · simp [receivedBytes_snoc_recv, hrecv]
        | some id =>
          obtain ⟨hh, hlt, hsz⟩ := hcurr id rfl
          have hhdr : (buf ++ bs.take (bufsz - buf.length)).take cfg.hdrsz
              = buf.take cfg.hdrsz := List.take_append_of_le_length hh
          have hgl : (bs.take (bufsz - buf.length)).length ≤ bufsz - buf.length := by
            simp
          simp only [hhdr, ← hsz]
          by_cases hfull : bufsz ≤ (buf ++ bs.take (bufsz - buf.length)).length
          · have hlen : (buf ++ bs.take (bufsz - buf.length)).length = bufsz := by
              have := List.length_append buf (bs.take (bufsz - buf.length))
              omega
            obtain ⟨c, cs, hd, hwfc, hch, hpc⟩ := head_command hpos hwf hpre
              (by rw [hlen]; omega)
            obtain ⟨hk, htk, hdk⟩ := drop_cons_facts hd
            rw [hhdr] at hch
            have hcl : c.length = bufsz := by rw [hsz, hch]; exact hwfc.2.1.symm
            have hbc : buf ++ bs.take (bufsz - buf.length) = c := by
              have h1 : buf ++ bs.take (bufsz - buf.length) <+: c ++ cs.flatten :=
                (List.prefix_append _ _).trans hpc
              have h2 := take_hdr_of_isPrefix (h := c.length) h1 (by rw [hlen, hcl])
              rw [List.take_of_length_le (by rw [hlen, hcl]), List.take_left'] at h2
              · exact h2
              · rfl
            have hmagic : cfg.magic (buf.take cfg.hdrsz) = cfg.XpuCommandMagicNumber := by
              rw [hch]; exact hwfc.1
            simp only [hlen, le_refl, if_true, hmagic, ne_eq, not_true_eq_false, and_false, if_false]
            unfold rxRestart
            refine ⟨hk, ?_, ?_, ?_, by simp, by simp, by simp, by simp⟩
            · simp only [attachedCmds_snoc_attach, attachedCmds_snoc_recv, hatt, htk, hbc]
            · simp only [receivedBytes_snoc_attach, receivedBytes_snoc_recv, hrecv, htk]
              simp [← hbc]
            · simp only [hdk, List.nil_append]
              rw [hbc] at hpc
              exact (List.prefix_append_right_inj c).mp hpc
          · simp only [hfull, if_false]
            refine ⟨hcnt, ?_, ?_, hpre, ?_, by simp, by simp, by simp⟩
            · simpa [attachedCmds_snoc_recv] using hatt
            · simp [receivedBytes_snoc_recv, hrecv]
            · intro id' _
              have hl := List.length_append buf (bs.take (bufsz - buf.length))
              simp only
              refine ⟨by omega, by omega, ?_⟩
              rw [hhdr]; exact hsz

theorem streamInv_next (cfg : XpuConfig) (alloc_f : Nat → Bool) (cmds : List (List Byte))
    (hpos : 0 < cfg.hdrsz) (hwf : ∀ c ∈ cmds, WellFormedCmd cfg c)
    (st : RxState) (h : StreamInv cfg cmds st) (hpc : st.pc = .next) :
    StreamInv cfg cmds (rxNextStep cfg alloc_f st) := by
  obtain ⟨pc, buffer, buf, bufsz, fl, cnt, curr, na, sock, tr⟩ := st
  obtain ⟨hcnt, hatt, hrecv, hpre, hcurr, hret, hnext, hab⟩ := h
  simp only at hcnt hatt hrecv hpre hcurr hret hnext hab hpc
  subst hpc
  have hnone : curr = none := hnext rfl
  subst hnone
  unfold rxNextStep
  by_cases hshort : buf.length < cfg.hdrsz
  · simp only [hshort, if_true]
    by_cases hb : buffer ≠ BufPtr.loc 0
    · rw [if_pos hb]
      refine ⟨hcnt, hatt, hrecv, hpre, by simp, by simp, by simp, by simp⟩
    · rw [if_neg hb]
      refine ⟨hcnt, hatt, hrecv, hpre, by simp, by simp, by simp, by simp⟩
  · simp only [hshort, if_false]
    obtain ⟨c, cs, hd, hwfc, hch, hpc⟩ := head_command hpos hwf hpre (by omega)
    obtain ⟨hk, htk, hdk⟩ := drop_cons_facts hd
    have hlen : cfg.length (buf.take cfg.hdrsz) = c.length := by rw [hch]; exact hwfc.2.1
    have hmagic : cfg.magic (buf.take cfg.hdrsz) = cfg.XpuCommandMagicNumber := by
      rw [hch]; exact hwfc.1
    simp only [hlen, hmagic, ne_eq, not_true_eq_false, and_false, if_false]
    by_cases hfull : c.length ≤ buf.length
    · simp only [hfull, if_true]
      cases hal : alloc_f c.length
      · simp only [if_true]
        refine ⟨hcnt, ?_, ?_, hpre, by simp, by simp, by simp, by simp⟩
        · simpa [attachedCmds_snoc_alloc] using hatt
        · simpa [receivedBytes_snoc_alloc] using hrecv
      · simp only [Bool.true_eq_false, if_false]
        have hb : buf <+: c ++ cs.flatten := (List.prefix_append _ _).trans hpc
        have htake : buf.take c.length = c := by
          rw [take_hdr_of_isPrefix hb hfull, List.take_left']
          rfl
        have hbuf : buf = c ++ buf.drop c.length := by
          conv_lhs => rw [← List.take_append_drop c.length buf, htake]
        have hpre' : buf.drop c.length ++ sockBytes sock <+: cs.flatten := by
          rw [hbuf, List.append_assoc] at hpc
          exact (List.prefix_append_right_inj c).mp hpc
        have hattach : attachedCmds (tr ++ [RxEvent.alloc c.length (some na),
            RxEvent.attach na (buf.take c.length)]) = cmds.take (cnt + 1) := by
          rw [attachedCmds_append, hatt, htk, htake]
          simp [attachedCmds, attachesOf]
        have hrb : receivedBytes (tr ++ [RxEvent.alloc c.length (some na),
            RxEvent.attach na (buf.take c.length)]) = receivedBytes tr := by
          rw [receivedBytes_append]
          simp [receivedBytes]
        by_cases hex : c.length = buf.length
        · simp only [hex, if_true]
          unfold rxRestart
          have hdn : buf.drop c.length = [] := by rw [hex]; simp
          refine ⟨hk, ?_, ?_, ?_, by simp, by simp, by simp, by simp⟩
          · rw [← hex]; exact hattach
          · simp only
            rw [← hex, hrb, hrecv, htk]
            conv_lhs => rw [hbuf, hdn]
            simp
          · simp only [hdk, List.nil_append]
            rw [hdn] at hpre'
            simpa using hpre'
        · simp only [hex, if_false]
          refine ⟨hk, hattach, ?_, ?_, by simp, by simp, by simp, by simp⟩
          · simp only
            rw [hrb, hrecv, htk]
            conv_lhs => rw [hbuf]
            simp
          · simp only [hdk]
            exact hpre'
    · simp only [hfull, if_false]
      cases hal : alloc_f c.length
      · simp only [if_true]
        refine ⟨hcnt, ?_, ?_, hpre, by simp, by simp, by simp, by simp⟩
        · simpa [attachedCmds_snoc_alloc] using hatt
        · simpa [receivedBytes_snoc_alloc] using hrecv
      · simp only [Bool.true_eq_false, if_false]
        refine ⟨hcnt, ?_, ?_, hpre, ?_, by simp, by simp, by simp⟩
        · simpa [attachedCmds_snoc_alloc] using hatt
        · simpa [receivedBytes_snoc_alloc] using hrecv
        · intro id' _
          simp only
          exact ⟨by omega, by omega, hlen.symm⟩

theorem streamInv_step (cfg : XpuConfig) (alloc_f : Nat → Bool) (cmds : List (List Byte))
    (hpos : 0 < cfg.hdrsz) (hwf : ∀ c ∈ cmds, WellFormedCmd cfg c)
    (st : RxState) (h : StreamInv cfg cmds st) :
    StreamInv cfg cmds (rxStep cfg alloc_f st) := by
  unfold rxStep
  split
  · exact streamInv_recv cfg cmds hpos hwf st h (by assumption)
  · exact streamInv_next cfg alloc_f cmds hpos hwf st h (by assumption)
  · exact h

theorem streamInv_run (cfg : XpuConfig) (alloc_f : Nat → Bool) (cmds : List (List Byte))
    (hpos : 0 < cfg.hdrsz) (hwf : ∀ c ∈ cmds, WellFormedCmd cfg c) (n : Nat) :
    ∀ st : RxState, StreamInv cfg cmds st → StreamInv cfg cmds (rxRun cfg alloc_f n st) := by
  induction n with
  | zero => intro st h; exact h
  | succ n ih =>
    intro st h
    rw [rxRun_succ]
    exact ih _ (streamInv_step cfg alloc_f cmds hpos hwf st h)

theorem streamInv_init (cfg : XpuConfig) (cmds : List (List Byte)) (sock : List RecvOutcome)
    (hs : sockBytes sock <+: cmds.flatten) : StreamInv cfg cmds (rxInit cfg sock) := by
  refine ⟨by simp [rxInit, rxRestart], by simp [rxInit, rxRestart, attachedCmds, attachesOf],
    by simp [rxInit, rxRestart, receivedBytes], by simpa [rxInit, rxRestart] using hs,
    by simp [rxInit, rxRestart], by simp [rxInit, rxRestart], by simp [rxInit, rxRestart],
    by simp [rxInit, rxRestart]⟩

theorem sum_length_fields (cfg : XpuConfig) (l : List (List Byte))
    (hwf : ∀ c ∈ l, WellFormedCmd cfg c) :
    l.flatten.length = (l.map (fun a => cfg.length (a.take cfg.hdrsz))).sum := by
  induction l with
  | nil => rfl
  | cons c t ih =>
    simp only [List.flatten_cons, List.length_append, List.map_cons, List.sum_cons]
    rw [ih (fun c hc => hwf c (by simp [hc])), (hwf c (by simp)).2.1]

/-- C2 (no torn command).  Over any leading part of a stream of well-formed commands and any
script of `recv` outcomes: when the call returns a count `v ≥ 0`, the commands attached are
the first `v` commands and the number of bytes taken from the socket is the sum of their
`length` fields.  On `EAGAIN`/`EWOULDBLOCK` the call returns the count exactly when no
command is in progress (`curr == NULL && offset == 0`); otherwise it stays in the loop with
`recv_flags = 0` (blocking) and keeps what it has read. -/
theorem receive_no_torn_command (cfg : XpuConfig) (alloc_f : Nat → Bool)
    (hpos : 0 < cfg.hdrsz) (cmds : List (List Byte)) (hwf : ∀ c ∈ cmds, WellFormedCmd cfg c) :
    (∀ (sock : List RecvOutcome) (fuel : Nat) (r : RxResult) (v : Int),
      sockBytes sock <+: cmds.flatten →
      pgstrom_receive_xpu_command cfg alloc_f fuel sock = some r → r.ret = some v → 0 ≤ v →
        attachedCmds r.trace = cmds.take v.toNat ∧
        (receivedBytes r.trace).length
          = ((attachedCmds r.trace).map (fun a => cfg.length (a.take cfg.hdrsz))).sum) ∧
    (∀ (st : RxState) (rest : List RecvOutcome), st.pc = .loop → st.sock = .eagain :: rest →
      ((st.curr = none ∧ st.offset = 0) →
        (rxStep cfg alloc_f st).pc = .ret (Int.ofNat st.count)) ∧
      (¬ (st.curr = none ∧ st.offset = 0) →
        (rxStep cfg alloc_f st).pc = .loop ∧ (rxStep cfg alloc_f st).recv_flags = 0 ∧
        (rxStep cfg alloc_f st).buf = st.buf ∧ (rxStep cfg alloc_f st).curr = st.curr ∧
        (rxStep cfg alloc_f st).count = st.count ∧ (rxStep cfg alloc_f st).sock = rest)) := by
  constructor
  · intro sock fuel r v hs hrun hret hv
    have hinv := streamInv_run cfg alloc_f cmds hpos hwf fuel _ (streamInv_init cfg cmds sock hs)
    obtain ⟨_, hatt, hrecv, _, _, hr, _, _⟩ := hinv
    unfold pgstrom_receive_xpu_command rxResult at hrun
    generalize rxRun cfg alloc_f fuel (rxInit cfg sock) = fin at hrun hatt hrecv hr
    cases hpc : fin.pc with
    | loop => rw [hpc] at hrun; simp at hrun
    | next => rw [hpc] at hrun; simp at hrun
    | blocked => rw [hpc] at hrun; simp at hrun
    | abort =>
      rw [hpc] at hrun; simp at hrun
      rw [← hrun] at hret; simp at hret
    | ret w =>
      rw [hpc] at hrun; simp at hrun
      rw [← hrun] at hret; simp at hret
      subst hret
      rcases hr w hpc with h1 | ⟨h1, h2⟩
      · omega
      · rw [← hrun]
        simp only
        rw [hatt, hrecv, h2, h1]
        simp only [Int.ofNat_eq_coe, Int.toNat_ofNat, List.append_nil]
        exact ⟨trivial, sum_length_fields cfg _ (fun c hc => hwf c (List.mem_of_mem_take hc))⟩
  · intro st rest hpc hsock
    obtain ⟨pc, buffer, buf, bufsz, fl, cnt, curr, na, sock, tr⟩ := st
    simp only at hpc hsock
    subst hpc; subst hsock
    constructor
    · rintro ⟨hc, ho⟩
      simp only at hc
      subst hc
      simp only [RxState.offset] at ho
      simp [rxStep, rxRecvStep, ho]
    · intro hn
      simp only [RxState.offset] at hn
      have : ¬ (curr.isNone = true ∧ buf.length = 0) := by
        intro h
        exact hn ⟨Option.isNone_iff_eq_none.mp h.1, h.2⟩
      simp only [rxStep, rxRecvStep, this, if_false]
      simp


theorem receive_no_torn_command_witness :
    ∃ r, pgstrom_receive_xpu_command tinyCfg (fun _ => true) 20
          [.data [7, 3], .eintr, .data [9], .eagain] = some r ∧ r.ret = some 1 ∧
      attachedCmds r.trace = [[7, 3, 9], [7, 2]].take (1 : Int).toNat ∧
      (receivedBytes r.trace).length
        = ((attachedCmds r.trace).map (fun a => tinyCfg.length (a.take tinyCfg.hdrsz))).sum := by
  have hs : (pgstrom_receive_xpu_command tinyCfg (fun _ => true) 20
      [.data [7, 3], .eintr, .data [9], .eagain]).isSome = true := by decide
  obtain ⟨r, hr⟩ := Option.isSome_iff_exists.mp hs
  have hret : r.ret = some 1 := by
    have h : (pgstrom_receive_xpu_command tinyCfg (fun _ => true) 20
        [.data [7, 3], .eintr, .data [9], .eagain]).map (fun r => r.ret) = some (some 1) := by
      decide
    rw [hr] at h
    simpa using h
  exact ⟨r, hr, hret,
    (receive_no_torn_command tinyCfg (fun _ => true) (by decide) [[7, 3, 9], [7, 2]]
      (by decide)).1 [.data [7, 3], .eintr, .data [9], .eagain] 20 r 1 ⟨[7, 2], by decide⟩
      hr hret (by decide)⟩

/-- C7 (end of stream).  When `recv` returns 0, the call ends at once and attaches nothing:
it returns the count of commands attached so far if and only if no command is in progress
(`curr == NULL && offset == 0`), and returns -1 otherwise. -/
theorem receive_end_of_stream (cfg : XpuConfig) (alloc_f : Nat → Bool) (st : RxState)
    (hpc : st.pc = .loop) (hz : recvReturnsZero st = true) :
    ((rxStep cfg alloc_f st).pc = .ret (Int.ofNat st.count) ↔
      (st.curr = none ∧ st.offset = 0)) ∧
    (¬ (st.curr = none ∧ st.offset = 0) → (rxStep cfg alloc_f st).pc = .ret (-1)) ∧
    attachesOf (rxStep cfg alloc_f st).trace = attachesOf st.trace := by
  obtain ⟨pc, buffer, buf, bufsz, fl, cnt, curr, na, sock, tr⟩ := st
  simp only at hpc
  subst hpc
  have key : ∀ (sock' : List RecvOutcome) (tr' : List RxEvent),
      ((rxEndOfStream ⟨.loop, buffer, buf, bufsz, fl, cnt, curr, na, sock', tr'⟩).pc
          = .ret (Int.ofNat cnt) ↔ (curr = none ∧ buf.length = 0)) ∧
      (¬ (curr = none ∧ buf.length = 0) →
        (rxEndOfStream ⟨.loop, buffer, buf, bufsz, fl, cnt, curr, na, sock', tr'⟩).pc
          = .ret (-1)) ∧
      (rxEndOfStream ⟨.loop, buffer, buf, bufsz, fl, cnt, curr, na, sock', tr'⟩).trace = tr' := by
    intro sock' tr'
    unfold rxEndOfStream
    by_cases hc : curr.isSome = true ∨ 0 < buf.length
    · have hn : ¬ (curr = none ∧ buf.length = 0) := by
        rintro ⟨h1, h2⟩
        rcases hc with hc | hc
        · rw [h1] at hc; simp at hc
        · omega
      rw [if_pos hc]
      refine ⟨⟨fun h => ?_, fun h => absurd h hn⟩, fun _ => rfl, rfl⟩
      simp at h
    · rw [if_neg hc]
      have hy : curr = none ∧ buf.length = 0 := by
        simp at hc
        exact ⟨hc.1, by simp [hc.2]⟩
      exact ⟨⟨fun _ => hy, fun _ => rfl⟩, fun h => absurd hy h, rfl⟩
  cases sock with
  | nil => simp [recvReturnsZero] at hz
  | cons o rest =>
    cases o with
    | eintr => simp [recvReturnsZero] at hz
    | eagain => simp [recvReturnsZero] at hz
    | error e => simp [recvReturnsZero] at hz
    | eof =>
      simp only [rxStep, rxRecvStep, RxState.offset]
      obtain ⟨h1, h2, h3⟩ := key rest
        (tr ++ [RxEvent.recv buffer buf.length (bufsz - buf.length) fl []])
      refine ⟨h1, h2, ?_⟩
      rw [h3, attachesOf_append]
      simp [attachesOf]
    | data bs =>
      have hg : bs.take (bufsz - buf.length) = [] := by
        simpa [recvReturnsZero] using hz
      simp only [rxStep, rxRecvStep, RxState.offset, hg, if_true]
      obtain ⟨h1, h2, h3⟩ := key (sockAfter bs (bufsz - buf.length) rest)
        (tr ++ [RxEvent.recv buffer buf.length (bufsz - buf.length) fl []])
      refine ⟨h1, h2, ?_⟩
      rw [h3, attachesOf_append]
      simp [attachesOf]

theorem receive_end_of_stream_witness :
    ((rxStep tinyCfg (fun _ => true)
        ⟨.loop, .loc 0, [7], 4, 0, 2, none, 2, [.eof], []⟩).pc = .ret (Int.ofNat 2) ↔
      ((none : Option Nat) = none ∧
        (⟨.loop, .loc 0, [7], 4, 0, 2, none, 2, [.eof], []⟩ : RxState).offset = 0)) ∧
    (¬ ((none : Option Nat) = none ∧
        (⟨.loop, .loc 0, [7], 4, 0, 2, none, 2, [.eof], []⟩ : RxState).offset = 0) →
      (rxStep tinyCfg (fun _ => true)
        ⟨.loop, .loc 0, [7], 4, 0, 2, none, 2, [.eof], []⟩).pc = .ret (-1)) ∧
    attachesOf (rxStep tinyCfg (fun _ => true)
        ⟨.loop, .loc 0, [7], 4, 0, 2, none, 2, [.eof], []⟩).trace = attachesOf [] :=
  receive_end_of_stream tinyCfg (fun _ => true)
    ⟨.loop, .loc 0, [7], 4, 0, 2, none, 2, [.eof], []⟩ rfl rfl

theorem bufBound_endOfStream {cfg : XpuConfig} {st : RxState} (h : BufBound cfg st) :
    BufBound cfg (rxEndOfStream st) := by
  unfold rxEndOfStream
  split <;> exact h

theorem bufBound_step (cfg : XpuConfig) (alloc_f : Nat → Bool)
    (hfit : cfg.hdrsz ≤ 2 * cfg.BLCKSZ) (st : RxState)
    (h : BufBound cfg st) : BufBound cfg (rxStep cfg alloc_f st) := by
  obtain ⟨pc, buffer, buf, bufsz, fl, cnt, curr, na, sock, tr⟩ := st
  obtain ⟨h1, h2⟩ := h
  simp only at h1 h2
  unfold rxStep
  cases pc with
  | ret v => exact ⟨h1, h2⟩
  | abort => exact ⟨h1, h2⟩
  | blocked => exact ⟨h1, h2⟩
  | loop =>
    simp only [rxRecvStep]
    cases sock with
    | nil => exact ⟨h1, h2⟩
    | cons o rest =>
      cases o with
      | eintr => exact ⟨h1, h2⟩
      | eagain =>
        simp only
        split <;> exact ⟨h1, h2⟩
      | error e => exact ⟨h1, h2⟩
      | eof => exact bufBound_endOfStream ⟨h1, h2⟩
      | data bs =>
        simp only
        have hg : (buf ++ bs.take (bufsz - buf.length)).length ≤ bufsz := by
          simp only [List.length_append, List.length_take]
          omega
        split
        · exact bufBound_endOfStream ⟨h1, h2⟩
        · unfold rxGotBytes
          cases curr with
          | none => exact ⟨hg, h2⟩
          | some id =>
            simp only
            split
            · split
              · exact ⟨hg, h2⟩
              · split
                · exact ⟨hg, h2⟩
                · exact ⟨by simp [rxRestart], fun _ => rfl⟩
            · exact ⟨hg, h2⟩
  | next =>
    simp only [rxNextStep]
    split
    · split
      · rename_i hshort _
        refine ⟨?_, fun _ => rfl⟩
        simp only
        omega
      · exact ⟨h1, h2⟩
    · split
      · split
        · exact ⟨h1, h2⟩
        · split
          · exact ⟨h1, h2⟩
          · split
            · exact ⟨by simp [rxRestart], fun _ => rfl⟩
            · refine ⟨?_, h2⟩
              simp only [List.length_drop]
              omega
      · split
        · exact ⟨h1, h2⟩
        · rename_i hlen _
          refine ⟨?_, fun h => absurd h (by simp)⟩
          simp only
          omega


theorem bufBound_run (cfg : XpuConfig) (alloc_f : Nat → Bool)
    (hfit : cfg.hdrsz ≤ 2 * cfg.BLCKSZ) (n : Nat) :
    ∀ st : RxState, BufBound cfg st → BufBound cfg (rxRun cfg alloc_f n st) := by
  induction n with
  | zero => intro st h; exact h
  | succ n ih =>
    intro st h
    rw [rxRun_succ]
    exact ih _ (bufBound_step cfg alloc_f hfit st h)

theorem decode_many (cfg : XpuConfig) (alloc_f : Nat → Bool)
    (hpos : 0 < cfg.hdrsz) (hfit : cfg.hdrsz ≤ 2 * cfg.BLCKSZ)
    (halloc : ∀ n, alloc_f n = true) (tail : List Byte) (rest : List RecvOutcome) :
    ∀ (cmds : List (List Byte)), (∀ c ∈ cmds, WellFormedCmd cfg c) →
    ∀ (need : List Byte) (st : RxState), Between cfg st →
      st.buf ++ need = cmds.flatten ++ tail → Feeds st.sock need rest →
      ∃ n, DecodedMany cfg cmds tail rest st.count st.nalloc st.trace
        (rxRun cfg alloc_f n st) := by
  intro cmds
  induction cmds with
  | nil =>
    intro _ need st hb hstream hf
    refine ⟨0, hb, by simp [rxRun], by simp [rxRun], ⟨[], by simp [rxRun], rfl, rfl⟩,
      need, hf, by simpa using hstream⟩
  | cons c cs ih =>
    intro hwf need st hb hstream hf
    obtain ⟨n1, hb1, hc1, hn1, ⟨ext1, he1, ha1, hl1⟩, need1, hf1, hs1⟩ :=
      decode_one cfg alloc_f hpos hfit halloc c (hwf c (by simp)) need (cs.flatten ++ tail)
        rest st hb (by simpa [List.append_assoc] using hstream) hf
    obtain ⟨n2, hb2, hc2, hn2, ⟨ext2, he2, ha2, hl2⟩, need2, hf2, hs2⟩ :=
      ih (fun c hc => hwf c (by simp [hc])) need1 _ hb1 hs1 hf1
    refine ⟨n1 + n2, ?_⟩
    rw [rxRun_add]
    refine ⟨hb2, ?_, ?_, ⟨ext1 ++ ext2, ?_, ?_, ?_⟩, need2, hf2, hs2⟩
    · rw [hc2, hc1]; simp; omega
    · rw [hn2, hn1]; simp; omega
    · rw [he2, he1, List.append_assoc]
    · rw [attachesOf_append, ha1, ha2, hn1]; rfl
    · rw [allocsOf_append, hl1, hl2, hn1]; rfl

theorem oversized_buffered (cfg : XpuConfig) (alloc_f : Nat → Bool)
    (halloc : ∀ n, alloc_f n = true)
    (big : List Byte) (hwf : WellFormedCmd cfg big) (hbig : 2 * cfg.BLCKSZ < big.length)
    (q need tail : List Byte) (rest : List RecvOutcome)
    (b fl cnt na : Nat) (sock : List RecvOutcome) (tr : List RxEvent)
    (hh : cfg.hdrsz ≤ q.length) (hq : q.length ≤ 2 * cfg.BLCKSZ)
    (hstream : q ++ need = big ++ tail) (hf : Feeds sock need rest) :
    ∃ (n : Nat) (heaps : List RxEvent) (sock' : List RecvOutcome),
      rxRun cfg alloc_f n ⟨.next, .loc b, q, 2 * cfg.BLCKSZ, fl, cnt, none, na, sock, tr⟩
        = ⟨.loop, .loc 0, [], 2 * cfg.BLCKSZ, MSG_DONTWAIT, cnt + 1, none, na + 1, sock',
            tr ++ [.alloc big.length (some na)] ++ heaps ++ [.attach na big]⟩ ∧
      HeapRecvs na big.length heaps ∧ q ++ receivedBytes heaps = big ∧
      Feeds sock' tail rest := by
  have hlt : q.length < big.length := by omega
  rcases List.append_eq_append_iff.mp hstream with ⟨a', hc, hn⟩ | ⟨c', hq', _⟩
  · have hp : q <+: big := ⟨a', hc.symm⟩
    have hdrop : big.drop q.length = a' := by rw [hc]; simp
    obtain ⟨n, sock', ext, hrun, hfeeds, hrecvs, hbytes⟩ :=
      heap_phase cfg alloc_f big hwf na (big.length - q.length) q 0 cnt (na + 1) sock
        (tr ++ [.alloc big.length (some na)]) tail rest rfl hp hh hlt
        (by rw [hdrop, ← hn]; exact hf)
    refine ⟨n + 1, ext, sock', ?_, hrecvs, ?_, hfeeds⟩
    · rw [rxRun_succ, next_heap cfg alloc_f halloc big q hwf hp hh hlt, hrun]
    · rw [hbytes, hdrop, ← hc]
  · have := congrArg List.length hq'
    simp at this
    omega

theorem oversized_local (cfg : XpuConfig) (alloc_f : Nat → Bool)
    (hfit : cfg.hdrsz ≤ 2 * cfg.BLCKSZ) (halloc : ∀ n, alloc_f n = true)
    (big : List Byte) (hwf : WellFormedCmd cfg big) (hbig : 2 * cfg.BLCKSZ < big.length)
    (q need tail : List Byte) (rest : List RecvOutcome)
    (fl cnt na : Nat) (sock : List RecvOutcome) (tr : List RxEvent)
    (hlt : q.length < cfg.hdrsz)
    (hstream : q ++ need = big ++ tail) (hf : Feeds sock need rest) :
    ∃ (n : Nat) (locals heaps : List RxEvent) (sock' : List RecvOutcome),
      rxRun cfg alloc_f n ⟨.loop, .loc 0, q, 2 * cfg.BLCKSZ, fl, cnt, none, na, sock, tr⟩
        = ⟨.loop, .loc 0, [], 2 * cfg.BLCKSZ, MSG_DONTWAIT, cnt + 1, none, na + 1, sock',
            tr ++ locals ++ [.alloc big.length (some na)] ++ heaps ++ [.attach na big]⟩ ∧
      LocalRecvs cfg locals ∧ HeapRecvs na big.length heaps ∧
      q ++ receivedBytes locals ++ receivedBytes heaps = big ∧
      (q ++ receivedBytes locals).length ≤ 2 * cfg.BLCKSZ ∧
      Feeds sock' tail rest := by
  have hlen : q.length + need.length = big.length + tail.length := by
    have := congrArg List.length hstream
    simpa using this
  obtain ⟨n1, sock1, ext1, fl1, k, hrun1, hk1, hk2, hk3, hf1, hloc, hb1⟩ :=
    header_phase cfg alloc_f hfit (cfg.hdrsz - q.length) q fl cnt na sock tr need rest rfl hlt
      (by have := hwf.2.2; omega) hf
  have hql : (q ++ need.take k).length = q.length + k := by simp; omega
  obtain ⟨n2, heaps, sock2, hrun2, hheap, hb2, hf2⟩ :=
    oversized_buffered cfg alloc_f halloc big hwf hbig (q ++ need.take k) (need.drop k) tail
      rest 0 fl1 cnt na sock1 (tr ++ ext1) (by rw [hql]; exact hk1) (by rw [hql]; exact hk2)
      (by rw [List.append_assoc, List.take_append_drop]; exact hstream) hf1
  refine ⟨n1 + n2, ext1, heaps, sock2, ?_, hloc, hheap, ?_, ?_, hf2⟩
  · rw [rxRun_add, hrun1, hrun2]
  · rw [hb1]; exact hb2
  · rw [hb1, hql]; exact hk2

theorem oversized_between (cfg : XpuConfig) (alloc_f : Nat → Bool)
    (hpos : 0 < cfg.hdrsz) (hfit : cfg.hdrsz ≤ 2 * cfg.BLCKSZ)
    (halloc : ∀ n, alloc_f n = true)
    (big : List Byte) (hwf : WellFormedCmd cfg big) (hbig : 2 * cfg.BLCKSZ < big.length)
    (need tail : List Byte) (rest : List RecvOutcome) (st : RxState)
    (hb : Between cfg st) (hbound : st.buf.length ≤ 2 * cfg.BLCKSZ)
    (hstream : st.buf ++ need = big ++ tail) (hf : Feeds st.sock need rest) :
    ∃ (n : Nat) (locals heaps : List RxEvent) (sock' : List RecvOutcome),
      rxRun cfg alloc_f n st
        = ⟨.loop, .loc 0, [], 2 * cfg.BLCKSZ, MSG_DONTWAIT, st.count + 1, none, st.nalloc + 1,
            sock', st.trace ++ locals ++ [.alloc big.length (some st.nalloc)] ++ heaps
              ++ [.attach st.nalloc big]⟩ ∧
      LocalRecvs cfg locals ∧ HeapRecvs st.nalloc big.length heaps ∧
      st.buf ++ receivedBytes locals ++ receivedBytes heaps = big ∧
      (st.buf ++ receivedBytes locals).length ≤ 2 * cfg.BLCKSZ ∧
      Feeds sock' tail rest := by
  obtain ⟨pc, buffer, buf, bufsz, fl, cnt, curr, na, sock, tr⟩ := st
  obtain ⟨hcurr, hsz, hpc⟩ := hb
  simp only at hcurr hsz hpc hstream hf hbound ⊢
  subst hcurr; subst hsz
  rcases hpc with ⟨rfl, rfl, rfl⟩ | ⟨rfl, b, rfl⟩
  · exact oversized_local cfg alloc_f hfit halloc big hwf hbig [] need tail rest fl cnt na
      sock tr (by simpa using hpos) hstream hf
  · by_cases hh : cfg.hdrsz ≤ buf.length
    · obtain ⟨n, heaps, sock', hrun, hheap, hbytes, hfeeds⟩ :=
        oversized_buffered cfg alloc_f halloc big hwf hbig buf need tail rest b fl cnt na
          sock tr hh hbound hstream hf
      refine ⟨n, [], heaps, sock', by simpa using hrun, ?_, hheap, by simpa [receivedBytes] using hbytes,
        by simpa [receivedBytes] using hbound, hfeeds⟩
      intro e he
      simp at he
    · obtain ⟨n, locals, heaps, sock', hrun, h1, h2, h3, h4, h5⟩ :=
        oversized_local cfg alloc_f hfit halloc big hwf hbig buf need tail rest 0 cnt na
          sock tr (by omega) hstream hf
      refine ⟨n + 1, locals, heaps, sock', ?_, h1, h2, h3, h4, h5⟩
      rw [rxRun_succ, next_short cfg alloc_f buf (by omega)]
      exact hrun

/-- C9 (oversized command).  Let `big` be a well-formed command longer than the local buffer
(`2 * BLCKSZ`), coming after any well-formed commands `pre` and followed by any bytes
`tail`, the whole stream cut into non-empty chunks in any way.  Then after finitely many
steps the call has just attached `big` and is back at `restart:`.  What it did since it
attached the last command of `pre` is: some `recv`s into the local buffer, exactly one
`alloc_f`, for `big.length` bytes (the block numbered `pre.length`), some `recv`s straight
into that block, each asking for exactly `big.length - offset` bytes, and one `attach_f`
of that block, whose content is `big`.  The bytes of `big` are those the local buffer
held (`held`, left over from earlier `recv`s, and what the local `recv`s added, at most
`2 * BLCKSZ` together) followed by those the `recv`s into the block obtained; and the
socket still holds all of `tail`. -/
theorem receive_oversized (cfg : XpuConfig) (alloc_f : Nat → Bool)
    (hpos : 0 < cfg.hdrsz) (hfit : cfg.hdrsz ≤ 2 * cfg.BLCKSZ)
    (halloc : ∀ n, alloc_f n = true)
    (pre : List (List Byte)) (hpre : ∀ c ∈ pre, WellFormedCmd cfg c)
    (big : List Byte) (hwf : WellFormedCmd cfg big) (hbig : 2 * cfg.BLCKSZ < big.length)
    (tail : List Byte) (chunks : List (List Byte)) (hne : ∀ ch ∈ chunks, ch ≠ [])
    (hcut : chunks.flatten = pre.flatten ++ (big ++ tail)) (rest : List RecvOutcome) :
    ∃ (n : Nat) (before locals heaps : List RxEvent) (held : List Byte)
      (sock' : List RecvOutcome),
      rxRun cfg alloc_f n (rxInit cfg (chunks.map RecvOutcome.data ++ rest))
        = ⟨.loop, .loc 0, [], 2 * cfg.BLCKSZ, MSG_DONTWAIT, pre.length + 1, none,
            pre.length + 1, sock',
            before ++ locals ++ [.alloc big.length (some pre.length)] ++ heaps
              ++ [.attach pre.length big]⟩ ∧
      attachesOf before = pre.enumFrom 0 ∧
      allocsOf before = (pre.enumFrom 0).map (fun p => (p.2.length, some p.1)) ∧
      LocalRecvs cfg locals ∧ HeapRecvs pre.length big.length heaps ∧
      held ++ receivedBytes locals ++ receivedBytes heaps = big ∧
      (held ++ receivedBytes locals).length ≤ 2 * cfg.BLCKSZ ∧
      sockBytes sock' = tail ++ sockBytes rest := by
  have hinit : rxInit cfg (chunks.map RecvOutcome.data ++ rest)
      = ⟨.loop, .loc 0, [], 2 * cfg.BLCKSZ, MSG_DONTWAIT, 0, none, 0,
          chunks.map RecvOutcome.data ++ rest, []⟩ := rfl
  obtain ⟨n1, hb1, hc1, hn1, ⟨before, he1, ha1, hl1⟩, need1, hf1, hs1⟩ :=
    decode_many cfg alloc_f hpos hfit halloc (big ++ tail) rest pre hpre chunks.flatten
      (rxInit cfg (chunks.map RecvOutcome.data ++ rest))
      ⟨rfl, rfl, Or.inl ⟨rfl, rfl, rfl⟩⟩ (by rw [hinit]; simpa using hcut)
      ⟨chunks, hne, rfl, by rw [hinit]⟩
  have hbound := bufBound_run cfg alloc_f hfit n1
    (rxInit cfg (chunks.map RecvOutcome.data ++ rest)) ⟨by rw [hinit]; simp, fun _ => rfl⟩
  have hq : (rxRun cfg alloc_f n1 (rxInit cfg (chunks.map RecvOutcome.data ++ rest))).buf.length
      ≤ 2 * cfg.BLCKSZ := by
    have := hbound.1
    rw [hb1.2.1] at this
    exact this
  obtain ⟨n2, locals, heaps, sock', hrun, hloc, hheap, hbytes, hlen, hfeeds⟩ :=
    oversized_between cfg alloc_f hpos hfit halloc big hwf hbig need1 tail rest _ hb1 hq hs1 hf1
  refine ⟨n1 + n2, before, locals, heaps, _, sock', ?_, ?_, ?_, hloc, ?_, hbytes, hlen,
    feeds_sockBytes hfeeds⟩
  · rw [rxRun_add, hrun, hc1, hn1, he1, hinit]
    simp
  · rw [ha1, hinit]
  · rw [hl1, hinit]
  · rw [hn1, hinit] at hheap
    simpa using hheap

theorem receive_oversized_witness :
    ∃ (n : Nat) (before locals heaps : List RxEvent) (held : List Byte)
      (sock' : List RecvOutcome),
      rxRun tinyCfg (fun _ => true) n
          (rxInit tinyCfg ([[7, 2, 7, 6], [1, 2, 3, 4, 7], [2]].map RecvOutcome.data ++ [.eof]))
        = ⟨.loop, .loc 0, [], 2 * tinyCfg.BLCKSZ, MSG_DONTWAIT, [[7, 2]].length + 1, none,
            [[7, 2]].length + 1, sock',
            before ++ locals ++ [.alloc [7, 6, 1, 2, 3, 4].length (some [[7, 2]].length)]
              ++ heaps ++ [.attach [[7, 2]].length [7, 6, 1, 2, 3, 4]]⟩ ∧
      attachesOf before = [[7, 2]].enumFrom 0 ∧
      allocsOf before = ([[7, 2]].enumFrom 0).map (fun p => (p.2.length, some p.1)) ∧
      LocalRecvs tinyCfg locals ∧ HeapRecvs [[7, 2]].length [7, 6, 1, 2, 3, 4].length heaps ∧
      held ++ receivedBytes locals ++ receivedBytes heaps = [7, 6, 1, 2, 3, 4] ∧
      (held ++ receivedBytes locals).length ≤ 2 * tinyCfg.BLCKSZ ∧
      sockBytes sock' = [7, 2] ++ sockBytes [.eof] :=
  receive_oversized tinyCfg (fun _ => true) (by decide) (by decide) (fun _ => rfl)
    [[7, 2]] (by decide) [7, 6, 1, 2, 3, 4] (by decide) (by decide) [7, 2]
    [[7, 2, 7, 6], [1, 2, 3, 4, 7], [2]] (by decide) (by decide) [.eof]

theorem backpressureInv_step (cfg : SchedConfig) (hM : 1 ≤ cfg.pgstrom_max_async_tasks)
    (s t : SchedState) (hstep : SchedStep cfg s t) (h : BackpressureInv cfg s) :
    BackpressureInv cfg t := by
  obtain ⟨hsum, hlen⟩ := h
  cases hstep with
  | decide_submit hp hsel =>
    refine ⟨?_, hlen⟩
    simp only [hp] at hsum
    unfold selectAction at hsel
    split at hsel
    · rename_i hg
      simp only [if_true]
      have := hg.1
      simp at hsum
      omega
    · split at hsel
      · exact absurd hsel (by simp)
      · split at hsel <;> exact absurd hsel (by simp)
  | decide_final hp hempty hrun =>
    refine ⟨?_, hlen⟩
    simp only [if_true]
    rw [hlen, hempty]
    simp
    omega
  | send xcmd hp =>
    refine ⟨?_, hlen⟩
    simp only [hp, if_true] at hsum
    simp [xpuClientSendCommand]
    omega
  | nothing_to_send hp =>
    refine ⟨?_, hlen⟩
    simp only [hp, if_true] at hsum
    simp
    omega
  | pick_up xcmd conn1 hp hne hpop =>
    simp only [hp] at hsum
    unfold popReadyCommand at hpop
    split at hpop
    · exact absurd hpop (by simp)
    · split at hpop
      · exact absurd hpop (by simp)
      · rename_i x rest hl
        simp at hpop
        obtain ⟨_, rfl⟩ := hpop
        rw [hl] at hlen
        simp only [BackpressureInv]
        simp at hlen hsum ⊢
        constructor <;> omega
  | receiver act =>
    cases act with
    | ready x =>
      simp only [BackpressureInv, receiverStep]
      simp
      constructor <;> omega
    | error e =>
      simp only [receiverStep]
      split
      · exact ⟨hsum, hlen⟩
      · exact ⟨hsum, hlen⟩


theorem receiver_steps (cfg : SchedConfig) (acts : List ReceiverAction) :
    ∀ (conn : XpuConnection) (p : Bool),
      Relation.ReflTransGen (SchedStep cfg) ⟨conn, p⟩ ⟨acts.foldl (receiverStep cfg) conn, p⟩ := by
  induction acts with
  | nil => intro conn p; exact Relation.ReflTransGen.refl
  | cons a t ih =>
    intro conn p
    exact Relation.ReflTransGen.head (SchedStep.receiver ⟨conn, p⟩ a) (ih _ p)

theorem lock_steps (cfg : SchedConfig) (env : SchedEnv) (conn : XpuConnection) (p : Bool) :
    Relation.ReflTransGen (SchedStep cfg) ⟨conn, p⟩ ⟨(pthreadMutexLock cfg env conn).1, p⟩ := by
  unfold pthreadMutexLock
  split
  · exact Relation.ReflTransGen.refl
  · exact receiver_steps cfg _ conn p

theorem pickup_steps {H : Type} (cfg : SchedConfig) (pts : pgstromTaskState H)
    (conn : XpuConnection) (env : SchedEnv) (tr : List SchedEvent)
    (hne : conn.ready_cmds_list ≠ []) :
    Relation.ReflTransGen (SchedStep cfg) ⟨conn, false⟩
      ⟨(pickup_ready_command cfg pts conn env tr).conn, false⟩ := by
  unfold pickup_ready_command
  split
  · exact Relation.ReflTransGen.refl
  · rename_i xcmd conn1 hpop
    exact Relation.ReflTransGen.single (SchedStep.pick_up ⟨conn, false⟩ xcmd conn1 rfl hne hpop)

theorem drainLoop_steps {H : Type} (cfg : SchedConfig) (cbs : TaskCallbacks H) (fuel : Nat) :
    ∀ (pts : pgstromTaskState H) (conn : XpuConnection) (env : SchedEnv)
      (tr : List SchedEvent),
      Relation.ReflTransGen (SchedStep cfg) ⟨conn, false⟩
        ⟨(drainLoop cfg cbs fuel pts conn env tr).conn, false⟩ := by
  induction fuel with
  | zero => intro pts conn env tr; exact Relation.ReflTransGen.refl
  | succ n ih =>
    intro pts conn env tr
    unfold drainLoop
    split
    · rename_i hempty
      simp only
      split
      · split
        · exact Relation.ReflTransGen.refl
        · exact (lock_steps cfg _ conn false).trans (ih _ _ _ _)
      · rename_i hrun
        split
        · exact Relation.ReflTransGen.refl
        · split
          · exact Relation.ReflTransGen.refl
          · have hdec : SchedStep cfg ⟨conn, false⟩ ⟨conn, true⟩ :=
              SchedStep.decide_final ⟨conn, false⟩ rfl hempty hrun
            split
            · exact Relation.ReflTransGen.head hdec
                (Relation.ReflTransGen.single (SchedStep.nothing_to_send ⟨conn, true⟩ rfl))
            · rename_i xcmd _
              have hsend : SchedStep cfg ⟨conn, true⟩ ⟨xpuClientSendCommand conn xcmd, false⟩ :=
                SchedStep.send ⟨conn, true⟩ xcmd rfl
              have h2 : Relation.ReflTransGen (SchedStep cfg) ⟨conn, false⟩
                  ⟨xpuClientSendCommand conn xcmd, false⟩ :=
                Relation.ReflTransGen.head hdec (Relation.ReflTransGen.single hsend)
              split
              · exact h2
              · exact h2.trans ((lock_steps cfg _ _ false).trans (ih _ _ _ _))
    · rename_i hne
      exact pickup_steps cfg pts conn env tr hne

theorem fetchLoop_steps {H : Type} (cfg : SchedConfig) (cbs : TaskCallbacks H) (fuel : Nat) :
    ∀ (pts : pgstromTaskState H) (conn : XpuConnection) (env : SchedEnv)
      (tr : List SchedEvent),
      Relation.ReflTransGen (SchedStep cfg) ⟨conn, false⟩
        ⟨(fetchLoop cfg cbs fuel pts conn env tr).conn, false⟩ := by
  induction fuel with
  | zero => intro pts conn env tr; exact Relation.ReflTransGen.refl
  | succ n ih =>
    intro pts conn env tr
    have hl := lock_steps cfg env conn false
    unfold fetchLoop
    simp only
    split
    · exact hl.trans (drainLoop_steps cfg cbs n _ _ _ _)
    · split
      · exact hl
      · split
        · rename_i hsel
          have hdec : SchedStep cfg ⟨(pthreadMutexLock cfg env conn).1, false⟩
              ⟨(pthreadMutexLock cfg env conn).1, true⟩ :=
            SchedStep.decide_submit ⟨_, false⟩ rfl hsel
          split
          · exact hl.trans (Relation.ReflTransGen.head hdec
              (Relation.ReflTransGen.head (SchedStep.nothing_to_send ⟨_, true⟩ rfl)
                ((lock_steps cfg _ _ false).trans (drainLoop_steps cfg cbs n _ _ _ _))))
          · rename_i xcmd _
            exact hl.trans (Relation.ReflTransGen.head hdec
              (Relation.ReflTransGen.head (SchedStep.send ⟨_, true⟩ xcmd rfl) (ih _ _ _ _)))
        · rename_i hsel
          have hne : (pthreadMutexLock cfg env conn).1.ready_cmds_list ≠ [] := by
            unfold selectAction at hsel
            split at hsel
            · exact absurd hsel (by simp)
            · split at hsel
              · assumption
              · split at hsel <;> exact absurd hsel (by simp)
          exact hl.trans (pickup_steps cfg pts _ _ tr hne)
        · split
          · exact hl
          · exact hl.trans (ih _ _ _ _)
        · exact hl.trans (ih _ _ _ _)

/-- C5 (backpressure).  With `pgstrom_max_async_tasks = M ≥ 1`: from any connection with
`num_running_cmds + num_ready_cmds ≤ M` and `num_ready_cmds` equal to the length of
`ready_cmds_list`, every state reached through scheduler actions (submit a chunk, pick up,
submit the terminal command) and receiver actions, in any order, still has
`num_running_cmds + num_ready_cmds ≤ M`; in particular so has the connection at every
point a run of `__fetchNextXpuCommand` can be stopped at, whatever the receiver does in
between. -/
theorem backpressure_invariant (cfg : SchedConfig) (hM : 1 ≤ cfg.pgstrom_max_async_tasks)
    (conn : XpuConnection)
    (hsum : conn.num_running_cmds + conn.num_ready_cmds ≤ cfg.pgstrom_max_async_tasks)
    (hlen : conn.num_ready_cmds = conn.ready_cmds_list.length) :
    (∀ s : SchedState, Relation.ReflTransGen (SchedStep cfg) ⟨conn, false⟩ s →
      s.conn.num_running_cmds + s.conn.num_ready_cmds ≤ cfg.pgstrom_max_async_tasks) ∧
    (∀ (H : Type) (cbs : TaskCallbacks H) (fuel : Nat) (pts : pgstromTaskState H)
        (env : SchedEnv),
      (__fetchNextXpuCommand cfg cbs fuel pts conn env).conn.num_running_cmds
        + (__fetchNextXpuCommand cfg cbs fuel pts conn env).conn.num_ready_cmds
        ≤ cfg.pgstrom_max_async_tasks) := by
  have key : ∀ s : SchedState, Relation.ReflTransGen (SchedStep cfg) ⟨conn, false⟩ s →
      s.conn.num_running_cmds + s.conn.num_ready_cmds ≤ cfg.pgstrom_max_async_tasks := by
    intro s hreach
    have hinv : BackpressureInv cfg s := by
      induction hreach with
      | refl => exact ⟨by simpa using hsum, hlen⟩
      | tail _ hstep ih => exact backpressureInv_step cfg hM _ _ hstep ih
    have := hinv.1
    split at this <;> omega
  exact ⟨key, fun H cbs fuel pts env => key _ (fetchLoop_steps cfg cbs fuel pts conn env [])⟩

theorem backpressure_invariant_witness :
    (xpuClientSendCommand ⟨0, 0, 1, [5], []⟩ 6).num_running_cmds
      + (xpuClientSendCommand ⟨0, 0, 1, [5], []⟩ 6).num_ready_cmds ≤ 3 :=
  (backpressure_invariant ⟨3, 0, true⟩ (by decide) ⟨0, 0, 1, [5], []⟩ (by decide)
      (by decide)).1
    ⟨xpuClientSendCommand ⟨0, 0, 1, [5], []⟩ 6, false⟩
    (Relation.ReflTransGen.tail
      (Relation.ReflTransGen.tail Relation.ReflTransGen.refl
        (SchedStep.decide_submit ⟨⟨0, 0, 1, [5], []⟩, false⟩ rfl (by decide)))
      (SchedStep.send ⟨⟨0, 0, 1, [5], []⟩, true⟩ 6 rfl))

/-- C3 (error stickiness), the code at a failing input: the scan is done, the connection's
error slot holds code 1, nothing is running or ready, and the host has a terminal command.
`__fetchNextXpuCommand` does not raise the error: it invokes `cb_final_chunk`, sends the
command, waits, and returns the response the receiver delivers. -/
theorem fetch_skips_error_check_after_scan_done :
    (__fetchNextXpuCommand schedCfg flushCallbacks 4 (doneTask none) failedConn
        ⟨[[], [.ready 42]], []⟩).res = some (.ret (some 42)) ∧
    (__fetchNextXpuCommand schedCfg flushCallbacks 4 (doneTask none) failedConn
        ⟨[[], [.ready 42]], []⟩).trace
      = [.cb_final true (some 42), .send .final_chunk true 42, .wait] ∧
    failedConn.errcode ≠ schedCfg.ERRCODE_STROM_SUCCESS := by
  decide

theorem fetch_idle_done (fuel : Nat) (curr : Option XpuCmdRef) :
    __fetchNextXpuCommand schedCfg plainCallbacks (fuel + 2) (doneTask curr) idleConn ⟨[], []⟩
      = ⟨some (.ret none), doneTask curr, idleConn, ⟨[], []⟩, []⟩ := by
  simp [__fetchNextXpuCommand, fetchLoop, drainLoop, pthreadMutexLock, doneTask, idleConn,
    plainCallbacks]

theorem fetch_idle_short (fuel : Nat) (hf : fuel < 2) (curr : Option XpuCmdRef) :
    (__fetchNextXpuCommand schedCfg plainCallbacks fuel (doneTask curr) idleConn
      ⟨[], []⟩).res = none := by
  have h : fuel = 0 ∨ fuel = 1 := by omega
  rcases h with rfl | rfl
  · rfl
  · simp [__fetchNextXpuCommand, fetchLoop, drainLoop, pthreadMutexLock, doneTask]

theorem exec_idle_done (fuel : Nat) :
    ∀ curr : Option XpuCmdRef,
      (pgstromExecTaskState schedCfg plainCallbacks fuel (doneTask curr) idleConn
        ⟨[], []⟩).res = none := by
  induction fuel with
  | zero => intro curr; rfl
  | succ n ih =>
    intro curr
    have hadopt : (execAdopt (__fetchNextXpuCommand schedCfg plainCallbacks n (doneTask curr)
          idleConn ⟨[], []⟩) (pgstromExecTaskState schedCfg plainCallbacks n)).res = none := by
      by_cases hn : n < 2
      · have h := fetch_idle_short n hn curr
        simp only [execAdopt, h]
      · obtain ⟨m, rfl⟩ : ∃ m, n = m + 2 := ⟨n - 2, by omega⟩
        rw [fetch_idle_done m curr]
        exact ih none
    cases curr with
    | none => exact hadopt
    | some r => exact hadopt

/-- C4 (end of scan), the code at a failing input: the scan is done, nothing is running or
ready, the host has no terminal command, and the current response has no row left.
`__fetchNextXpuCommand` returns `NULL` (for every budget of at least 2 passes), and
`pgstromExecTaskState` never returns: whatever the budget, it is still looping. -/
theorem exec_task_state_spins_at_end_of_scan :
    (∀ fuel : Nat, (__fetchNextXpuCommand schedCfg plainCallbacks (fuel + 2) (doneTask (some 7))
        idleConn ⟨[], []⟩).res = some (.ret none)) ∧
    (plainCallbacks.cb_next_tuple (doneTask (some 7))).1 = none ∧
    (∀ fuel : Nat, (pgstromExecTaskState schedCfg plainCallbacks fuel (doneTask (some 7))
        idleConn ⟨[], []⟩).res = none) :=
  ⟨fun fuel => by rw [fetch_idle_done fuel (some 7)], rfl, fun fuel => exec_idle_done fuel _⟩

theorem pickup_trace {H : Type} (cfg : SchedConfig) (pts : pgstromTaskState H)
    (conn : XpuConnection) (env : SchedEnv) (tr : List SchedEvent) :
    (pickup_ready_command cfg pts conn env tr).trace = tr := by
  unfold pickup_ready_command
  split <;> rfl

theorem drainLoop_respects {H : Type} (cfg : SchedConfig) (cbs : TaskCallbacks H)
    (hframe : ∀ cb, cbs.cb_final_chunk = some cb →
      ∀ pts : pgstromTaskState H, pts.scan_done = true → (cb pts).2.scan_done = true)
    (fuel : Nat) :
    ∀ (pts : pgstromTaskState H) (conn : XpuConnection) (env : SchedEnv)
      (tr : List SchedEvent), pts.scan_done = true →
      (∀ e ∈ tr, EventRespectsScanDone e) →
      ∀ e ∈ (drainLoop cfg cbs fuel pts conn env tr).trace, EventRespectsScanDone e := by
  induction fuel with
  | zero => intro pts conn env tr _ htr; exact htr
  | succ n ih =>
    intro pts conn env tr hsd htr
    have hwait : ∀ e ∈ tr ++ [SchedEvent.wait], EventRespectsScanDone e := by
      intro e he
      simp at he
      rcases he with he | rfl
      · exact htr e he
      · trivial
    unfold drainLoop
    split
    · simp only
      split
      · split
        · exact hwait
        · exact ih _ _ _ _ hsd hwait
      · split
        · exact htr
        · rename_i cb hcb
          split
          · exact htr
          · split
            · intro e he
              simp at he
              rcases he with he | rfl
              · exact htr e he
              · exact hsd
            · rename_i xcmd hx
              have hsd' : (cb pts).2.scan_done = true := hframe cb hcb pts hsd
              have htr' : ∀ e ∈ tr ++ [SchedEvent.cb_final pts.scan_done (some xcmd),
                  SchedEvent.send ChunkOrigin.final_chunk (cb pts).2.scan_done xcmd]
                  ++ [SchedEvent.wait], EventRespectsScanDone e := by
                intro e he
                simp at he
                rcases he with he | rfl | rfl | rfl
                · exact htr e he
                · exact hsd
                · exact hsd'
                · trivial
              split
              · exact htr'
              · exact ih _ _ _ _ hsd' htr'
    · rw [pickup_trace]; exact htr

theorem fetchLoop_respects {H : Type} (cfg : SchedConfig) (cbs : TaskCallbacks H)
    (hframe : ∀ cb, cbs.cb_final_chunk = some cb →
      ∀ pts : pgstromTaskState H, pts.scan_done = true → (cb pts).2.scan_done = true)
    (fuel : Nat) :
    ∀ (pts : pgstromTaskState H) (conn : XpuConnection) (env : SchedEnv)
      (tr : List SchedEvent), (∀ e ∈ tr, EventRespectsScanDone e) →
      ∀ e ∈ (fetchLoop cfg cbs fuel pts conn env tr).trace, EventRespectsScanDone e := by
  induction fuel with
  | zero => intro pts conn env tr htr; exact htr
  | succ n ih =>
    intro pts conn env tr htr
    unfold fetchLoop
    simp only
    split
    · rename_i hsd
      exact drainLoop_respects cfg cbs hframe n _ _ _ _ hsd htr
    · rename_i hsd
      have hsd' : pts.scan_done = false := by simpa using hsd
      split
      · exact htr
      · split
        · split
          · apply drainLoop_respects cfg cbs hframe n _ _ _ _ rfl
            intro e he
            simp at he
            rcases he with he | rfl
            · exact htr e he
            · exact hsd'
          · apply ih
            intro e he
            simp at he
            rcases he with he | rfl | rfl
            · exact htr e he
            · exact hsd'
            · trivial
        · rw [pickup_trace]; exact htr
        · have hwait : ∀ e ∈ tr ++ [SchedEvent.wait], EventRespectsScanDone e := by
            intro e he
            simp at he
            rcases he with he | rfl
            · exact htr e he
            · trivial
          split
          · exact hwait
          · exact ih _ _ _ _ hwait
        · apply ih
          intro e he
          simp at he
          rcases he with he | rfl
          · exact htr e he
          · trivial

/-- C6 (terminal command only after `scan_done`).  For host callbacks whose
`cb_final_chunk` does not clear `scan_done`: in every run of `__fetchNextXpuCommand`,
complete or not, `cb_final_chunk` is invoked, and its command sent, only while
`pts->scan_done` is true, and `cb_next_chunk` is invoked only while it is false; so a
command submitted while `scan_done` is false comes from `cb_next_chunk`. -/
theorem final_chunk_only_after_scan_done {H : Type} (cfg : SchedConfig)
    (cbs : TaskCallbacks H)
    (hframe : ∀ cb, cbs.cb_final_chunk = some cb →
      ∀ pts : pgstromTaskState H, pts.scan_done = true → (cb pts).2.scan_done = true)
    (fuel : Nat) (pts : pgstromTaskState H) (conn : XpuConnection) (env : SchedEnv) :
    (∀ e ∈ (__fetchNextXpuCommand cfg cbs fuel pts conn env).trace, EventRespectsScanDone e) ∧
    (∀ xcmd, SchedEvent.send .final_chunk false xcmd
      ∉ (__fetchNextXpuCommand cfg cbs fuel pts conn env).trace) ∧
    (∀ res, SchedEvent.cb_final false res
      ∉ (__fetchNextXpuCommand cfg cbs fuel pts conn env).trace) := by
  have h := fetchLoop_respects cfg cbs hframe fuel pts conn env [] (by simp)
  refine ⟨h, ?_, ?_⟩
  · intro xcmd hmem
    have := h _ hmem
    simp [EventRespectsScanDone] at this
  · intro res hmem
    have := h _ hmem
    simp [EventRespectsScanDone] at this

theorem final_chunk_only_after_scan_done_witness :
    (∀ e ∈ (__fetchNextXpuCommand schedCfg flushCallbacks 6
        ⟨false, false, none, 0, ()⟩ idleConn ⟨[[], [], [.ready 42]], []⟩).trace,
      EventRespectsScanDone e) ∧
    (∀ xcmd, SchedEvent.send .final_chunk false xcmd
      ∉ (__fetchNextXpuCommand schedCfg flushCallbacks 6
        ⟨false, false, none, 0, ()⟩ idleConn ⟨[[], [], [.ready 42]], []⟩).trace) ∧
    (∀ res, SchedEvent.cb_final false res
      ∉ (__fetchNextXpuCommand schedCfg flushCallbacks 6
        ⟨false, false, none, 0, ()⟩ idleConn ⟨[[], [], [.ready 42]], []⟩).trace) :=
  final_chunk_only_after_scan_done schedCfg flushCallbacks
    (fun cb hcb pts hsd => by
      have : cb = fun p => (some 42, p) := by
        simp [flushCallbacks] at hcb; exact hcb.symm
      rw [this]; exact hsd)
    6 ⟨false, false, none, 0, ()⟩ idleConn ⟨[[], [], [.ready 42]], []⟩

theorem appendBinary_ok {buf data buf1 : List Byte}
    (h : appendBinaryStringInfo buf data = .ok buf1) : buf1 = buf ++ data := by
  unfold appendBinaryStringInfo at h
  split at h
  · exact absurd h (by simp)
  · simp at h; exact h.symm

theorem appendBinary'_ok {buf data buf1 : List Byte} {off : Nat}
    (h : __appendBinaryStringInfo buf data = .ok (off, buf1)) :
    off = buf.length ∧ buf1 = buf ++ data := by
  unfold __appendBinaryStringInfo at h
  split at h
  · exact absurd h (by simp)
  · rename_i b hb
    simp at h
    exact ⟨h.1.symm, by rw [← h.2]; exact appendBinary_ok hb⟩

theorem bytesAt_append_right (a b : List Byte) :
    bytesAt (a ++ b) a.length b.length = b := by
  simp [bytesAt]

theorem bytesAt_of_isPrefix {a b : List Byte} (h : a <+: b) (off n : Nat)
    (hle : off + n ≤ a.length) : bytesAt b off n = bytesAt a off n := by
  obtain ⟨t, rfl⟩ := h
  unfold bytesAt
  rw [List.drop_append_of_le_length (by omega), List.take_append_of_le_length (by simp; omega)]

theorem paramBytes_raw {host : SessionHost} {paramtype : Oid} {value : Datum}
    {bytes : List Byte} (h : paramBytes host paramtype value = .ok bytes) :
    bytes = valueRawBytes host paramtype value ∧
    bytes.length = valueSize host paramtype value := by
  have hlen : (valueRawBytes host paramtype value).length = valueSize host paramtype value := by
    simp [valueRawBytes]
  suffices hb : bytes = valueRawBytes host paramtype value from ⟨hb, by rw [hb, hlen]⟩
  unfold paramBytes at h
  simp only at h
  split at h
  · rename_i hb
    split at h
    · exact absurd h (by simp)
    · split at h
      · exact absurd h (by simp)
      · simp only [Except.ok.injEq] at h
        rw [← h]
        simp [valueRawBytes, valueSize, valueByte, hb, datumBytes]
  · rename_i hb
    have hb' : (host.get_typlenbyval paramtype).2 = false := by simpa using hb
    split at h
    · rename_i hpos
      simp only [Except.ok.injEq] at h
      rw [← h]
      simp [valueRawBytes, valueSize, valueByte, hb', hpos, pointerBytes]
    · rename_i hpos
      split at h
      · simp only [Except.ok.injEq] at h
        rw [← h]
        simp [valueRawBytes, valueSize, valueByte, hb', hpos, pointerBytes, VARSIZE, u32ofLe,
          List.range_succ]
      · exact absurd h (by simp)

theorem putParam_ok {host : SessionHost} {pi : ParamListInfoData} {nparams : Nat}
    {st st1 : ParamLoopState} {p : Param} (h : putParam host pi nparams st p = .ok st1) :
    ∃ isnull v, resolveParam host pi st.econtext p = .ok (st1.econtext, isnull, v) ∧
      0 ≤ p.paramid ∧ p.paramid < nparams ∧
      ((isnull = true ∧ st1.buf = st.buf ∧ st1.poffset = st.poffset.set p.paramid.toNat 0) ∨
       (isnull = false ∧ ∃ bytes, paramBytes host p.paramtype v = .ok bytes ∧
          st1.buf = st.buf ++ bytes ∧
          st1.poffset = st.poffset.set p.paramid.toNat st.buf.length)) := by
  unfold putParam at h
  split at h
  · exact absurd h (by simp)
  · rename_i ec1 isnull v hres
    simp only at h
    cases isnull with
    | true =>
      simp only [if_true] at h
      split at h
      · rename_i hr
        simp at h
        refine ⟨true, v, ?_, hr.1, hr.2, Or.inl ⟨rfl, ?_, ?_⟩⟩
        · rw [hres, ← h]
        · rw [← h]
        · rw [← h]
      · split at h <;> exact absurd h (by simp)
    | false =>
      simp only [Bool.false_eq_true, if_false] at h
      cases hpb : paramBytes host p.paramtype v with
      | error e => rw [hpb] at h; exact absurd h (by simp)
      | ok bytes =>
        rw [hpb] at h
        simp only at h
        cases hap : __appendBinaryStringInfo st.buf bytes with
        | error e => rw [hap] at h; exact absurd h (by simp)
        | ok r =>
          obtain ⟨off, buf1⟩ := r
          rw [hap] at h
          simp only at h
          obtain ⟨hoff, hbuf⟩ := appendBinary'_ok hap
          split at h
          · rename_i hr
            simp at h
            refine ⟨false, v, ?_, hr.1, hr.2, Or.inr ⟨rfl, bytes, hpb, ?_, ?_⟩⟩
            · rw [hres, ← h]
            · rw [← h, hbuf]
            · rw [← h, hoff]
          · split at h <;> exact absurd h (by simp)

theorem putParams_stored (host : SessionHost) (pi : ParamListInfoData) (nparams : Nat) :
    ∀ (ps : List Param) (st st' : ParamLoopState),
      putParams host pi nparams st ps = .ok st' →
      (ps.map (fun p => p.paramid)).Nodup → st.poffset.length = nparams →
      (ps ≠ [] → 0 < st.buf.length) →
      st.buf <+: st'.buf ∧ st'.poffset.length = nparams ∧
      (∀ id : Nat, (∀ p ∈ ps, p.paramid ≠ (id : Int)) →
        st'.poffset.getD id 0 = st.poffset.getD id 0) ∧
      ∃ rs, resolveAll host pi st.econtext ps = .ok rs ∧
        List.Forall₂ (fun p r => ParamAppended host st'.poffset st'.buf p r ∧
          (r.1 = false → st.buf.length ≤ st'.poffset.getD p.paramid.toNat 0)) ps rs := by
  intro ps
  induction ps with
  | nil =>
    intro st st' h _ hlen _
    simp [putParams] at h
    subst h
    exact ⟨List.prefix_refl _, hlen, fun _ _ => rfl, [], rfl, List.Forall₂.nil⟩
  | cons p rest ih =>
    intro st st' h hnd hlen hpos0
    have hpos : 0 < st.buf.length := hpos0 (by simp)
    unfold putParams at h
    cases hp : putParam host pi nparams st p with
    | error e => rw [hp] at h; exact absurd h (by simp)
    | ok st1 =>
      rw [hp] at h
      simp only at h
      obtain ⟨isnull, v, hres, hge, hlt, hcase⟩ := putParam_ok hp
      have hnd' : (rest.map (fun p => p.paramid)).Nodup := (List.nodup_cons.mp hnd).2
      have hnotin : ∀ q ∈ rest, q.paramid ≠ ((p.paramid.toNat : Nat) : Int) := by
        intro q hq heq
        have : p.paramid ∈ rest.map (fun p => p.paramid) := by
          rw [Int.toNat_of_nonneg hge] at heq
          exact List.mem_map.mpr ⟨q, hq, heq⟩
        exact (List.nodup_cons.mp hnd).1 this
      have hidx : p.paramid.toNat < st.poffset.length := by
        rw [hlen]; omega
      have hbuf1 : st.buf <+: st1.buf := by
        rcases hcase with ⟨_, hb, _⟩ | ⟨_, bytes, _, hb, _⟩
        · rw [hb]
        · rw [hb]; exact List.prefix_append _ _
      have hlen1 : st1.poffset.length = nparams := by
        rcases hcase with ⟨_, _, hpo⟩ | ⟨_, bytes, _, _, hpo⟩ <;> rw [hpo] <;> simpa using hlen
      have hpos1 : 0 < st1.buf.length := lt_of_lt_of_le hpos hbuf1.length_le
      obtain ⟨hpre, hlen', hkeep, rs, hrs, hall⟩ := ih st1 st' h hnd' hlen1 (fun _ => hpos1)
      refine ⟨hbuf1.trans hpre, hlen', ?_, (isnull, v) :: rs, ?_, ?_⟩
      · intro id hid
        rw [hkeep id (fun q hq => hid q (by simp [hq]))]
        have hne : p.paramid.toNat ≠ id := by
          intro heq
          apply hid p (by simp)
          rw [← heq, Int.toNat_of_nonneg hge]
        rcases hcase with ⟨_, _, hpo⟩ | ⟨_, bytes, _, _, hpo⟩ <;> rw [hpo] <;>
          simp [List.getD_eq_getElem?_getD, List.getElem?_set_ne hne]
      · simp only [resolveAll, hres, hrs]
      · refine List.Forall₂.cons ?_
          (hall.imp (fun _ _ hq => ⟨hq.1, fun hf => le_trans hbuf1.length_le (hq.2 hf)⟩))
        have hslot : st'.poffset.getD p.paramid.toNat 0 = st1.poffset.getD p.paramid.toNat 0 :=
          hkeep _ hnotin
        rcases hcase with ⟨hnull, _, hpo⟩ | ⟨hnull, bytes, hpb, hb, hpo⟩
        · have h0 : st1.poffset.getD p.paramid.toNat 0 = 0 := by
            rw [hpo]
            simp [List.getD_eq_getElem?_getD, List.getElem?_set_self hidx]
          have hnot : ¬ ((isnull, v).1 = false) := by simp [hnull]
          refine ⟨⟨?_, fun hf => absurd hf hnot⟩, fun hf => absurd hf hnot⟩
          simp only [hnull, iff_true]
          rw [hslot, h0]
        · have h0 : st1.poffset.getD p.paramid.toNat 0 = st.buf.length := by
            rw [hpo]
            simp [List.getD_eq_getElem?_getD, List.getElem?_set_self hidx]
          refine ⟨⟨?_, ?_⟩, fun _ => by rw [hslot, h0]⟩
          · rw [hslot, h0]
            simp only [hnull]
            constructor
            · intro h; omega
            · intro h; exact absurd h (by simp)
          · intro _
            refine ⟨bytes, hpb, ?_⟩
            rw [hslot, h0, bytesAt_of_isPrefix hpre _ _ (by rw [hb]; simp), hb]
            exact bytesAt_append_right _ _

theorem pgstromBuildSessionInfo_ok {host : SessionHost} {econtext : ExprContext}
    {used_params : List Param} {kcxt_extra_bufsz kcxt_kvars_nslots : Nat}
    {xpucode_scan_quals xpucode_scan_projs : Option (List Byte)} {cmd : SessionCommand}
    (h : pgstromBuildSessionInfo host econtext used_params kcxt_extra_bufsz kcxt_kvars_nslots
          xpucode_scan_quals xpucode_scan_projs = .ok cmd) :
    ∃ (o0 : Nat) (buf0 : List Byte) (quals : Nat) (buf1 : List Byte) (projs : Nat)
      (buf2 : List Byte) (st : ParamLoopState) (xo : Nat) (buf3 : List Byte) (tz : Nat)
      (buf4 : List Byte) (en : Nat) (buf5 : List Byte) (session : kernSessionInfo),
      __appendZeroStringInfo [] (host.sessionHeaderSize + 4 * nparamsOf econtext)
        = .ok (o0, buf0) ∧
      putCode buf0 xpucode_scan_quals = .ok (quals, buf1) ∧
      putCode buf1 xpucode_scan_projs = .ok (projs, buf2) ∧
      (match econtext.ecxt_param_list_info with
        | some pi => putParams host pi (nparamsOf econtext)
            ⟨econtext, buf2, List.replicate (nparamsOf econtext) 0⟩ used_params
        | none => .ok ⟨econtext, buf2, List.replicate (nparamsOf econtext) 0⟩) = .ok st ∧
      __build_session_xact_id_vector host st.buf = .ok (xo, buf3) ∧
      __build_session_timezone host buf3 = .ok (tz, buf4) ∧
      __build_session_encode host buf4 = .ok (en, buf5) ∧
      session = { kcxt_extra_bufsz := kcxt_extra_bufsz
                  kcxt_kvars_nslots := kcxt_kvars_nslots
                  xactStartTimestamp := host.xactStartTimestamp
                  xpucode_scan_quals := quals
                  xpucode_scan_projs := projs
                  xact_id_array := xo
                  session_timezone := tz
                  session_encode := en
                  nparams := nparamsOf econtext
                  poffset := st.poffset } ∧
      cmd = { magic := host.XpuCommandMagicNumber
              tag := host.XpuCommandTag__OpenSession
              length := host.commandHeaderSize + buf5.length
              session_sz := host.sessionHeaderSize + 4 * nparamsOf econtext
              session := session
              payload := memcpy buf5 (host.sessionImage session)
                (host.sessionHeaderSize + 4 * nparamsOf econtext) } := by
  unfold pgstromBuildSessionInfo at h
  simp only at h
  split at h
  · exact absurd h (by simp)
  · rename_i o0 buf0 h0
    split at h
    · exact absurd h (by simp)
    · rename_i quals buf1 h1
      split at h
      · exact absurd h (by simp)
      · rename_i projs buf2 h2
        split at h
        · exact absurd h (by simp)
        · rename_i st hst
          split at h
          · exact absurd h (by simp)
          · rename_i xo buf3 h3
            split at h
            · exact absurd h (by simp)
            · rename_i tz buf4 h4
              split at h
              · exact absurd h (by simp)
              · rename_i en buf5 h5
                refine ⟨o0, buf0, quals, buf1, projs, buf2, st, xo, buf3, tz, buf4, en, buf5,
                  _, h0, h1, h2, hst, h3, h4, h5, rfl, ?_⟩
                simp only [Except.ok.injEq] at h
                rw [← h]
                cases hpi : econtext.ecxt_param_list_info with
                | none => simp [nparamsOf, hpi]
                | some pi => simp [nparamsOf, hpi]

theorem memcpy_length (dst src : List Byte) (n : Nat) (hn : n ≤ dst.length) :
    (memcpy dst src n).length = dst.length := by
  unfold memcpy
  simp only [List.length_append, List.length_drop, List.length_take]
  omega

theorem memcpy_drop (dst src : List Byte) (n off : Nat) (ho : n ≤ off) :
    (memcpy dst src n).drop off = dst.drop off := by
  unfold memcpy
  have hl : (src.take n).length ≤ off := by
    simp only [List.length_take]
    omega
  rw [List.drop_append_eq_append_drop, List.drop_of_length_le hl, List.nil_append,
    List.drop_drop]
  congr 1
  omega

theorem memcpy_take (dst src : List Byte) (n : Nat) (hs : src.length = n) :
    (memcpy dst src n).take n = src ∧ memcpy dst src n = src ++ dst.drop n := by
  unfold memcpy
  have ht : src.take n = src := by rw [← hs]; exact List.take_length _
  rw [ht, hs]
  exact ⟨by rw [← hs]; exact List.take_left' rfl, rfl⟩

theorem bytesAt_memcpy (dst src : List Byte) (n off k : Nat) (ho : n ≤ off) :
    bytesAt (memcpy dst src n) off k = bytesAt dst off k := by
  unfold bytesAt
  rw [memcpy_drop dst src n off ho]

theorem bytesAt_mono {a b : List Byte} (h : a <+: b) (off n : Nat)
    (hl : (bytesAt a off n).length = n) : bytesAt b off n = bytesAt a off n := by
  obtain ⟨t, rfl⟩ := h
  unfold bytesAt at hl ⊢
  simp only [List.length_take, List.length_drop] at hl
  by_cases hoff : off ≤ a.length
  · rw [List.drop_append_of_le_length hoff, List.take_append_of_le_length (by simp; omega)]
  · have hn : n = 0 := by omega
    subst hn
    simp

theorem paramAppended_mono {host : SessionHost} {poffset : List Nat} {a b : List Byte}
    {p : Param} {r : Bool × Datum} (hp : a <+: b) (h : ParamAppended host poffset a p r) :
    ParamAppended host poffset b p r := by
  refine ⟨h.1, fun hf => ?_⟩
  obtain ⟨bytes, hb, hat⟩ := h.2 hf
  refine ⟨bytes, hb, ?_⟩
  rw [bytesAt_mono hp _ _ (by rw [hat]), hat]

theorem paramStored_of_appended {host : SessionHost} {poffset : List Nat} {buf : List Byte}
    {p : Param} {r : Bool × Datum} (h : ParamAppended host poffset buf p r) :
    ParamStored host poffset buf p r := by
  refine ⟨h.1, fun hf => ?_⟩
  obtain ⟨bytes, hb, hat⟩ := h.2 hf
  obtain ⟨hraw, hlen⟩ := paramBytes_raw hb
  rw [← hlen, hat, hraw]

theorem putCode_isPrefix {buf buf1 : List Byte} {code : Option (List Byte)} {off : Nat}
    (h : putCode buf code = .ok (off, buf1)) : buf <+: buf1 := by
  unfold putCode at h
  split at h
  · rw [(appendBinary'_ok h).2]; exact List.prefix_append _ _
  · simp at h; rw [h.2]

theorem xact_isPrefix {host : SessionHost} {buf buf1 : List Byte} {off : Nat}
    (h : __build_session_xact_id_vector host buf = .ok (off, buf1)) : buf <+: buf1 := by
  unfold __build_session_xact_id_vector at h
  split at h
  · simp only at h
    split at h
    · exact absurd h (by simp)
    · rename_i o b1 h1
      split at h
      · exact absurd h (by simp)
      · rename_i b2 h2
        simp at h
        rw [← h.2, appendBinary_ok h2, (appendBinary'_ok h1).2, List.append_assoc]
        exact List.prefix_append _ _
  · simp at h; rw [h.2]

theorem timezone_isPrefix {host : SessionHost} {buf buf1 : List Byte} {off : Nat}
    (h : __build_session_timezone host buf = .ok (off, buf1)) : buf <+: buf1 := by
  unfold __build_session_timezone at h
  split at h
  · rw [(appendBinary'_ok h).2]; exact List.prefix_append _ _
  · simp at h; rw [h.2]

theorem encode_isPrefix {host : SessionHost} {buf buf1 : List Byte} {off : Nat}
    (h : __build_session_encode host buf = .ok (off, buf1)) : buf <+: buf1 := by
  unfold __build_session_encode at h
  rw [(appendBinary'_ok h).2]; exact List.prefix_append _ _

theorem appendZero_ok {n off : Nat} {buf0 : List Byte}
    (h : __appendZeroStringInfo [] n = .ok (off, buf0)) :
    off = 0 ∧ buf0 = List.replicate n 0 := by
  unfold __appendZeroStringInfo at h
  have := appendBinary'_ok h
  simpa using this

/-- C10 (session parameter round trip).  When `pgstromBuildSessionInfo` succeeds on a list
`used_params` of parameters with distinct ids, all within `0 ≤ paramid < nparams`: the
header has `nparams` slots, and its memory image is what the buffer starts with (for a
layout that gives the header `session_sz` bytes); the slot of an id that no parameter uses
is 0; and for every parameter, with the value the loop resolves for it, `poffset[paramid]`
is 0 exactly when the value is NULL, and otherwise the `n` bytes of the buffer from
`poffset[paramid]` on are the value's raw bytes: for a by-value type the first
`n = typlen` bytes of the `Datum`, for a fixed-width by-reference type the `n = typlen`
bytes in memory at the address the `Datum` holds, and for a variable-length type the
bytes in memory at the detoasted value, `n` being the size its 4-byte header gives
(`VARSIZE`). -/
theorem session_params_roundtrip (host : SessionHost) (econtext : ExprContext)
    (used_params : List Param) (kcxt_extra_bufsz kcxt_kvars_nslots : Nat)
    (xpucode_scan_quals xpucode_scan_projs : Option (List Byte)) (cmd : SessionCommand)
    (hbuild : pgstromBuildSessionInfo host econtext used_params kcxt_extra_bufsz
      kcxt_kvars_nslots xpucode_scan_quals xpucode_scan_projs = .ok cmd)
    (hnodup : (used_params.map (fun p => p.paramid)).Nodup)
    (hrange : ∀ p ∈ used_params, 0 ≤ p.paramid ∧ p.paramid < nparamsOf econtext) :
    cmd.session.poffset.length = nparamsOf econtext ∧
    ((host.sessionImage cmd.session).length = cmd.session_sz →
      cmd.payload.take cmd.session_sz = host.sessionImage cmd.session) ∧
    (∀ id : Nat, (∀ p ∈ used_params, p.paramid ≠ (id : Int)) →
      cmd.session.poffset.getD id 0 = 0) ∧
    ∃ rs, resolvedValues host econtext used_params = .ok rs ∧
      List.Forall₂ (ParamStored host cmd.session.poffset cmd.payload) used_params rs := by
  obtain ⟨o0, buf0, quals, buf1, projs, buf2, st, xo, buf3, tz, buf4, en, buf5, session,
    h0, h1, h2, hst, h3, h4, h5, hsession, rfl⟩ := pgstromBuildSessionInfo_ok hbuild
  simp only
  have hpo : session.poffset = st.poffset := by rw [hsession]
  rw [hpo]
  have hpre : st.buf <+: buf5 :=
    (xact_isPrefix h3).trans ((timezone_isPrefix h4).trans (encode_isPrefix h5))
  have hbuf0 := (appendZero_ok h0).2
  have hl0 : buf0.length = host.sessionHeaderSize + 4 * nparamsOf econtext := by
    rw [hbuf0]; simp
  have hl2 : host.sessionHeaderSize + 4 * nparamsOf econtext ≤ buf2.length := by
    have hl1 := (putCode_isPrefix h1).length_le
    have hl2 := (putCode_isPrefix h2).length_le
    omega
  have himage : (host.sessionImage session).length
        = host.sessionHeaderSize + 4 * nparamsOf econtext →
      (memcpy buf5 (host.sessionImage session)
          (host.sessionHeaderSize + 4 * nparamsOf econtext)).take
        (host.sessionHeaderSize + 4 * nparamsOf econtext) = host.sessionImage session :=
    fun hlen => (memcpy_take buf5 _ _ hlen).1
  cases hpi : econtext.ecxt_param_list_info with
  | none =>
    have hn : nparamsOf econtext = 0 := by simp [nparamsOf, hpi]
    have hnil : used_params = [] := by
      cases used_params with
      | nil => rfl
      | cons p t =>
        have := hrange p (by simp)
        rw [hn] at this
        omega
    rw [hpi] at hst
    simp only [Except.ok.injEq] at hst
    subst hst
    subst hnil
    refine ⟨by simp, himage, ?_, [], by simp [resolvedValues, hpi], List.Forall₂.nil⟩
    intro id _
    simp [hn]
  | some pi =>
    rw [hpi] at hst
    simp only at hst
    have hpos : used_params ≠ [] → 0 < buf2.length := by
      intro hne
      obtain ⟨p, hp⟩ := List.exists_mem_of_ne_nil _ hne
      have hr := hrange p hp
      omega
    obtain ⟨_, hlen, hkeep, rs, hrs, hall⟩ :=
      putParams_stored host pi (nparamsOf econtext) used_params _ st hst hnodup
        (by simp) hpos
    refine ⟨hlen, himage, ?_, rs, ?_, ?_⟩
    · intro id hid
      rw [hkeep id hid]
      simp only [List.getD_eq_getElem?_getD, List.getElem?_replicate]
      split <;> rfl
    · simp [resolvedValues, hpi, hrs]
    · refine hall.imp (fun p r hq => ?_)
      have hq1 := paramStored_of_appended (paramAppended_mono hpre hq.1)
      refine ⟨hq1.1, fun hf => ?_⟩
      rw [bytesAt_memcpy _ _ _ _ _ (le_trans hl2 (hq.2 hf))]
      exact hq1.2 hf

theorem session_params_roundtrip_witness :
    ∃ cmd, pgstromBuildSessionInfo demoHost demoContext demoParams 0 0 none (some [9, 9])
        = .ok cmd ∧
      (cmd.session.poffset, bytesAt cmd.payload 58 18)
        = ([0, 58, 0, 62, 65], [2, 1, 0, 0, 2, 3, 4, 28, 0, 0, 0, 3, 4, 5, 48, 0, 0, 0]) ∧
      valueRawBytes demoHost 25 9 = [28, 0, 0, 0, 3, 4, 5] ∧
      cmd.session.poffset.length = nparamsOf demoContext ∧
      ((demoHost.sessionImage cmd.session).length = cmd.session_sz →
        cmd.payload.take cmd.session_sz = demoHost.sessionImage cmd.session) ∧
      (∀ id : Nat, (∀ p ∈ demoParams, p.paramid ≠ (id : Int)) →
        cmd.session.poffset.getD id 0 = 0) ∧
      ∃ rs, resolvedValues demoHost demoContext demoParams = .ok rs ∧
        List.Forall₂ (ParamStored demoHost cmd.session.poffset cmd.payload) demoParams rs := by
  cases h : pgstromBuildSessionInfo demoHost demoContext demoParams 0 0 none (some [9, 9]) with
  | error e =>
    have hs : (pgstromBuildSessionInfo demoHost demoContext demoParams 0 0 none
        (some [9, 9])).toOption.isSome = true := by decide
    rw [h] at hs
    simp [Except.toOption] at hs
  | ok cmd =>
    have hv : (pgstromBuildSessionInfo demoHost demoContext demoParams 0 0 none
        (some [9, 9])).toOption.map
          (fun c => (c.session.poffset, bytesAt c.payload 58 18))
        = some ([0, 58, 0, 62, 65],
            [2, 1, 0, 0, 2, 3, 4, 28, 0, 0, 0, 3, 4, 5, 48, 0, 0, 0]) := by decide
    rw [h] at hv
    simp only [Except.toOption, Option.map_some', Option.some.injEq] at hv
    exact ⟨cmd, rfl, hv, by decide, session_params_roundtrip demoHost demoContext demoParams
      0 0 none (some [9, 9]) cmd h (by decide) (by decide)⟩

theorem blobStart_succ (sz : Nat) (blobs : List (List Byte)) (k : Nat) :
    blobStart sz blobs (k + 1) = blobStart sz blobs k + (blobs.getD k []).length := by
  unfold blobStart
  rw [List.take_succ]
  cases h : blobs[k]? with
  | none => simp [List.getD_eq_getElem?_getD, h]
  | some b => simp [List.getD_eq_getElem?_getD, h]; omega

theorem blobStart_mono (sz : Nat) (blobs : List (List Byte)) {i j : Nat} (h : i ≤ j) :
    blobStart sz blobs i ≤ blobStart sz blobs j := by
  induction j with
  | zero =>
    have : i = 0 := by omega
    subst this; exact le_refl _
  | succ n ih =>
    by_cases hi : i = n + 1
    · subst hi; exact le_refl _
    · have := ih (by omega)
      rw [blobStart_succ]
      omega

theorem blobStart_split (sz : Nat) (pre : List (List Byte)) (b : List Byte)
    (post : List (List Byte)) :
    blobStart sz (pre ++ b :: post) pre.length = sz + pre.flatten.length ∧
    (pre ++ b :: post).getD pre.length [] = b := by
  constructor
  · unfold blobStart
    rw [List.take_left']
    rfl
  · rw [List.getD_eq_getElem?_getD, List.getElem?_append_right (le_refl _)]
    simp

theorem isBlobStart_append {sz : Nat} {blobs : List (List Byte)} {o : Nat}
    (h : IsBlobStart sz blobs o) (more : List (List Byte)) :
    IsBlobStart sz (blobs ++ more) o := by
  obtain ⟨pre, b, post, hb, ho⟩ := h
  exact ⟨pre, b, post ++ more, by rw [hb]; simp, ho⟩

theorem isBlobStart_last (sz : Nat) (acc : List (List Byte)) (b : List Byte) :
    IsBlobStart sz (acc ++ [b]) (sz + acc.flatten.length) :=
  ⟨acc, b, [], rfl, rfl⟩

theorem length_le_flatten_of_mem {x : List Byte} {l : List (List Byte)} (h : x ∈ l) :
    x.length ≤ l.flatten.length := by
  induction l with
  | nil => exact absurd h (by simp)
  | cons a t ih =>
    rcases List.mem_cons.mp h with rfl | ht
    · simp
    · have := ih ht
      rw [List.flatten_cons, List.length_append]
      omega

theorem append_layout {sz off : Nat} {acc : List (List Byte)} {buf data buf1 : List Byte}
    (h : __appendBinaryStringInfo buf data = .ok (off, buf1))
    (hl : buf = List.replicate sz 0 ++ acc.flatten) :
    buf1 = List.replicate sz 0 ++ (acc ++ [data]).flatten ∧
    IsBlobStart sz (acc ++ [data]) off := by
  obtain ⟨ho, hb⟩ := appendBinary'_ok h
  refine ⟨?_, ?_⟩
  · rw [hb, hl]; simp
  · rw [ho, hl]
    simpa using isBlobStart_last sz acc data

theorem putCode_layout {sz off : Nat} {acc : List (List Byte)} {buf buf1 : List Byte}
    {code : Option (List Byte)} (h : putCode buf code = .ok (off, buf1))
    (hl : buf = List.replicate sz 0 ++ acc.flatten) :
    buf1 = List.replicate sz 0 ++ (acc ++ code.toList).flatten ∧
    (off ≠ 0 → IsBlobStart sz (acc ++ code.toList) off) := by
  cases code with
  | none =>
    simp [putCode] at h
    obtain ⟨h1, h2⟩ := h
    subst h1 h2
    exact ⟨by simpa using hl, fun hne => absurd rfl hne⟩
  | some bytes =>
    simp only [putCode] at h
    have := append_layout h hl
    exact ⟨this.1, fun _ => this.2⟩

theorem timezone_layout {host : SessionHost} {sz off : Nat} {acc : List (List Byte)}
    {buf buf1 : List Byte} (h : __build_session_timezone host buf = .ok (off, buf1))
    (hl : buf = List.replicate sz 0 ++ acc.flatten) :
    buf1 = List.replicate sz 0 ++ (acc ++ host.session_timezone.toList).flatten ∧
    (off ≠ 0 → IsBlobStart sz (acc ++ host.session_timezone.toList) off) := by
  unfold __build_session_timezone at h
  cases htz : host.session_timezone with
  | none =>
    rw [htz] at h
    simp at h
    obtain ⟨h1, h2⟩ := h
    subst h1 h2
    exact ⟨by simpa using hl, fun hne => absurd rfl hne⟩
  | some tz =>
    rw [htz] at h
    simp only at h
    have := append_layout h hl
    exact ⟨this.1, fun _ => this.2⟩

theorem encode_layout {host : SessionHost} {sz off : Nat} {acc : List (List Byte)}
    {buf buf1 : List Byte} (h : __build_session_encode host buf = .ok (off, buf1))
    (hl : buf = List.replicate sz 0 ++ acc.flatten) :
    buf1 = List.replicate sz 0 ++ (acc ++ [host.xpu_encode_info]).flatten ∧
    IsBlobStart sz (acc ++ [host.xpu_encode_info]) off := by
  unfold __build_session_encode at h
  exact append_layout h hl

theorem xact_layout {host : SessionHost} {sz off : Nat} {acc : List (List Byte)}
    {buf buf1 : List Byte} (h : __build_session_xact_id_vector host buf = .ok (off, buf1))
    (hl : buf = List.replicate sz 0 ++ acc.flatten) :
    buf1 = List.replicate sz 0 ++ (acc ++ xactBlobs host).flatten ∧
    (off ≠ 0 → IsBlobStart sz (acc ++ xactBlobs host) off) := by
  unfold __build_session_xact_id_vector at h
  unfold xactBlobs
  split at h
  · rename_i hn
    simp only at h
    split at h
    · exact absurd h (by simp)
    · rename_i o b1 h1
      split at h
      · exact absurd h (by simp)
      · rename_i b2 h2
        simp at h
        obtain ⟨ho, hb⟩ := appendBinary'_ok h1
        have hb2 := appendBinary_ok h2
        rw [if_pos hn]
        refine ⟨?_, fun _ => ?_⟩
        · rw [← h.2, hb2, hb, hl]; simp
        · rw [← h.1, ho, hl]
          simpa using isBlobStart_last sz acc _
  · rename_i hn
    simp at h
    obtain ⟨h1, h2⟩ := h
    subst h1 h2
    rw [if_neg hn]
    exact ⟨by simpa using hl, fun hne => absurd rfl hne⟩

theorem putParams_layout (host : SessionHost) (pi : ParamListInfoData) (nparams sz : Nat) :
    ∀ (ps : List Param) (st st' : ParamLoopState) (acc : List (List Byte)),
      putParams host pi nparams st ps = .ok st' →
      st.buf = List.replicate sz 0 ++ acc.flatten →
      (∀ o ∈ st.poffset, o ≠ 0 → IsBlobStart sz acc o) →
      st'.buf = List.replicate sz 0 ++ (acc ++ paramBlobs host pi st.econtext ps).flatten ∧
      (∀ o ∈ st'.poffset, o ≠ 0 →
        IsBlobStart sz (acc ++ paramBlobs host pi st.econtext ps) o) := by
  intro ps
  induction ps with
  | nil =>
    intro st st' acc h hl hp
    simp [putParams] at h
    subst h
    simp only [paramBlobs, List.append_nil]
    exact ⟨hl, hp⟩
  | cons p rest ih =>
    intro st st' acc h hl hp
    unfold putParams at h
    cases hpp : putParam host pi nparams st p with
    | error e => rw [hpp] at h; exact absurd h (by simp)
    | ok st1 =>
      rw [hpp] at h
      simp only at h
      obtain ⟨isnull, v, hres, _, _, hcase⟩ := putParam_ok hpp
      rcases hcase with ⟨hnull, hb, hpo⟩ | ⟨hnull, bytes, hpb, hb, hpo⟩
      · have hp1 : ∀ o ∈ st1.poffset, o ≠ 0 → IsBlobStart sz acc o := by
          intro o ho hne
          rw [hpo] at ho
          rcases List.mem_or_eq_of_mem_set ho with hm | he
          · exact hp o hm hne
          · exact absurd he hne
        have := ih st1 st' acc h (by rw [hb]; exact hl) hp1
        simp only [paramBlobs, hres, hnull, if_true, List.nil_append]
        exact this
      · have hl1 : st1.buf = List.replicate sz 0 ++ (acc ++ [bytes]).flatten := by
          rw [hb, hl]; simp
        have hp1 : ∀ o ∈ st1.poffset, o ≠ 0 → IsBlobStart sz (acc ++ [bytes]) o := by
          intro o ho hne
          rw [hpo] at ho
          rcases List.mem_or_eq_of_mem_set ho with hm | he
          · exact isBlobStart_append (hp o hm hne) _
          · rw [he, hl]
            simpa using isBlobStart_last sz acc bytes
        have := ih st1 st' (acc ++ [bytes]) h hl1 hp1
        simp only [paramBlobs, hres, hnull, hpb, Bool.false_eq_true, if_false]
        simpa using this

theorem memcpy_header (sz : Nat) (img rest : List Byte) :
    ∃ hd : List Byte, hd.length = sz ∧
      memcpy (List.replicate sz 0 ++ rest) img sz = hd ++ rest ∧
      (img.length = sz → hd = img) := by
  refine ⟨img.take sz ++ List.replicate (sz - (img.take sz).length) 0, ?_, ?_, ?_⟩
  · simp only [List.length_append, List.length_take, List.length_replicate]
    omega
  · have hle : (img.take sz).length ≤ sz := by
      simp only [List.length_take]
      omega
    unfold memcpy
    rw [List.drop_append_eq_append_drop, List.drop_replicate, List.length_replicate,
      Nat.sub_eq_zero_of_le hle, List.drop_zero, List.append_assoc]
  · intro hl
    rw [← hl, List.take_length]
    simp

theorem session_layout {host : SessionHost} {econtext : ExprContext}
    {used_params : List Param} {kcxt_extra_bufsz kcxt_kvars_nslots : Nat}
    {xpucode_scan_quals xpucode_scan_projs : Option (List Byte)} {cmd : SessionCommand}
    (h : pgstromBuildSessionInfo host econtext used_params kcxt_extra_bufsz kcxt_kvars_nslots
          xpucode_scan_quals xpucode_scan_projs = .ok cmd) :
    cmd.session_sz = host.sessionHeaderSize + 4 * nparamsOf econtext ∧
    (∃ hd : List Byte, hd.length = cmd.session_sz ∧
      cmd.payload = hd ++
        (sessionBlobs host econtext used_params xpucode_scan_quals
          xpucode_scan_projs).flatten ∧
      ((host.sessionImage cmd.session).length = cmd.session_sz →
        hd = host.sessionImage cmd.session)) ∧
    ∀ o ∈ offsetFields cmd.session, o ≠ 0 →
      IsBlobStart cmd.session_sz
        (sessionBlobs host econtext used_params xpucode_scan_quals xpucode_scan_projs) o := by
  obtain ⟨o0, buf0, quals, buf1, projs, buf2, st, xo, buf3, tz, buf4, en, buf5, session,
    h0, h1, h2, hst, h3, h4, h5, hsession, rfl⟩ := pgstromBuildSessionInfo_ok h
  simp only
  have hfields : offsetFields session = [quals, projs, xo, tz, en] ++ st.poffset := by
    rw [hsession]; rfl
  rw [hfields]
  clear hsession hfields
  generalize hsz : host.sessionHeaderSize + 4 * nparamsOf econtext = sz at *
  have hl0 : buf0 = List.replicate sz 0 ++ ([] : List (List Byte)).flatten := by
    rw [(appendZero_ok h0).2]; simp
  obtain ⟨hl1, hq⟩ := putCode_layout h1 hl0
  obtain ⟨hl2, hp⟩ := putCode_layout h2 hl1
  have hloop : st.buf = List.replicate sz 0 ++
      ([] ++ xpucode_scan_quals.toList ++ xpucode_scan_projs.toList ++
        usedParamBlobs host econtext used_params).flatten ∧
      ∀ o ∈ st.poffset, o ≠ 0 → IsBlobStart sz
        ([] ++ xpucode_scan_quals.toList ++ xpucode_scan_projs.toList ++
          usedParamBlobs host econtext used_params) o := by
    cases hpi : econtext.ecxt_param_list_info with
    | none =>
      rw [hpi] at hst
      simp at hst
      subst hst
      simp only [usedParamBlobs, hpi, List.append_nil]
      refine ⟨hl2, ?_⟩
      intro o ho hne
      exact absurd (List.eq_of_mem_replicate ho) hne
    | some pi =>
      rw [hpi] at hst
      simp only at hst
      simp only [usedParamBlobs, hpi]
      refine putParams_layout host pi (nparamsOf econtext) sz used_params _ st _ hst hl2 ?_
      intro o ho hne
      exact absurd (List.eq_of_mem_replicate ho) hne
  obtain ⟨hl3, hpo⟩ := hloop
  obtain ⟨hl4, hx⟩ := xact_layout h3 hl3
  obtain ⟨hl5, ht⟩ := timezone_layout h4 hl4
  obtain ⟨hl6, he⟩ := encode_layout h5 hl5
  have hblobs : sessionBlobs host econtext used_params xpucode_scan_quals xpucode_scan_projs
      = [] ++ xpucode_scan_quals.toList ++ xpucode_scan_projs.toList ++
        usedParamBlobs host econtext used_params ++ xactBlobs host ++ host.session_timezone.toList ++
        [host.xpu_encode_info] := by
    simp [sessionBlobs]
  rw [hblobs]
  refine ⟨trivial, ?_, ?_⟩
  · rw [hl6]
    exact memcpy_header sz (host.sessionImage session) _
  intro o ho hne
  simp only [List.mem_append, List.mem_cons, List.mem_singleton,
    List.not_mem_nil, or_false] at ho
  rcases ho with (rfl | rfl | rfl | rfl | rfl) | ho
  · have := hq hne
    simpa [List.append_assoc] using isBlobStart_append this
      (xpucode_scan_projs.toList ++ usedParamBlobs host econtext used_params ++ xactBlobs host ++ host.session_timezone.toList ++
        [host.xpu_encode_info])
  · have := hp hne
    simpa [List.append_assoc] using isBlobStart_append this
      (usedParamBlobs host econtext used_params ++ xactBlobs host ++ host.session_timezone.toList ++
        [host.xpu_encode_info])
  · have := hx hne
    simpa [List.append_assoc] using isBlobStart_append this
      (host.session_timezone.toList ++ [host.xpu_encode_info])
  · have := ht hne
    simpa [List.append_assoc] using isBlobStart_append this [host.xpu_encode_info]
  · exact he
  · have := hpo o ho hne
    simpa [List.append_assoc] using isBlobStart_append this
      (xactBlobs host ++ host.session_timezone.toList ++ [host.xpu_encode_info])

theorem blob_at (hd : List Byte) (pre : List (List Byte)) (b : List Byte)
    (post : List (List Byte)) :
    bytesAt (hd ++ (pre ++ b :: post).flatten) (hd.length + pre.flatten.length)
      b.length = b := by
  have h : hd ++ (pre ++ b :: post).flatten
      = (hd ++ pre.flatten) ++ (b ++ post.flatten) := by simp
  rw [h]
  unfold bytesAt
  rw [List.drop_left' (by simp), List.take_left' rfl]

theorem split_at_index (blobs : List (List Byte)) {k : Nat} (hk : k < blobs.length) :
    blobs = blobs.take k ++ blobs.getD k [] :: blobs.drop (k + 1) := by
  have h1 : blobs.getD k [] = blobs[k] := by
    simp [List.getD_eq_getElem?_getD, List.getElem?_eq_getElem hk]
  rw [h1, ← List.drop_eq_getElem_cons hk, List.take_append_drop]

theorem isBlobStart_of_index (sz : Nat) (blobs : List (List Byte)) {k : Nat}
    (hk : k < blobs.length) : IsBlobStart sz blobs (blobStart sz blobs k) :=
  ⟨blobs.take k, blobs.getD k [], blobs.drop (k + 1), split_at_index blobs hk, rfl⟩

theorem designates_of_isBlobStart {sz : Nat} {blobs : List (List Byte)} {buf hd : List Byte}
    {o : Nat} (hhd : hd.length = sz) (hbuf : buf = hd ++ blobs.flatten)
    (h : IsBlobStart sz blobs o) :
    sz ≤ o ∧ DesignatesBlob sz blobs buf o := by
  obtain ⟨pre, b, post, hb, ho⟩ := h
  obtain ⟨hs, hg⟩ := blobStart_split sz pre b post
  refine ⟨by omega, pre.length, ?_, ?_, ?_, ?_⟩
  · rw [hb]; simp
  · rw [hb, hs, ho]
  · rw [hb, hg, hbuf, hb, ho]
    simp
    omega
  · rw [hb, hg, hbuf, hb, ho, ← hhd]
    exact blob_at hd pre b post

theorem isBlobStart_lt {sz : Nat} {acc : List (List Byte)} {e : List Byte} {o : Nat}
    (he : e ≠ []) (h : IsBlobStart sz (acc ++ [e]) o) :
    o < sz + (acc ++ [e]).flatten.length := by
  obtain ⟨pre, b, post, hb, ho⟩ := h
  have hmem : e ∈ b :: post := by
    have hlast : (acc ++ [e]).getLast? = some e := by simp
    rw [hb, List.getLast?_append_cons] at hlast
    exact List.mem_of_getLast?_eq_some hlast
  have hle := length_le_flatten_of_mem hmem
  have hpos : 0 < e.length := List.length_pos.mpr he
  rw [hb, ho]
  simp at hle ⊢
  omega

/-- C11 (session offset invariant).  In the buffer of every command that
`pgstromBuildSessionInfo` produces, the header of
`session_sz = offsetof(kernSessionInfo, poffset[nparams])` bytes is followed by the appended
blobs, one after the other, and the header bytes are the memory image of the header
`session` that line 201 copies there (for a layout that gives it `session_sz` bytes).
Every non-zero offset field of that header (`xpucode_scan_quals`, `xpucode_scan_projs`,
`xact_id_array`, `session_timezone`, `session_encode`, every `poffset[i]`) is at least
`session_sz` and less than the buffer length, and is the position of one of the appended
blobs, which lies entirely inside the buffer.  The byte ranges of two distinct blobs do
not overlap, every blob sits at its position, and no blob is at offset 0.  The header is
taken to have a positive size and `xpu_encode_info` at least one byte. -/
theorem session_offset_invariant (host : SessionHost) (econtext : ExprContext)
    (used_params : List Param) (kcxt_extra_bufsz kcxt_kvars_nslots : Nat)
    (xpucode_scan_quals xpucode_scan_projs : Option (List Byte)) (cmd : SessionCommand)
    (hbuild : pgstromBuildSessionInfo host econtext used_params kcxt_extra_bufsz
      kcxt_kvars_nslots xpucode_scan_quals xpucode_scan_projs = .ok cmd)
    (hhdr : 0 < host.sessionHeaderSize) (henc : host.xpu_encode_info ≠ []) :
    cmd.session_sz = host.sessionHeaderSize + 4 * nparamsOf econtext ∧
    cmd.payload.length = cmd.session_sz +
      (sessionBlobs host econtext used_params xpucode_scan_quals
        xpucode_scan_projs).flatten.length ∧
    cmd.payload.drop cmd.session_sz =
      (sessionBlobs host econtext used_params xpucode_scan_quals xpucode_scan_projs).flatten ∧
    ((host.sessionImage cmd.session).length = cmd.session_sz →
      cmd.payload = host.sessionImage cmd.session ++
        (sessionBlobs host econtext used_params xpucode_scan_quals
          xpucode_scan_projs).flatten) ∧
    (∀ o ∈ offsetFields cmd.session, o ≠ 0 →
      cmd.session_sz ≤ o ∧ o < cmd.payload.length ∧
      DesignatesBlob cmd.session_sz
        (sessionBlobs host econtext used_params xpucode_scan_quals xpucode_scan_projs)
        cmd.payload o) ∧
    (∀ i j, i < j →
      j < (sessionBlobs host econtext used_params xpucode_scan_quals
            xpucode_scan_projs).length →
      blobStart cmd.session_sz
          (sessionBlobs host econtext used_params xpucode_scan_quals xpucode_scan_projs) i +
        ((sessionBlobs host econtext used_params xpucode_scan_quals
            xpucode_scan_projs).getD i []).length
        ≤ blobStart cmd.session_sz
          (sessionBlobs host econtext used_params xpucode_scan_quals xpucode_scan_projs) j) ∧
    (∀ k, k < (sessionBlobs host econtext used_params xpucode_scan_quals
            xpucode_scan_projs).length →
      0 < blobStart cmd.session_sz
          (sessionBlobs host econtext used_params xpucode_scan_quals xpucode_scan_projs) k ∧
      DesignatesBlob cmd.session_sz
        (sessionBlobs host econtext used_params xpucode_scan_quals xpucode_scan_projs)
        cmd.payload
        (blobStart cmd.session_sz
          (sessionBlobs host econtext used_params xpucode_scan_quals xpucode_scan_projs) k)) := by
  obtain ⟨hsz, ⟨hd, hhd, hpay, himg⟩, hoff⟩ := session_layout hbuild
  generalize hB : sessionBlobs host econtext used_params xpucode_scan_quals
    xpucode_scan_projs = blobs at *
  have hlast : ∃ acc, blobs = acc ++ [host.xpu_encode_info] := by
    rw [← hB]
    exact ⟨_, rfl⟩
  have hplen : cmd.payload.length = cmd.session_sz + blobs.flatten.length := by
    rw [hpay, List.length_append, hhd]
  refine ⟨hsz, hplen, ?_, ?_, ?_, ?_, ?_⟩
  · rw [hpay, ← hhd]
    exact List.drop_left' rfl
  · intro hl
    rw [hpay, himg hl]
  · intro o ho hne
    have hs := hoff o ho hne
    obtain ⟨hle, hdes⟩ := designates_of_isBlobStart hhd hpay hs
    refine ⟨hle, ?_, hdes⟩
    obtain ⟨acc, hacc⟩ := hlast
    rw [hacc] at hs
    have := isBlobStart_lt henc hs
    rw [hplen, hacc]
    exact this
  · intro i j hij _
    have h1 := blobStart_succ cmd.session_sz blobs i
    have h2 : blobStart cmd.session_sz blobs (i + 1) ≤ blobStart cmd.session_sz blobs j :=
      blobStart_mono cmd.session_sz blobs (Nat.succ_le_of_lt hij)
    omega
  · intro k hk
    have hs := isBlobStart_of_index cmd.session_sz blobs hk
    obtain ⟨hle, hdes⟩ := designates_of_isBlobStart hhd hpay hs
    exact ⟨by omega, hdes⟩

theorem session_offset_invariant_witness :
    ∃ cmd, pgstromBuildSessionInfo demoHost demoContext demoParams 0 0 none (some [9, 9])
        = .ok cmd ∧
      (offsetFields cmd.session, cmd.payload.take cmd.session_sz)
        = ([0, 56, 72, 0, 84, 0, 58, 0, 62, 65],
           [5, 0, 0, 0, 0, 0, 0, 0, 0, 0, 0, 0, 0, 0, 0, 0, 0, 0, 0, 0, 56, 0, 0, 0,
            72, 0, 0, 0, 0, 0, 0, 0, 84, 0, 0, 0, 0, 0, 0, 0, 58, 0, 0, 0, 0, 0, 0, 0,
            62, 0, 0, 0, 65, 0, 0, 0]) ∧
      cmd.session_sz = demoHost.sessionHeaderSize + 4 * nparamsOf demoContext ∧
      cmd.payload.length = cmd.session_sz +
        (sessionBlobs demoHost demoContext demoParams none (some [9, 9])).flatten.length ∧
      cmd.payload.drop cmd.session_sz =
        (sessionBlobs demoHost demoContext demoParams none (some [9, 9])).flatten ∧
      ((demoHost.sessionImage cmd.session).length = cmd.session_sz →
        cmd.payload = demoHost.sessionImage cmd.session ++
          (sessionBlobs demoHost demoContext demoParams none (some [9, 9])).flatten) ∧
      (∀ o ∈ offsetFields cmd.session, o ≠ 0 →
        cmd.session_sz ≤ o ∧ o < cmd.payload.length ∧
        DesignatesBlob cmd.session_sz
          (sessionBlobs demoHost demoContext demoParams none (some [9, 9])) cmd.payload o) ∧
      (∀ i j, i < j →
        j < (sessionBlobs demoHost demoContext demoParams none (some [9, 9])).length →
        blobStart cmd.session_sz
            (sessionBlobs demoHost demoContext demoParams none (some [9, 9])) i +
          ((sessionBlobs demoHost demoContext demoParams none (some [9, 9])).getD i []).length
          ≤ blobStart cmd.session_sz
            (sessionBlobs demoHost demoContext demoParams none (some [9, 9])) j) ∧
      (∀ k, k < (sessionBlobs demoHost demoContext demoParams none (some [9, 9])).length →
        0 < blobStart cmd.session_sz
            (sessionBlobs demoHost demoContext demoParams none (some [9, 9])) k ∧
        DesignatesBlob cmd.session_sz
          (sessionBlobs demoHost demoContext demoParams none (some [9, 9])) cmd.payload
          (blobStart cmd.session_sz
            (sessionBlobs demoHost demoContext demoParams none (some [9, 9])) k)) := by
  cases h : pgstromBuildSessionInfo demoHost demoContext demoParams 0 0 none (some [9, 9]) with
  | error e =>
    have hs : (pgstromBuildSessionInfo demoHost demoContext demoParams 0 0 none
        (some [9, 9])).toOption.isSome = true := by decide
    rw [h] at hs
    simp [Except.toOption] at hs
  | ok cmd =>
    have hv : (pgstromBuildSessionInfo demoHost demoContext demoParams 0 0 none
        (some [9, 9])).toOption.map
          (fun c => (offsetFields c.session, c.payload.take c.session_sz))
        = some ([0, 56, 72, 0, 84, 0, 58, 0, 62, 65],
           [5, 0, 0, 0, 0, 0, 0, 0, 0, 0, 0, 0, 0, 0, 0, 0, 0, 0, 0, 0, 56, 0, 0, 0,
            72, 0, 0, 0, 0, 0, 0, 0, 84, 0, 0, 0, 0, 0, 0, 0, 58, 0, 0, 0, 0, 0, 0, 0,
            62, 0, 0, 0, 65, 0, 0, 0]) := by decide
    rw [h] at hv
    simp only [Except.toOption, Option.map_some', Option.some.injEq] at hv
    exact ⟨cmd, rfl, hv, session_offset_invariant demoHost demoContext demoParams 0 0 none
      (some [9, 9]) cmd h (by decide) (by decide)⟩

theorem putParams_length (host : SessionHost) (pi : ParamListInfoData) (nparams : Nat) :
    ∀ (ps : List Param) (st st' : ParamLoopState),
      putParams host pi nparams st ps = .ok st' → st'.poffset.length = st.poffset.length := by
  intro ps
  induction ps with
  | nil =>
    intro st st' h
    simp [putParams] at h
    rw [h]
  | cons p rest ih =>
    intro st st' h
    unfold putParams at h
    cases hpp : putParam host pi nparams st p with
    | error e => rw [hpp] at h; exact absurd h (by simp)
    | ok st1 =>
      rw [hpp] at h
      simp only at h
      rw [ih st1 st' h]
      obtain ⟨_, _, _, _, _, hcase⟩ := putParam_ok hpp
      rcases hcase with ⟨_, _, hpo⟩ | ⟨_, _, _, _, hpo⟩ <;> rw [hpo] <;> simp

theorem putParams_isPrefix (host : SessionHost) (pi : ParamListInfoData) (nparams : Nat) :
    ∀ (ps : List Param) (st st' : ParamLoopState),
      putParams host pi nparams st ps = .ok st' → st.buf <+: st'.buf := by
  intro ps
  induction ps with
  | nil =>
    intro st st' h
    simp [putParams] at h
    rw [h]
  | cons p rest ih =>
    intro st st' h
    unfold putParams at h
    cases hpp : putParam host pi nparams st p with
    | error e => rw [hpp] at h; exact absurd h (by simp)
    | ok st1 =>
      rw [hpp] at h
      simp only at h
      refine List.IsPrefix.trans ?_ (ih st1 st' h)
      obtain ⟨_, _, _, _, _, hcase⟩ := putParam_ok hpp
      rcases hcase with ⟨_, hb, _⟩ | ⟨_, _, _, hb, _⟩
      · rw [hb]
      · rw [hb]; exact List.prefix_append _ _

/-- C12 (session command envelope).  Whenever `pgstromBuildSessionInfo` succeeds, the
command has `magic = XpuCommandMagicNumber`, `tag = XpuCommandTag__OpenSession` and
`length = offsetof(XpuCommand, u.session) + buf.len`, `buf.len` being the `session_sz`
header bytes plus all appended blobs.  Its payload is the session buffer: the first
`session_sz` bytes are the memory image of the header `session` (line 201), the appended
blobs follow; and that header is filled in: `nparams`, one `poffset` slot per parameter,
the scalar fields, and offset fields that are 0 or the position of an appended blob.
`length` is at least the command header size.  For a framer layout `cfg` whose header is
those `offsetof(XpuCommand, u.session)` bytes, the command's image, a header `hdr` that
carries its `magic` and `length` followed by the payload, is a well-formed command.  The
layout of `kernSessionInfo` is taken to give a header with `nparams` slots `session_sz`
bytes. -/
theorem session_command_envelope (host : SessionHost) (econtext : ExprContext)
    (used_params : List Param) (kcxt_extra_bufsz kcxt_kvars_nslots : Nat)
    (xpucode_scan_quals xpucode_scan_projs : Option (List Byte)) (cmd : SessionCommand)
    (cfg : XpuConfig) (hdr : List Byte)
    (hbuild : pgstromBuildSessionInfo host econtext used_params kcxt_extra_bufsz
      kcxt_kvars_nslots xpucode_scan_quals xpucode_scan_projs = .ok cmd)
    (himg : (host.sessionImage cmd.session).length = cmd.session_sz)
    (hsize : cfg.hdrsz = host.commandHeaderSize)
    (hmagic : cfg.XpuCommandMagicNumber = host.XpuCommandMagicNumber)
    (hlen : hdr.length = cfg.hdrsz)
    (hm : cfg.magic hdr = cmd.magic) (hl : cfg.length hdr = cmd.length) :
    cmd.magic = host.XpuCommandMagicNumber ∧
    cmd.tag = host.XpuCommandTag__OpenSession ∧
    cmd.length = host.commandHeaderSize + cmd.payload.length ∧
    cmd.payload.length = cmd.session_sz +
      (sessionBlobs host econtext used_params xpucode_scan_quals
        xpucode_scan_projs).flatten.length ∧
    cmd.session_sz = host.sessionHeaderSize + 4 * nparamsOf econtext ∧
    cmd.payload = host.sessionImage cmd.session ++
      (sessionBlobs host econtext used_params xpucode_scan_quals xpucode_scan_projs).flatten ∧
    cmd.payload.take cmd.session_sz = host.sessionImage cmd.session ∧
    cmd.session_sz ≤ cmd.payload.length ∧
    cmd.session.nparams = nparamsOf econtext ∧
    cmd.session.poffset.length = nparamsOf econtext ∧
    cmd.session.kcxt_extra_bufsz = kcxt_extra_bufsz ∧
    cmd.session.kcxt_kvars_nslots = kcxt_kvars_nslots ∧
    cmd.session.xactStartTimestamp = host.xactStartTimestamp ∧
    (∀ o ∈ offsetFields cmd.session, o ≠ 0 →
      IsBlobStart cmd.session_sz
        (sessionBlobs host econtext used_params xpucode_scan_quals xpucode_scan_projs) o) ∧
    host.commandHeaderSize ≤ cmd.length ∧
    WellFormedCmd cfg (hdr ++ cmd.payload) := by
  obtain ⟨hsz, ⟨hd, hhd, hpay0, hhdimg⟩, hoff⟩ := session_layout hbuild
  have hpay : cmd.payload = host.sessionImage cmd.session ++
      (sessionBlobs host econtext used_params xpucode_scan_quals
        xpucode_scan_projs).flatten := by
    rw [hpay0, hhdimg himg]
  obtain ⟨o0, buf0, quals, buf1, projs, buf2, st, xo, buf3, tz, buf4, en, buf5, session,
    h0, h1, h2, hst, h3, h4, h5, hsession, hcmd⟩ := pgstromBuildSessionInfo_ok hbuild
  have hpl : st.poffset.length = nparamsOf econtext := by
    cases hpi : econtext.ecxt_param_list_info with
    | none =>
      rw [hpi] at hst
      simp at hst
      rw [← hst]; simp
    | some pi =>
      rw [hpi] at hst
      simp only at hst
      rw [putParams_length host pi _ used_params _ st hst]; simp
  have hl5 : host.sessionHeaderSize + 4 * nparamsOf econtext ≤ buf5.length := by
    have e0 : buf0.length = host.sessionHeaderSize + 4 * nparamsOf econtext := by
      rw [(appendZero_ok h0).2]; simp
    have e1 := (putCode_isPrefix h1).length_le
    have e2 := (putCode_isPrefix h2).length_le
    have e3 : buf2.length ≤ st.buf.length := by
      cases hpi : econtext.ecxt_param_list_info with
      | none =>
        rw [hpi] at hst
        simp at hst
        rw [← hst]
      | some pi =>
        rw [hpi] at hst
        simp only at hst
        exact (putParams_isPrefix host pi _ used_params _ st hst).length_le
    have e4 := (xact_isPrefix h3).length_le
    have e5 := (timezone_isPrefix h4).length_le
    have e6 := (encode_isPrefix h5).length_le
    omega
  have hses : cmd.session = session := by rw [hcmd]
  have hlength : cmd.length = host.commandHeaderSize + cmd.payload.length := by
    rw [hcmd]
    simp only
    rw [memcpy_length _ _ _ hl5]
  have hplen : cmd.payload.length = cmd.session_sz +
      (sessionBlobs host econtext used_params xpucode_scan_quals
        xpucode_scan_projs).flatten.length := by
    rw [hpay, List.length_append, himg]
  refine ⟨by rw [hcmd], by rw [hcmd], hlength, hplen, hsz, hpay, ?_, by omega,
    by rw [hses, hsession], ?_, by rw [hses, hsession], by rw [hses, hsession],
    by rw [hses, hsession], hoff, by omega, ?_⟩
  · rw [hpay, ← himg]
    exact List.take_left' rfl
  · rw [hses, hsession]; exact hpl
  · unfold WellFormedCmd
    have ht : (hdr ++ cmd.payload).take cfg.hdrsz = hdr := by
      rw [← hlen]; exact List.take_left' rfl
    rw [ht]
    refine ⟨?_, ?_, ?_⟩
    · rw [hm, hmagic, hcmd]
    · rw [hl, hlength, List.length_append, hlen, hsize]
    · rw [List.length_append, hlen]; omega

theorem session_command_envelope_witness :
    ∃ cmd, pgstromBuildSessionInfo demoHost demoContext demoParams 0 0 none (some [9, 9])
        = .ok cmd ∧
      cmd.magic = demoHost.XpuCommandMagicNumber ∧
      cmd.tag = demoHost.XpuCommandTag__OpenSession ∧
      cmd.length = demoHost.commandHeaderSize + cmd.payload.length ∧
      cmd.payload.length = cmd.session_sz +
        (sessionBlobs demoHost demoContext demoParams none (some [9, 9])).flatten.length ∧
      cmd.session_sz = demoHost.sessionHeaderSize + 4 * nparamsOf demoContext ∧
      cmd.payload = demoHost.sessionImage cmd.session ++
        (sessionBlobs demoHost demoContext demoParams none (some [9, 9])).flatten ∧
      cmd.payload.take cmd.session_sz = demoHost.sessionImage cmd.session ∧
      cmd.session_sz ≤ cmd.payload.length ∧
      cmd.session.nparams = nparamsOf demoContext ∧
      cmd.session.poffset.length = nparamsOf demoContext ∧
      cmd.session.kcxt_extra_bufsz = 0 ∧
      cmd.session.kcxt_kvars_nslots = 0 ∧
      cmd.session.xactStartTimestamp = demoHost.xactStartTimestamp ∧
      (∀ o ∈ offsetFields cmd.session, o ≠ 0 →
        IsBlobStart cmd.session_sz
          (sessionBlobs demoHost demoContext demoParams none (some [9, 9])) o) ∧
      demoHost.commandHeaderSize ≤ cmd.length ∧
      WellFormedCmd
        { BLCKSZ := 2, hdrsz := 4, XpuCommandMagicNumber := 7,
          magic := fun h => h.getD 0 0, length := fun h => h.getD 1 0, NDEBUG := false }
        ([7, 90, 0, 0] ++ cmd.payload) := by
  cases h : pgstromBuildSessionInfo demoHost demoContext demoParams 0 0 none (some [9, 9]) with
  | error e =>
    have hs : (pgstromBuildSessionInfo demoHost demoContext demoParams 0 0 none
        (some [9, 9])).toOption.isSome = true := by decide
    rw [h] at hs
    simp [Except.toOption] at hs
  | ok cmd =>
    have hv : (pgstromBuildSessionInfo demoHost demoContext demoParams 0 0 none
        (some [9, 9])).toOption.map
          (fun c => (c.magic, c.length, (demoHost.sessionImage c.session).length,
            c.session_sz)) = some (7, 90, 56, 56) := by decide
    rw [h] at hv
    simp only [Except.toOption, Option.map_some', Option.some.injEq, Prod.mk.injEq] at hv
    exact ⟨cmd, rfl, session_command_envelope demoHost demoContext demoParams 0 0 none
      (some [9, 9]) cmd
      { BLCKSZ := 2, hdrsz := 4, XpuCommandMagicNumber := 7,
        magic := fun h => h.getD 0 0, length := fun h => h.getD 1 0, NDEBUG := false }
      [7, 90, 0, 0] h (by rw [hv.2.2.1, hv.2.2.2]) rfl rfl rfl (by simp [hv.1])
      (by simp [hv.2.1])⟩

theorem putParams_zero_slots {host : SessionHost} {pi : ParamListInfoData}
    {st st' : ParamLoopState} {ps : List Param}
    (h : putParams host pi 0 st ps = .ok st') : ps = [] := by
  cases ps with
  | nil => rfl
  | cons p rest =>
    exfalso
    unfold putParams at h
    cases hpp : putParam host pi 0 st p with
    | error e => rw [hpp] at h; exact absurd h (by simp)
    | ok st1 =>
      obtain ⟨_, _, _, hge, hlt, _⟩ := putParam_ok hpp
      simp only [Nat.cast_zero] at hlt
      omega

theorem zero_param_session_layout {host : SessionHost} {econtext : ExprContext}
    {used_params : List Param} {kcxt_extra_bufsz kcxt_kvars_nslots : Nat}
    {xpucode_scan_quals xpucode_scan_projs : Option (List Byte)} {cmd : SessionCommand}
    (h0 : nparamsOf econtext = 0)
    (h : pgstromBuildSessionInfo host econtext used_params kcxt_extra_bufsz kcxt_kvars_nslots
          xpucode_scan_quals xpucode_scan_projs = .ok cmd) :
    cmd.session_sz = host.sessionHeaderSize ∧ cmd.session.nparams = 0 ∧
    cmd.session.poffset = [] ∧
    (econtext.ecxt_param_list_info = none ∨ used_params = []) ∧
    usedParamBlobs host econtext used_params = [] ∧
    cmd.payload.drop host.sessionHeaderSize =
      (xpucode_scan_quals.toList ++ xpucode_scan_projs.toList ++ xactBlobs host ++
        host.session_timezone.toList ++ [host.xpu_encode_info]).flatten := by
  obtain ⟨hsz, ⟨hd, hhd, hpay, _⟩, _⟩ := session_layout h
  obtain ⟨o0, buf0, quals, buf1, projs, buf2, st, xo, buf3, tz, buf4, en, buf5, session,
    h0', h1, h2, hst, h3, h4, h5, hsession, hcmd⟩ := pgstromBuildSessionInfo_ok h
  have hses : cmd.session = session := by rw [hcmd]
  rw [h0] at hsz hst
  have hcase : econtext.ecxt_param_list_info = none ∨ used_params = [] := by
    cases hpi : econtext.ecxt_param_list_info with
    | none => exact Or.inl rfl
    | some pi =>
      rw [hpi] at hst
      exact Or.inr (putParams_zero_slots hst)
  have hblobs : usedParamBlobs host econtext used_params = [] := by
    unfold usedParamBlobs
    rcases hcase with hn | hn
    · rw [hn]
    · rw [hn]
      split <;> rfl
  have hpo : st.poffset = [] := by
    cases hpi : econtext.ecxt_param_list_info with
    | none =>
      rw [hpi] at hst
      simp at hst
      rw [← hst]
    | some pi =>
      rw [hpi] at hst
      simp only at hst
      have := putParams_length host pi 0 used_params _ st hst
      simpa using this
  have hsz' : cmd.session_sz = host.sessionHeaderSize := by simpa using hsz
  refine ⟨hsz', by rw [hses, hsession]; exact h0, by rw [hses, hsession]; exact hpo, hcase,
    hblobs, ?_⟩
  rw [hpay, ← hsz', ← hhd, List.drop_left' rfl]
  simp [sessionBlobs, hblobs]

/-- C13 (zero-parameter session), the code at a failing input: `param_info` is a list of
zero parameters (`nparams = 0`) and `used_params` holds one evaluated executor parameter.
The `foreach` loop runs, the value's four bytes are the blob it appends, and the
`Assert` of line 190 fails on `paramid = 0`, `nparams = 0`; without assertions the slot
`poffset[0]` written at line 191 lies outside the header, which has no slot.  With an
empty `used_params` the same context gives a session without slot and without parameter
blob, as every call that succeeds with `nparams = 0` does. -/
theorem zero_param_session_appends_exec_param :
    nparamsOf noExternContext = 0 ∧
    resolveParam demoHost ⟨none, 0, []⟩ noExternContext ⟨.PARAM_EXEC, 0, 23⟩
      = .ok (noExternContext, false, 5) ∧
    paramBytes demoHost 23 5 = .ok [5, 0, 0, 0] ∧
    __appendBinaryStringInfo (List.replicate 36 0) [5, 0, 0, 0]
      = .ok (36, List.replicate 36 0 ++ [5, 0, 0, 0]) ∧
    usedParamBlobs demoHost noExternContext [⟨.PARAM_EXEC, 0, 23⟩] = [[5, 0, 0, 0]] ∧
    pgstromBuildSessionInfo demoHost noExternContext [⟨.PARAM_EXEC, 0, 23⟩] 0 0 none none
      = .error .trap ∧
    pgstromBuildSessionInfo { demoHost with USE_ASSERT_CHECKING := false } noExternContext
      [⟨.PARAM_EXEC, 0, 23⟩] 0 0 none none = .error .undefined ∧
    (pgstromBuildSessionInfo demoHost noExternContext [] 0 0 none none).toOption.map
      (fun cmd => (cmd.session_sz, cmd.session.poffset, cmd.payload.length))
      = some (36, [], 50) := by
  refine ⟨rfl, rfl, rfl, rfl, by decide, rfl, rfl, by decide⟩

/-- C19 (poffset index safety), the code at two failing inputs.  First, a statement with
one external parameter: `$1` has `paramid = 1 = numParams`, its value is read from
`params[0]`, and the slot to write is `poffset[1]` while the header has `nparams = 1`
slot: the `Assert` of line 190 fails, and without assertions the write of line 191 lands
behind the header.  Second, an executor parameter with the valid index 1 into
`ecxt_param_exec_vals`: the same.  With two external parameters, `$1` goes to
`poffset[1]` and `poffset[0]` is never used. -/
theorem poffset_slot_outside_header :
    nparamsOf oneParamContext = 1 ∧
    resolveParam demoHost ⟨none, 1, [⟨258, false, 23⟩]⟩ oneParamContext ⟨.PARAM_EXTERN, 1, 23⟩
      = .ok (oneParamContext, false, 258) ∧
    pgstromBuildSessionInfo demoHost oneParamContext [⟨.PARAM_EXTERN, 1, 23⟩] 0 0 none none
      = .error .trap ∧
    pgstromBuildSessionInfo { demoHost with USE_ASSERT_CHECKING := false } oneParamContext
      [⟨.PARAM_EXTERN, 1, 23⟩] 0 0 none none = .error .undefined ∧
    usedParamBlobs demoHost oneParamContext [⟨.PARAM_EXTERN, 1, 23⟩] = [[2, 1, 0, 0]] ∧
    pgstromBuildSessionInfo demoHost execParamContext [⟨.PARAM_EXEC, 1, 23⟩] 0 0 none none
      = .error .trap ∧
    pgstromBuildSessionInfo { demoHost with USE_ASSERT_CHECKING := false } execParamContext
      [⟨.PARAM_EXEC, 1, 23⟩] 0 0 none none = .error .undefined ∧
    (pgstromBuildSessionInfo demoHost
        { ecxt_param_list_info := some
            { paramFetch := none, numParams := 2,
              params := [⟨258, false, 23⟩, ⟨7, false, 23⟩] }
          ecxt_param_exec_vals := [] }
        [⟨.PARAM_EXTERN, 1, 23⟩] 0 0 none none).toOption.map
      (fun cmd => cmd.session.poffset) = some [0, 44] := by
  refine ⟨rfl, rfl, rfl, rfl, by decide, rfl, rfl, by decide⟩

theorem drainLoop_no_chunk {H : Type} (cfg : SchedConfig) (cbs : TaskCallbacks H)
    (fuel : Nat) :
    ∀ (pts : pgstromTaskState H) (conn : XpuConnection) (env : SchedEnv)
      (tr : List SchedEvent) (e : SchedEvent),
      e ∈ (drainLoop cfg cbs fuel pts conn env tr).trace →
      e ∈ tr ∨ (∃ sd res, e = .cb_final sd res) ∨ (∃ sd x, e = .send .final_chunk sd x) ∨
        e = .wait := by
  induction fuel with
  | zero => intro pts conn env tr e he; exact Or.inl he
  | succ n ih =>
    intro pts conn env tr e he
    unfold drainLoop at he
    split at he
    · simp only at he
      split at he
      · split at he
        · simp only [List.mem_append, List.mem_singleton] at he
          rcases he with he | he
          · exact Or.inl he
          · exact Or.inr (Or.inr (Or.inr he))
        · rcases ih _ _ _ _ e he with h | h
          · simp only [List.mem_append, List.mem_singleton] at h
            rcases h with h | h
            · exact Or.inl h
            · exact Or.inr (Or.inr (Or.inr h))
          · exact Or.inr h
      · split at he
        · exact Or.inl he
        · split at he
          · exact Or.inl he
          · split at he
            · simp only [List.mem_append, List.mem_singleton] at he
              rcases he with he | he
              · exact Or.inl he
              · exact Or.inr (Or.inl ⟨_, _, he⟩)
            · have hnew : ∀ (a : Bool) (b : Option XpuCmdRef) (c : Bool) (d : XpuCmdRef)
                  (e' : SchedEvent),
                  e' ∈ (tr ++ [SchedEvent.cb_final a b, SchedEvent.send .final_chunk c d]
                    ++ [SchedEvent.wait]) →
                  e' ∈ tr ∨ (∃ sd res, e' = .cb_final sd res) ∨
                    (∃ sd x, e' = .send .final_chunk sd x) ∨ e' = .wait := by
                intro a b c d e' h'
                simp only [List.mem_append, List.mem_cons, List.mem_singleton,
                  List.not_mem_nil, or_false] at h'
                rcases h' with (h' | h' | h') | h'
                · exact Or.inl h'
                · exact Or.inr (Or.inl ⟨_, _, h'⟩)
                · exact Or.inr (Or.inr (Or.inl ⟨_, _, h'⟩))
                · exact Or.inr (Or.inr (Or.inr h'))
              split at he
              · exact hnew _ _ _ _ e he
              · rcases ih _ _ _ _ e he with h | h
                · exact hnew _ _ _ _ e h
                · exact Or.inr h
    · rw [pickup_trace] at he
      exact Or.inl he

theorem selectAction_submit_iff (cfg : SchedConfig) (conn : XpuConnection) :
    selectAction cfg conn = .submit ↔
      (conn.num_running_cmds + conn.num_ready_cmds < cfg.pgstrom_max_async_tasks ∧
        (conn.ready_cmds_list = [] ∨
          conn.num_running_cmds < Int.tdiv cfg.pgstrom_max_async_tasks 2)) := by
  unfold selectAction
  split
  · simp_all
  · rename_i h
    constructor
    · intro hs
      split at hs
      · exact absurd hs (by simp)
      · split at hs <;> exact absurd hs (by simp)
    · intro hc
      exact absurd hc h

theorem selectAction_pickup_iff (cfg : SchedConfig) (conn : XpuConnection) :
    selectAction cfg conn = .pickup ↔
      (¬ (conn.num_running_cmds + conn.num_ready_cmds < cfg.pgstrom_max_async_tasks ∧
        (conn.ready_cmds_list = [] ∨
          conn.num_running_cmds < Int.tdiv cfg.pgstrom_max_async_tasks 2)) ∧
       conn.ready_cmds_list ≠ []) := by
  unfold selectAction
  split
  · rename_i h
    constructor
    · intro hs; exact absurd hs (by simp)
    · intro hc; exact absurd h hc.1
  · rename_i h
    split
    · rename_i hr
      exact ⟨fun _ => ⟨h, hr⟩, fun _ => rfl⟩
    · rename_i hr
      constructor
      · intro hs
        split at hs <;> exact absurd hs (by simp)
      · intro hc; exact absurd hc.2 hr

theorem selectAction_wait_iff (cfg : SchedConfig) (conn : XpuConnection) :
    selectAction cfg conn = .wait ↔
      (¬ (conn.num_running_cmds + conn.num_ready_cmds < cfg.pgstrom_max_async_tasks ∧
        (conn.ready_cmds_list = [] ∨
          conn.num_running_cmds < Int.tdiv cfg.pgstrom_max_async_tasks 2)) ∧
       conn.ready_cmds_list = [] ∧ conn.num_running_cmds > 0) := by
  unfold selectAction
  split
  · rename_i h
    constructor
    · intro hs; exact absurd hs (by simp)
    · intro hc; exact absurd h hc.1
  · rename_i h
    split
    · rename_i hr
      constructor
      · intro hs; exact absurd hs (by simp)
      · intro hc; exact absurd hc.2.1 hr
    · rename_i hr
      have hr' : conn.ready_cmds_list = [] := by
        by_contra hcon; exact hr hcon
      split
      · rename_i hp
        exact ⟨fun _ => ⟨h, hr', hp⟩, fun _ => rfl⟩
      · rename_i hp
        constructor
        · intro hs; exact absurd hs (by simp)
        · intro hc; exact absurd hc.2.2 hp

/-- C14 (action selection).  One pass through the main loop of `__fetchNextXpuCommand`
with `scan_done` false and an empty error slot, `conn1` being the connection as seen under
the mutex: the host is asked for the next chunk if and only if
`num_running_cmds + num_ready_cmds < M` and (`ready_cmds_list` is empty or
`num_running_cmds < M / 2`, the division truncating); otherwise a ready command is picked
up if and only if `ready_cmds_list` is not empty; otherwise the scheduler waits on the
latch if and only if `num_running_cmds > 0`.  When `cb_next_chunk` returns a command, it is
sent and the loop goes on; when it returns none, `scan_done` is set, nothing is handed to
`xpuClientSendCommand` for it, and the run continues in the draining loop, which sends no
chunk either. -/
theorem fetch_action_selection {H : Type} (cfg : SchedConfig) (cbs : TaskCallbacks H)
    (fuel : Nat) (pts : pgstromTaskState H) (conn : XpuConnection) (env : SchedEnv)
    (tr : List SchedEvent) (conn1 : XpuConnection) (env1 : SchedEnv)
    (hl : pthreadMutexLock cfg env conn = (conn1, env1))
    (hsd : pts.scan_done = false) (herr : conn1.errcode = cfg.ERRCODE_STROM_SUCCESS) :
    (selectAction cfg conn1 = .submit ↔
      (conn1.num_running_cmds + conn1.num_ready_cmds < cfg.pgstrom_max_async_tasks ∧
        (conn1.ready_cmds_list = [] ∨
          conn1.num_running_cmds < Int.tdiv cfg.pgstrom_max_async_tasks 2))) ∧
    (selectAction cfg conn1 = .pickup ↔
      (¬ (conn1.num_running_cmds + conn1.num_ready_cmds < cfg.pgstrom_max_async_tasks ∧
        (conn1.ready_cmds_list = [] ∨
          conn1.num_running_cmds < Int.tdiv cfg.pgstrom_max_async_tasks 2)) ∧
       conn1.ready_cmds_list ≠ [])) ∧
    (selectAction cfg conn1 = .wait ↔
      (¬ (conn1.num_running_cmds + conn1.num_ready_cmds < cfg.pgstrom_max_async_tasks ∧
        (conn1.ready_cmds_list = [] ∨
          conn1.num_running_cmds < Int.tdiv cfg.pgstrom_max_async_tasks 2)) ∧
       conn1.ready_cmds_list = [] ∧ conn1.num_running_cmds > 0)) ∧
    (selectAction cfg conn1 = .submit → ∀ xcmd pts1,
      cbs.cb_next_chunk pts = (some xcmd, pts1) →
      fetchLoop cfg cbs (fuel + 1) pts conn env tr
        = fetchLoop cfg cbs fuel pts1 (xpuClientSendCommand conn1 xcmd) env1
            (tr ++ [.cb_next false (some xcmd), .send .next_chunk pts1.scan_done xcmd])) ∧
    (selectAction cfg conn1 = .submit → ∀ pts1,
      cbs.cb_next_chunk pts = (none, pts1) →
      fetchLoop cfg cbs (fuel + 1) pts conn env tr
        = drainLoop cfg cbs fuel { pts1 with scan_done := true }
            (pthreadMutexLock cfg env1 conn1).1 (pthreadMutexLock cfg env1 conn1).2
            (tr ++ [.cb_next false none]) ∧
      ∀ sd x, SchedEvent.send .next_chunk sd x
          ∈ (fetchLoop cfg cbs (fuel + 1) pts conn env tr).trace →
        SchedEvent.send .next_chunk sd x ∈ tr) ∧
    (selectAction cfg conn1 = .pickup →
      fetchLoop cfg cbs (fuel + 1) pts conn env tr = pickup_ready_command cfg pts conn1 env1 tr) ∧
    (selectAction cfg conn1 = .wait →
      fetchLoop cfg cbs (fuel + 1) pts conn env tr
        = if (WaitLatch env1).1 = true
          then ⟨some .fatal, pts, conn1, (WaitLatch env1).2, tr ++ [.wait]⟩
          else fetchLoop cfg cbs fuel pts conn1 (WaitLatch env1).2 (tr ++ [.wait])) := by
  refine ⟨selectAction_submit_iff cfg conn1, selectAction_pickup_iff cfg conn1,
    selectAction_wait_iff cfg conn1, ?_, ?_, ?_, ?_⟩
  · intro hsel xcmd pts1 hcb
    rw [fetchLoop]
    simp only [hl, hsd, herr, hsel, hcb, Bool.false_eq_true, if_false, ne_eq,
      not_true_eq_false]
  · intro hsel pts1 hcb
    have heq : fetchLoop cfg cbs (fuel + 1) pts conn env tr
        = drainLoop cfg cbs fuel { pts1 with scan_done := true }
            (pthreadMutexLock cfg env1 conn1).1 (pthreadMutexLock cfg env1 conn1).2
            (tr ++ [.cb_next false none]) := by
      rw [fetchLoop]
      simp only [hl, hsd, herr, hsel, hcb, Bool.false_eq_true, if_false, ne_eq,
        not_true_eq_false]
    refine ⟨heq, ?_⟩
    intro sd x hmem
    rw [heq] at hmem
    rcases drainLoop_no_chunk cfg cbs fuel _ _ _ _ _ hmem with h | ⟨_, _, h⟩ | ⟨_, _, h⟩ | h
    · simp only [List.mem_append, List.mem_singleton] at h
      rcases h with h | h
      · exact h
      · exact absurd h (by simp)
    · exact absurd h (by simp)
    · exact absurd h (by simp)
    · exact absurd h (by simp)
  · intro hsel
    rw [fetchLoop]
    simp only [hl, hsd, herr, hsel, Bool.false_eq_true, if_false, ne_eq, not_true_eq_false]
  · intro hsel
    rw [fetchLoop]
    simp only [hl, hsd, herr, hsel, Bool.false_eq_true, if_false, ne_eq, not_true_eq_false]

theorem fetch_action_selection_witness :
    (selectAction schedCfg idleConn = .submit ↔
      (idleConn.num_running_cmds + idleConn.num_ready_cmds < schedCfg.pgstrom_max_async_tasks ∧
        (idleConn.ready_cmds_list = [] ∨
          idleConn.num_running_cmds < Int.tdiv schedCfg.pgstrom_max_async_tasks 2))) ∧
    fetchLoop schedCfg flushCallbacks 4 ⟨false, false, none, 0, ()⟩ idleConn ⟨[], []⟩ []
      = drainLoop schedCfg flushCallbacks 3 ⟨true, false, none, 0, ()⟩ idleConn ⟨[], []⟩
          [.cb_next false none] :=
  have h := fetch_action_selection schedCfg flushCallbacks 3 ⟨false, false, none, 0, ()⟩
    idleConn ⟨[], []⟩ [] idleConn ⟨[], []⟩ rfl rfl rfl
  ⟨h.1, (h.2.2.2.2.1 (by decide) ⟨false, false, none, 0, ()⟩ rfl).1⟩

theorem popReadyCommand_some {cfg : SchedConfig} {conn conn1 : XpuConnection} {xcmd : XpuCmdRef}
    (h : popReadyCommand cfg conn = some (xcmd, conn1)) :
    conn.ready_cmds_list = xcmd :: conn1.ready_cmds_list ∧
    conn1.active_cmds_list = conn.active_cmds_list ++ [xcmd] ∧
    conn1.num_ready_cmds = conn.num_ready_cmds - 1 ∧
    conn1.num_running_cmds = conn.num_running_cmds ∧
    conn1.errcode = conn.errcode := by
  unfold popReadyCommand at h
  split at h
  · exact absurd h (by simp)
  · split at h
    · exact absurd h (by simp)
    · rename_i x rest hr
      simp only [Option.some.injEq, Prod.mk.injEq] at h
      obtain ⟨hx, hc⟩ := h
      subst hx
      subst hc
      exact ⟨hr, rfl, rfl, rfl, rfl⟩

theorem popReadyCommand_total (cfg : SchedConfig) (conn : XpuConnection)
    (hne : conn.ready_cmds_list ≠ [])
    (hinv : conn.num_ready_cmds = conn.ready_cmds_list.length) :
    conn.num_ready_cmds > 0 ∧ ∃ xcmd conn1, popReadyCommand cfg conn = some (xcmd, conn1) := by
  have hpos : conn.num_ready_cmds > 0 := by
    rw [hinv]
    have := List.length_pos.mpr hne
    omega
  refine ⟨hpos, ?_⟩
  unfold popReadyCommand
  rw [if_neg (by intro h; exact h.2 hpos)]
  cases hr : conn.ready_cmds_list with
  | nil => exact absurd hr hne
  | cons x rest => exact ⟨x, _, rfl⟩

theorem pickup_ret {H : Type} {cfg : SchedConfig} {pts : pgstromTaskState H}
    {conn : XpuConnection} {env : SchedEnv} {tr : List SchedEvent} {xcmd : XpuCmdRef}
    (h : (pickup_ready_command cfg pts conn env tr).res = some (.ret (some xcmd))) :
    popReadyCommand cfg conn = some (xcmd, (pickup_ready_command cfg pts conn env tr).conn) := by
  unfold pickup_ready_command at h ⊢
  split
  · rename_i hp
    rw [hp] at h
    simp at h
  · rename_i x c1 hp
    rw [hp] at h
    simp only [Option.some.injEq, FetchResult.ret.injEq] at h
    rw [hp, h]

theorem drainLoop_ret {H : Type} (cfg : SchedConfig) (cbs : TaskCallbacks H) (fuel : Nat) :
    ∀ (pts : pgstromTaskState H) (conn : XpuConnection) (env : SchedEnv)
      (tr : List SchedEvent) (xcmd : XpuCmdRef),
      (drainLoop cfg cbs fuel pts conn env tr).res = some (.ret (some xcmd)) →
      ∃ conn0, Relation.ReflTransGen (SchedStep cfg) ⟨conn, false⟩ ⟨conn0, false⟩ ∧
        popReadyCommand cfg conn0 = some (xcmd, (drainLoop cfg cbs fuel pts conn env tr).conn) := by
  induction fuel with
  | zero =>
    intro pts conn env tr xcmd h
    simp [drainLoop] at h
  | succ n ih =>
    intro pts conn env tr xcmd h
    unfold drainLoop at h ⊢
    split at h
    · rename_i hempty
      rw [if_pos hempty]
      simp only at h ⊢
      split at h
      · rename_i hrun
        rw [if_pos hrun]
        split at h
        · simp at h
        · rename_i hw
          rw [if_neg hw]
          obtain ⟨c0, hreach, hpop⟩ := ih _ _ _ _ xcmd h
          exact ⟨c0, (lock_steps cfg _ conn false).trans hreach, hpop⟩
      · rename_i hrun
        rw [if_neg hrun]
        split at h
        · simp at h
        · rename_i cb hcb
          split at h
          · simp at h
          · rename_i hfd
            split at h
            · simp at h
            · rename_i x hx
              have hdec : SchedStep cfg ⟨conn, false⟩ ⟨conn, true⟩ :=
                SchedStep.decide_final ⟨conn, false⟩ rfl hempty hrun
              have hsend : SchedStep cfg ⟨conn, true⟩ ⟨xpuClientSendCommand conn x, false⟩ :=
                SchedStep.send ⟨conn, true⟩ x rfl
              have h2 : Relation.ReflTransGen (SchedStep cfg) ⟨conn, false⟩
                  ⟨xpuClientSendCommand conn x, false⟩ :=
                Relation.ReflTransGen.head hdec (Relation.ReflTransGen.single hsend)
              split at h
              · simp at h
              · rename_i hw
                simp only [hcb, hfd, hx, hw]
                obtain ⟨c0, hreach, hpop⟩ := ih _ _ _ _ xcmd h
                refine ⟨c0, h2.trans ((lock_steps cfg _ _ false).trans hreach), ?_⟩
                simpa using hpop
    · rename_i hne
      rw [if_neg hne]
      exact ⟨conn, Relation.ReflTransGen.refl, pickup_ret h⟩

theorem fetchLoop_ret {H : Type} (cfg : SchedConfig) (cbs : TaskCallbacks H) (fuel : Nat) :
    ∀ (pts : pgstromTaskState H) (conn : XpuConnection) (env : SchedEnv)
      (tr : List SchedEvent) (xcmd : XpuCmdRef),
      (fetchLoop cfg cbs fuel pts conn env tr).res = some (.ret (some xcmd)) →
      ∃ conn0, Relation.ReflTransGen (SchedStep cfg) ⟨conn, false⟩ ⟨conn0, false⟩ ∧
        popReadyCommand cfg conn0 = some (xcmd, (fetchLoop cfg cbs fuel pts conn env tr).conn) := by
  induction fuel with
  | zero =>
    intro pts conn env tr xcmd h
    simp [fetchLoop] at h
  | succ n ih =>
    intro pts conn env tr xcmd h
    have hl := lock_steps cfg env conn false
    unfold fetchLoop at h ⊢
    simp only at h ⊢
    split at h
    · rename_i hsd
      rw [if_pos hsd]
      obtain ⟨c0, hreach, hpop⟩ := drainLoop_ret cfg cbs n _ _ _ _ xcmd h
      exact ⟨c0, hl.trans hreach, hpop⟩
    · rename_i hsd
      rw [if_neg hsd]
      split at h
      · simp at h
      · rename_i herr
        rw [if_neg herr]
        split at h
        · rename_i hsel
          have hdec : SchedStep cfg ⟨(pthreadMutexLock cfg env conn).1, false⟩
              ⟨(pthreadMutexLock cfg env conn).1, true⟩ :=
            SchedStep.decide_submit ⟨_, false⟩ rfl hsel
          split at h
          · rename_i hcb
            obtain ⟨c0, hreach, hpop⟩ := drainLoop_ret cfg cbs n _ _ _ _ xcmd h
            exact ⟨c0, hl.trans (Relation.ReflTransGen.head hdec
              (Relation.ReflTransGen.head (SchedStep.nothing_to_send ⟨_, true⟩ rfl)
                ((lock_steps cfg _ _ false).trans hreach))), hpop⟩
          · rename_i x hcb
            obtain ⟨c0, hreach, hpop⟩ := ih _ _ _ _ xcmd h
            exact ⟨c0, hl.trans (Relation.ReflTransGen.head hdec
              (Relation.ReflTransGen.head (SchedStep.send ⟨_, true⟩ x rfl) hreach)), hpop⟩
        · rename_i hsel
          exact ⟨_, hl, pickup_ret h⟩
        · rename_i hsel
          split at h
          · simp at h
          · rename_i hw
            rw [if_neg hw]
            obtain ⟨c0, hreach, hpop⟩ := ih _ _ _ _ xcmd h
            exact ⟨c0, hl.trans hreach, hpop⟩
        · rename_i hsel
          obtain ⟨c0, hreach, hpop⟩ := ih _ _ _ _ xcmd h
          exact ⟨c0, hl.trans hreach, hpop⟩

/-- C15 (pick-up step).  Whenever `__fetchNextXpuCommand` returns a command `xcmd`, the
connection it leaves comes from a connection `conn0`, reached from the initial one through
scheduler and receiver actions, by the pick-up of lines 482-486: `xcmd` was the head of
`conn0`'s `ready_cmds_list` and the list is now its tail; `active_cmds_list` is the former
one with `xcmd` appended at the end; `num_ready_cmds` is one less; `num_running_cmds` and
the error slot are unchanged; and if `num_ready_cmds` was the length of `ready_cmds_list`,
it still is, and it was positive.  Under that invariant the pick-up of a non-empty list
passes its `Assert` and delivers a command. -/
theorem pickup_moves_head_to_active {H : Type} (cfg : SchedConfig) (cbs : TaskCallbacks H)
    (fuel : Nat) (pts : pgstromTaskState H) (conn : XpuConnection) (env : SchedEnv)
    (xcmd : XpuCmdRef)
    (hret : (__fetchNextXpuCommand cfg cbs fuel pts conn env).res = some (.ret (some xcmd))) :
    (∃ conn0, Relation.ReflTransGen (SchedStep cfg) ⟨conn, false⟩ ⟨conn0, false⟩ ∧
      conn0.ready_cmds_list
        = xcmd :: (__fetchNextXpuCommand cfg cbs fuel pts conn env).conn.ready_cmds_list ∧
      (__fetchNextXpuCommand cfg cbs fuel pts conn env).conn.active_cmds_list
        = conn0.active_cmds_list ++ [xcmd] ∧
      (__fetchNextXpuCommand cfg cbs fuel pts conn env).conn.num_ready_cmds
        = conn0.num_ready_cmds - 1 ∧
      (__fetchNextXpuCommand cfg cbs fuel pts conn env).conn.num_running_cmds
        = conn0.num_running_cmds ∧
      (__fetchNextXpuCommand cfg cbs fuel pts conn env).conn.errcode = conn0.errcode ∧
      (conn0.num_ready_cmds = conn0.ready_cmds_list.length →
        conn0.num_ready_cmds > 0 ∧
        (__fetchNextXpuCommand cfg cbs fuel pts conn env).conn.num_ready_cmds
          = (__fetchNextXpuCommand cfg cbs fuel pts conn env).conn.ready_cmds_list.length)) ∧
    (∀ c : XpuConnection, c.ready_cmds_list ≠ [] →
      c.num_ready_cmds = c.ready_cmds_list.length →
      c.num_ready_cmds > 0 ∧ ∃ x c1, popReadyCommand cfg c = some (x, c1)) := by
  refine ⟨?_, fun c hne hinv => popReadyCommand_total cfg c hne hinv⟩
  obtain ⟨conn0, hreach, hpop⟩ := fetchLoop_ret cfg cbs fuel pts conn env [] xcmd hret
  obtain ⟨h1, h2, h3, h4, h5⟩ := popReadyCommand_some hpop
  refine ⟨conn0, hreach, h1, h2, h3, h4, h5, ?_⟩
  intro hinv
  have hlen : conn0.ready_cmds_list.length
      = (fetchLoop cfg cbs fuel pts conn env []).conn.ready_cmds_list.length + 1 := by
    rw [h1]; simp
  have h3' : (fetchLoop cfg cbs fuel pts conn env []).conn.num_ready_cmds
      = conn0.num_ready_cmds - 1 := h3
  constructor
  · omega
  · show (fetchLoop cfg cbs fuel pts conn env []).conn.num_ready_cmds
      = ((fetchLoop cfg cbs fuel pts conn env []).conn.ready_cmds_list.length : Int)
    omega

theorem pickup_moves_head_to_active_witness :
    (∃ conn0, Relation.ReflTransGen (SchedStep schedCfg) ⟨⟨0, 4, 2, [5, 6], [1]⟩, false⟩
        ⟨conn0, false⟩ ∧
      conn0.ready_cmds_list = 5 :: (__fetchNextXpuCommand schedCfg flushCallbacks 1
        ⟨false, false, none, 0, ()⟩ ⟨0, 4, 2, [5, 6], [1]⟩ ⟨[], []⟩).conn.ready_cmds_list ∧
      (__fetchNextXpuCommand schedCfg flushCallbacks 1
        ⟨false, false, none, 0, ()⟩ ⟨0, 4, 2, [5, 6], [1]⟩ ⟨[], []⟩).conn.active_cmds_list
        = conn0.active_cmds_list ++ [5]) ∧
    (__fetchNextXpuCommand schedCfg flushCallbacks 1
        ⟨false, false, none, 0, ()⟩ ⟨0, 4, 2, [5, 6], [1]⟩ ⟨[], []⟩).conn
      = ⟨0, 4, 1, [6], [1, 5]⟩ := by
  obtain ⟨⟨conn0, hreach, h1, h2, _⟩, _⟩ :=
    pickup_moves_head_to_active schedCfg flushCallbacks 1 ⟨false, false, none, 0, ()⟩
      ⟨0, 4, 2, [5, 6], [1]⟩ ⟨[], []⟩ 5 (by decide)
  exact ⟨⟨conn0, hreach, h1, h2⟩, by decide⟩

/-- C16 (single terminal command), the code at a failing input: the scan is done, nothing
is running or ready, and `cb_final_chunk` returns a command (42) and leaves the task state
as it is.  The first call of `__fetchNextXpuCommand` invokes `cb_final_chunk`, sends the
terminal command and returns its response; `final_done` is still false afterwards, as no
line of `exec.c` sets it.  The next call, from the state the first one left, invokes
`cb_final_chunk` again and sends a second terminal command. -/
theorem terminal_command_sent_twice :
    (__fetchNextXpuCommand schedCfg flushCallbacks 4 (doneTask none) idleConn
        ⟨[[], [.ready 42]], []⟩).res = some (.ret (some 42)) ∧
    (__fetchNextXpuCommand schedCfg flushCallbacks 4 (doneTask none) idleConn
        ⟨[[], [.ready 42]], []⟩).trace
      = [.cb_final true (some 42), .send .final_chunk true 42, .wait] ∧
    (__fetchNextXpuCommand schedCfg flushCallbacks 4 (doneTask none) idleConn
        ⟨[[], [.ready 42]], []⟩).pts.final_done = false ∧
    (__fetchNextXpuCommand schedCfg flushCallbacks 4
        (__fetchNextXpuCommand schedCfg flushCallbacks 4 (doneTask none) idleConn
          ⟨[[], [.ready 42]], []⟩).pts
        (__fetchNextXpuCommand schedCfg flushCallbacks 4 (doneTask none) idleConn
          ⟨[[], [.ready 42]], []⟩).conn
        ⟨[[], [.ready 42]], []⟩).trace
      = [.cb_final true (some 42), .send .final_chunk true 42, .wait] ∧
    (__fetchNextXpuCommand schedCfg flushCallbacks 4
        (__fetchNextXpuCommand schedCfg flushCallbacks 4 (doneTask none) idleConn
          ⟨[[], [.ready 42]], []⟩).pts
        (__fetchNextXpuCommand schedCfg flushCallbacks 4 (doneTask none) idleConn
          ⟨[[], [.ready 42]], []⟩).conn
        ⟨[[], [.ready 42]], []⟩).res = some (.ret (some 42)) := by
  decide

/-- C17 (the sleep branch).  With `pgstrom_max_async_tasks ≥ 1`, `num_ready_cmds` equal to
the length of `ready_cmds_list` and `num_running_cmds ≥ 0`, the `if / else if` chain of the
main loop never ends in its last `else` (`pg_usleep`): it selects submit, pick-up or
wait. -/
theorem sleep_branch_unreachable (cfg : SchedConfig) (conn : XpuConnection)
    (hM : 1 ≤ cfg.pgstrom_max_async_tasks)
    (hready : conn.num_ready_cmds = conn.ready_cmds_list.length)
    (hrun : 0 ≤ conn.num_running_cmds) :
    selectAction cfg conn ≠ .sleep ∧
    (selectAction cfg conn = .submit ∨ selectAction cfg conn = .pickup ∨
      selectAction cfg conn = .wait) := by
  have key : selectAction cfg conn ≠ .sleep := by
    intro hs
    unfold selectAction at hs
    split at hs
    · exact absurd hs (by simp)
    · rename_i hc
      split at hs
      · exact absurd hs (by simp)
      · rename_i hr
        split at hs
        · exact absurd hs (by simp)
        · rename_i hp
          have hr' : conn.ready_cmds_list = [] := by
            by_contra hcon; exact hr hcon
          apply hc
          refine ⟨?_, Or.inl hr'⟩
          rw [hready, hr']
          simp only [List.length_nil, Int.ofNat_zero]
          omega
  refine ⟨key, ?_⟩
  cases h : selectAction cfg conn with
  | submit => exact Or.inl rfl
  | pickup => exact Or.inr (Or.inl rfl)
  | wait => exact Or.inr (Or.inr rfl)
  | sleep => exact absurd h key

theorem sleep_branch_unreachable_witness :
    selectAction schedCfg ⟨0, 4, 0, [], []⟩ ≠ .sleep ∧
    (selectAction schedCfg ⟨0, 4, 0, [], []⟩ = .submit ∨
      selectAction schedCfg ⟨0, 4, 0, [], []⟩ = .pickup ∨
      selectAction schedCfg ⟨0, 4, 0, [], []⟩ = .wait) :=
  sleep_branch_unreachable schedCfg ⟨0, 4, 0, [], []⟩ (by decide) (by decide) (by decide)

theorem u32ofLe_u32le (x : Nat) : u32ofLe (u32le x) = x % 2 ^ 32 := by
  simp only [u32ofLe, u32le, List.getD_cons_zero, List.getD_cons_succ]
  omega

theorem length_flatten_u32le (l : List Nat) : ((l.map u32le).flatten).length = 4 * l.length := by
  induction l with
  | nil => rfl
  | cons a t ih =>
    simp only [List.map_cons, List.flatten_cons, List.length_append, List.length_cons, ih]
    simp [u32le]
    omega

theorem bytesAt_flatten_u32le (l : List Nat) :
    ∀ i, i < l.length → bytesAt ((l.map u32le).flatten) (4 * i) 4 = u32le (l.getD i 0) := by
  induction l with
  | nil => intro i hi; simp at hi
  | cons a t ih =>
    intro i hi
    cases i with
    | zero => simp [bytesAt, u32le]
    | succ j =>
      have hj : j < t.length := by simpa using hi
      have := ih j hj
      simp only [List.map_cons, List.flatten_cons, List.getD_cons_succ]
      unfold bytesAt at this ⊢
      have h4 : 4 * (j + 1) = (u32le a).length + 4 * j := by simp [u32le]; omega
      rw [h4, List.drop_append]
      exact this

theorem xact_ok {host : SessionHost} {buf buf1 : List Byte} {off : Nat}
    (hn : 0 < host.nParallelCurrentXids)
    (h : __build_session_xact_id_vector host buf = .ok (off, buf1)) :
    off = buf.length ∧
    buf1 = buf ++ (u32le ((4 + 4 * host.nParallelCurrentXids.toNat) % 2 ^ 32 * 4 % 2 ^ 32) ++
      ((host.ParallelCurrentXids.take host.nParallelCurrentXids.toNat).map u32le).flatten) ∧
    buf.length + 4 + ((host.ParallelCurrentXids.take
      host.nParallelCurrentXids.toNat).map u32le).flatten.length < MaxAllocSize := by
  unfold __build_session_xact_id_vector at h
  rw [if_pos hn] at h
  simp only at h
  split at h
  · exact absurd h (by simp)
  · rename_i o b1 h1
    split at h
    · exact absurd h (by simp)
    · rename_i b2 h2
      simp at h
      obtain ⟨ho, hb⟩ := appendBinary'_ok h1
      have hb2 := appendBinary_ok h2
      refine ⟨by rw [← h.1, ho], by rw [← h.2, hb2, hb, List.append_assoc], ?_⟩
      unfold appendBinaryStringInfo at h2
      split at h2
      · exact absurd h2 (by simp)
      · rename_i hlt
        rw [hb] at hlt
        simp only [List.length_append] at hlt
        have h4 : (u32le ((4 + 4 * host.nParallelCurrentXids.toNat) % 2 ^ 32 * 4 % 2 ^ 32)).length
            = 4 := by simp [u32le]
        omega

theorem session_xact_offset {host : SessionHost} {econtext : ExprContext}
    {used_params : List Param} {kcxt_extra_bufsz kcxt_kvars_nslots : Nat}
    {xpucode_scan_quals xpucode_scan_projs : Option (List Byte)} {cmd : SessionCommand}
    (h : pgstromBuildSessionInfo host econtext used_params kcxt_extra_bufsz kcxt_kvars_nslots
          xpucode_scan_quals xpucode_scan_projs = .ok cmd) :
    (0 < host.nParallelCurrentXids → cmd.session_sz ≤ cmd.session.xact_id_array ∧
      (0 < host.sessionHeaderSize → cmd.session.xact_id_array ≠ 0)) ∧
    (host.nParallelCurrentXids ≤ 0 → cmd.session.xact_id_array = 0) := by
  obtain ⟨hsz, _, _⟩ := session_layout h
  obtain ⟨o0, buf0, quals, buf1, projs, buf2, st, xo, buf3, tz, buf4, en, buf5, session,
    h0, h1, h2, hst, h3, h4, h5, rfl, rfl⟩ := pgstromBuildSessionInfo_ok h
  simp only at hsz ⊢
  constructor
  · intro hn
    have hl0 : buf0 = List.replicate (host.sessionHeaderSize + 4 * nparamsOf econtext) 0
        ++ ([] : List (List Byte)).flatten := by
      rw [(appendZero_ok h0).2]; simp
    obtain ⟨hl1, _⟩ := putCode_layout h1 hl0
    obtain ⟨hl2, _⟩ := putCode_layout h2 hl1
    have hlen : host.sessionHeaderSize + 4 * nparamsOf econtext ≤ st.buf.length := by
      cases hpi : econtext.ecxt_param_list_info with
      | none =>
        rw [hpi] at hst
        simp at hst
        rw [← hst]
        simp only
        rw [hl2]; simp
      | some pi =>
        rw [hpi] at hst
        simp only at hst
        have := (putParams_layout host pi (nparamsOf econtext) _ used_params _ st _ hst hl2
          (fun o ho hne => absurd (List.eq_of_mem_replicate ho) hne)).1
        rw [this]; simp
    rw [(xact_ok hn h3).1]
    exact ⟨hlen, fun hh => by omega⟩
  · intro hn
    unfold __build_session_xact_id_vector at h3
    rw [if_neg (by omega)] at h3
    simp at h3
    exact h3.1.symm

/-- C18 (transaction-id vector).  The function `__build_session_xact_id_vector` returns 0 and
leaves the buffer as it is when `nParallelCurrentXids ≤ 0`.  When
`n = nParallelCurrentXids > 0` (and `ParallelCurrentXids` holds `n` ids) and the call
returns, the offset is the former end of the buffer, not zero for a buffer that is not
empty; from there the buffer holds a 4-byte varlena header whose `VARSIZE` is
`VARHDRSZ + 4 * n`, followed by the `n` ids in their order, 4 bytes each, and nothing else:
the blob takes as many bytes as its header declares.  In `pgstromBuildSessionInfo` the
vector is appended behind the session header, so `xact_id_array` is at least `session_sz`
(and not zero, the header having a positive size) when there are ids, and 0 when there is
none. -/
theorem xact_id_vector_encoding (host : SessionHost) (buf : List Byte) :
    (host.nParallelCurrentXids ≤ 0 → __build_session_xact_id_vector host buf = .ok (0, buf)) ∧
    (∀ off buf1, 0 < host.nParallelCurrentXids →
      host.nParallelCurrentXids.toNat ≤ host.ParallelCurrentXids.length →
      __build_session_xact_id_vector host buf = .ok (off, buf1) →
      off = buf.length ∧ (buf ≠ [] → off ≠ 0) ∧ buf <+: buf1 ∧
      buf1.length = off + (4 + 4 * host.nParallelCurrentXids.toNat) ∧
      VARSIZE (bytesAt buf1 off 4) = 4 + 4 * host.nParallelCurrentXids.toNat ∧
      (∀ i, i < host.nParallelCurrentXids.toNat →
        bytesAt buf1 (off + 4 + 4 * i) 4 = u32le (host.ParallelCurrentXids.getD i 0) ∧
        (host.ParallelCurrentXids.getD i 0 < 2 ^ 32 →
          u32ofLe (bytesAt buf1 (off + 4 + 4 * i) 4) = host.ParallelCurrentXids.getD i 0))) ∧
    (∀ (econtext : ExprContext) (used_params : List Param)
        (kcxt_extra_bufsz kcxt_kvars_nslots : Nat)
        (xpucode_scan_quals xpucode_scan_projs : Option (List Byte)) (cmd : SessionCommand),
      pgstromBuildSessionInfo host econtext used_params kcxt_extra_bufsz kcxt_kvars_nslots
        xpucode_scan_quals xpucode_scan_projs = .ok cmd →
      (0 < host.nParallelCurrentXids → cmd.session_sz ≤ cmd.session.xact_id_array ∧
        (0 < host.sessionHeaderSize → cmd.session.xact_id_array ≠ 0)) ∧
      (host.nParallelCurrentXids ≤ 0 → cmd.session.xact_id_array = 0)) := by
  refine ⟨?_, ?_, fun _ _ _ _ _ _ _ h => session_xact_offset h⟩
  · intro hn
    unfold __build_session_xact_id_vector
    rw [if_neg (by omega)]
  · intro off buf1 hn harr h
    obtain ⟨hoff, hbuf, hmax⟩ := xact_ok hn h
    generalize hN : host.nParallelCurrentXids.toNat = n at *
    have htake : (host.ParallelCurrentXids.take n).length = n := by
      simp only [List.length_take]; omega
    have hids : ((host.ParallelCurrentXids.take n).map u32le).flatten.length = 4 * n := by
      rw [length_flatten_u32le, htake]
    rw [hids] at hmax
    have hbound : 4 + 4 * n < 2 ^ 30 := by
      have : MaxAllocSize = 2 ^ 30 - 1 := by decide
      omega
    have hhdr : (u32le ((4 + 4 * n) % 2 ^ 32 * 4 % 2 ^ 32)).length = 4 := by simp [u32le]
    refine ⟨hoff, ?_, ?_, ?_, ?_, ?_⟩
    · intro hne
      rw [hoff]
      exact Nat.pos_iff_ne_zero.mp (List.length_pos.mpr hne)
    · rw [hbuf]; exact List.prefix_append _ _
    · rw [hbuf, hoff]
      simp only [List.length_append, hhdr, hids]
    · have hat : bytesAt buf1 off 4 = u32le ((4 + 4 * n) % 2 ^ 32 * 4 % 2 ^ 32) := by
        rw [hbuf, hoff]
        unfold bytesAt
        rw [List.drop_left', List.take_left' hhdr]
        rfl
      rw [hat]
      unfold VARSIZE
      have ht : (u32le ((4 + 4 * n) % 2 ^ 32 * 4 % 2 ^ 32)).take 4
          = u32le ((4 + 4 * n) % 2 ^ 32 * 4 % 2 ^ 32) := by
        simp [u32le]
      rw [ht, u32ofLe_u32le]
      omega
    · intro i hi
      have hat : bytesAt buf1 (off + 4 + 4 * i) 4
          = u32le (host.ParallelCurrentXids.getD i 0) := by
        rw [hbuf, hoff]
        have hsplit : buf ++ (u32le ((4 + 4 * n) % 2 ^ 32 * 4 % 2 ^ 32) ++
            ((host.ParallelCurrentXids.take n).map u32le).flatten)
            = (buf ++ u32le ((4 + 4 * n) % 2 ^ 32 * 4 % 2 ^ 32)) ++
              ((host.ParallelCurrentXids.take n).map u32le).flatten := by simp
        have hpos : buf.length + 4 + 4 * i
            = (buf ++ u32le ((4 + 4 * n) % 2 ^ 32 * 4 % 2 ^ 32)).length + 4 * i := by
          rw [List.length_append, hhdr]
        rw [hsplit, hpos]
        unfold bytesAt
        rw [List.drop_append]
        have := bytesAt_flatten_u32le (host.ParallelCurrentXids.take n) i (by rw [htake]; exact hi)
        unfold bytesAt at this
        rw [this]
        congr 1
        simp only [List.getD_eq_getElem?_getD, List.getElem?_take, hi, if_true]
      refine ⟨hat, ?_⟩
      intro hlt
      rw [hat, u32ofLe_u32le]
      exact Nat.mod_eq_of_lt hlt

theorem xact_id_vector_encoding_witness :
    ∃ off buf1, __build_session_xact_id_vector demoHost [0, 0] = .ok (off, buf1) ∧
      off = 2 ∧ buf1.length = 2 + (4 + 4 * 2) ∧
      VARSIZE (bytesAt buf1 off 4) = 4 + 4 * 2 ∧
      u32ofLe (bytesAt buf1 (off + 4 + 4 * 0) 4) = 5 ∧
      u32ofLe (bytesAt buf1 (off + 4 + 4 * 1) 4) = 6 := by
  have hr : __build_session_xact_id_vector demoHost [0, 0]
      = .ok (2, [0, 0, 48, 0, 0, 0, 5, 0, 0, 0, 6, 0, 0, 0]) := rfl
  obtain ⟨ho, _, _, hlen, hv, hids⟩ :=
    (xact_id_vector_encoding demoHost [0, 0]).2.1 2 _ (by decide) (by decide) hr
  exact ⟨2, _, hr, rfl, hlen, hv, (hids 0 (by decide)).2 (by decide),
    (hids 1 (by decide)).2 (by decide)⟩

theorem sockAfter_length (bs : List Byte) (req : Nat) (rest : List RecvOutcome) :
    (sockAfter bs req rest).length ≤ rest.length + 1 := by
  unfold sockAfter
  split <;> simp

theorem rxEndOfStream_halts (st : RxState) : ¬ RxRunning (rxEndOfStream st) := by
  unfold rxEndOfStream RxRunning
  split <;> simp

theorem rxStep_measure (cfg : XpuConfig) (alloc_f : Nat → Bool) (hpos : 0 < cfg.hdrsz)
    (st : RxState) (hlen : DeclaredLengthOK cfg st) (hrun : RxRunning st) :
    ¬ RxRunning (rxStep cfg alloc_f st) ∨ rxMeasure (rxStep cfg alloc_f st) < rxMeasure st := by
  obtain ⟨pc, buffer, buf, bufsz, fl, cnt, curr, na, sock, tr⟩ := st
  unfold DeclaredLengthOK at hlen
  simp only at hlen
  unfold rxStep
  cases pc with
  | ret v => exact absurd hrun (by simp [RxRunning])
  | abort => exact absurd hrun (by simp [RxRunning])
  | blocked => exact absurd hrun (by simp [RxRunning])
  | loop =>
    simp only [rxRecvStep]
    cases sock with
    | nil => exact Or.inl (by simp [RxRunning])
    | cons o rest =>
      cases o with
      | eintr => exact Or.inr (by simp [rxMeasure, sockBytes])
      | eagain =>
        simp only
        split
        · exact Or.inl (by simp [RxRunning])
        · exact Or.inr (by simp [rxMeasure, sockBytes])
      | error e => exact Or.inl (by simp [RxRunning])
      | eof => exact Or.inl (rxEndOfStream_halts _)
      | data bs =>
        simp only
        split
        · exact Or.inl (rxEndOfStream_halts _)
        · rename_i hgot
          have hg : 0 < (bs.take (bufsz - buf.length)).length := List.length_pos.mpr hgot
          have hsplit : bs.length
              = (bs.take (bufsz - buf.length)).length + (bs.drop (bufsz - buf.length)).length := by
            rw [← List.length_append, List.take_append_drop]
          have hsa := sockAfter_length bs (bufsz - buf.length) rest
          have hsb := sockBytes_sockAfter bs (bufsz - buf.length) rest
          unfold rxGotBytes
          cases curr with
          | none =>
            refine Or.inr ?_
            simp only [rxMeasure, hsb, sockBytes, List.length_append, List.length_cons, if_true]
            simp only [reduceCtorEq, if_false]
            omega
          | some id =>
            simp only
            split
            · split
              · exact Or.inl (by simp [RxRunning])
              · split
                · exact Or.inl (by simp [RxRunning])
                · refine Or.inr ?_
                  simp only [rxMeasure, rxRestart, hsb, sockBytes, List.length_append,
                    List.length_cons, List.length_nil, reduceCtorEq, if_false]
                  omega
            · refine Or.inr ?_
              simp only [rxMeasure, hsb, sockBytes, List.length_append, List.length_cons,
                reduceCtorEq, if_false]
              omega
  | next =>
    simp only [rxNextStep]
    split
    · refine Or.inr ?_
      split <;> simp [rxMeasure]
    · rename_i hhdr
      have hdecl := hlen rfl (by omega)
      split
      · split
        · exact Or.inl (by simp [RxRunning])
        · split
          · exact Or.inl (by simp [RxRunning])
          · split
            · refine Or.inr ?_
              simp only [rxMeasure, rxRestart, List.length_nil, reduceCtorEq, if_false, if_true]
              omega
            · refine Or.inr ?_
              simp only [rxMeasure, List.length_drop, if_true]
              omega
      · split
        · exact Or.inl (by simp [RxRunning])
        · refine Or.inr ?_
          simp [rxMeasure]

theorem rxRun_step_end (cfg : XpuConfig) (alloc_f : Nat → Bool) (n : Nat) (st : RxState) :
    rxRun cfg alloc_f (n + 1) st = rxStep cfg alloc_f (rxRun cfg alloc_f n st) := by
  rw [rxRun_add cfg alloc_f n 1 st]
  rfl

theorem endsIn_tail {o x : RecvOutcome} {rest : List RecvOutcome}
    (h : EndsIn o (x :: rest)) (hne : rest ≠ []) : EndsIn o rest := by
  obtain ⟨pre, hp⟩ := h
  cases pre with
  | nil =>
    simp at hp
    exact absurd hp.2 hne
  | cons y pre' =>
    simp at hp
    exact ⟨pre', hp.2⟩

theorem endsIn_cons {o : RecvOutcome} {rest : List RecvOutcome} (x : RecvOutcome)
    (h : EndsIn o rest) : EndsIn o (x :: rest) := by
  obtain ⟨pre, hp⟩ := h
  exact ⟨x :: pre, by rw [hp]; rfl⟩

theorem endsIn_sockAfter {o : RecvOutcome} {rest : List RecvOutcome} (bs : List Byte)
    (req : Nat) (h : EndsIn o rest) : EndsIn o (sockAfter bs req rest) := by
  unfold sockAfter
  split
  · exact h
  · exact endsIn_cons _ h

theorem endsIn_single {o x : RecvOutcome} (h : EndsIn o [x]) : x = o := by
  obtain ⟨pre, hp⟩ := h
  cases pre with
  | nil => simpa using hp
  | cons y pre' => simp at hp

theorem rxEndOfStream_not_blocked (st : RxState) : (rxEndOfStream st).pc ≠ .blocked := by
  unfold rxEndOfStream
  split <;> simp

theorem rxEndOfStream_sock (st : RxState) : (rxEndOfStream st).sock = st.sock := by
  unfold rxEndOfStream
  split <;> rfl

theorem rxStep_keeps_last (cfg : XpuConfig) (alloc_f : Nat → Bool) (o : RecvOutcome)
    (st : RxState) (hrun : RxRunning st) (hends : EndsIn o st.sock)
    (hlast : st.pc = .loop → st.sock = [o] →
      ¬ RxRunning (rxStep cfg alloc_f st) ∧ (rxStep cfg alloc_f st).pc ≠ .blocked) :
    (rxStep cfg alloc_f st).pc ≠ .blocked ∧
    (RxRunning (rxStep cfg alloc_f st) → EndsIn o (rxStep cfg alloc_f st).sock) := by
  obtain ⟨pc, buffer, buf, bufsz, fl, cnt, curr, na, sock, tr⟩ := st
  simp only at hends hlast
  cases pc with
  | ret v => exact absurd hrun (by simp [RxRunning])
  | abort => exact absurd hrun (by simp [RxRunning])
  | blocked => exact absurd hrun (by simp [RxRunning])
  | next =>
    unfold rxStep
    simp only [rxNextStep]
    split
    · split <;> exact ⟨by simp, fun _ => hends⟩
    · split
      · split
        · exact ⟨by simp, fun _ => hends⟩
        · split
          · exact ⟨by simp, fun _ => hends⟩
          · split
            · exact ⟨by simp [rxRestart], fun _ => hends⟩
            · exact ⟨by simp, fun _ => hends⟩
      · split
        · exact ⟨by simp, fun _ => hends⟩
        · exact ⟨by simp, fun _ => hends⟩
  | loop =>
    cases sock with
    | nil =>
      obtain ⟨pre, hp⟩ := hends
      exact absurd hp (by simp)
    | cons x rest =>
      by_cases hrest : rest = []
      · subst hrest
        have hx := endsIn_single hends
        subst hx
        have := hlast rfl rfl
        exact ⟨this.2, fun h => absurd h this.1⟩
      · have htail := endsIn_tail hends hrest
        unfold rxStep
        simp only [rxRecvStep]
        cases x with
        | eintr => exact ⟨by simp, fun _ => htail⟩
        | eagain =>
          simp only
          split
          · exact ⟨by simp, fun _ => htail⟩
          · exact ⟨by simp, fun _ => htail⟩
        | error e => exact ⟨by simp, fun _ => htail⟩
        | eof =>
          refine ⟨rxEndOfStream_not_blocked _, fun _ => ?_⟩
          rw [rxEndOfStream_sock]
          exact htail
        | data bs =>
          simp only
          have hsa := endsIn_sockAfter (o := o) bs (bufsz - buf.length) htail
          split
          · refine ⟨rxEndOfStream_not_blocked _, fun _ => ?_⟩
            rw [rxEndOfStream_sock]
            exact hsa
          · unfold rxGotBytes
            cases curr with
            | none => exact ⟨by simp, fun _ => hsa⟩
            | some id =>
              simp only
              split
              · split
                · exact ⟨by simp, fun _ => hsa⟩
                · split
                  · exact ⟨by simp, fun _ => hsa⟩
                  · exact ⟨by simp [rxRestart], fun _ => hsa⟩
              · exact ⟨by simp, fun _ => hsa⟩

theorem not_running_iff (st : RxState) : ¬ RxRunning st ↔ (st.pc ≠ .loop ∧ st.pc ≠ .next) := by
  unfold RxRunning
  constructor
  · intro h
    exact ⟨fun h1 => h (Or.inl h1), fun h2 => h (Or.inr h2)⟩
  · rintro ⟨h1, h2⟩ (h | h)
    · exact h1 h
    · exact h2 h

theorem rxRun_progress (cfg : XpuConfig) (alloc_f : Nat → Bool) (hpos : 0 < cfg.hdrsz)
    (o : RecvOutcome) (st0 : RxState) (h0 : st0.pc ≠ .blocked)
    (hends0 : RxRunning st0 → EndsIn o st0.sock) :
    ∀ n, (∀ k, k < n → DeclaredLengthOK cfg (rxRun cfg alloc_f k st0) ∧
        ((rxRun cfg alloc_f k st0).pc = .loop → (rxRun cfg alloc_f k st0).sock = [o] →
          ¬ RxRunning (rxStep cfg alloc_f (rxRun cfg alloc_f k st0)) ∧
          (rxStep cfg alloc_f (rxRun cfg alloc_f k st0)).pc ≠ .blocked)) →
      (rxRun cfg alloc_f n st0).pc ≠ .blocked ∧
      (RxRunning (rxRun cfg alloc_f n st0) →
        EndsIn o (rxRun cfg alloc_f n st0).sock ∧
        rxMeasure (rxRun cfg alloc_f n st0) + n ≤ rxMeasure st0) := by
  intro n
  induction n with
  | zero =>
    intro _
    exact ⟨h0, fun hr => ⟨hends0 hr, le_refl _⟩⟩
  | succ n ih =>
    intro hk
    obtain ⟨hnb, hrun⟩ := ih (fun k hlt => hk k (by omega))
    rw [rxRun_step_end]
    by_cases hr : RxRunning (rxRun cfg alloc_f n st0)
    · obtain ⟨hends, hm⟩ := hrun hr
      obtain ⟨hlen, hlast⟩ := hk n (by omega)
      obtain ⟨hnb', hends'⟩ := rxStep_keeps_last cfg alloc_f o _ hr hends hlast
      refine ⟨hnb', fun hr' => ⟨hends' hr', ?_⟩⟩
      rcases rxStep_measure cfg alloc_f hpos _ hlen hr with h | h
      · exact absurd hr' h
      · omega
    · have hst := rxStep_halted cfg alloc_f _ ((not_running_iff _).mp hr)
      rw [hst]
      exact ⟨hnb, fun hr' => absurd hr' hr⟩

theorem rxMeasure_init (cfg : XpuConfig) (sock : List RecvOutcome) :
    rxMeasure (rxInit cfg sock) + 1 = rxBound sock := by
  simp [rxMeasure, rxInit, rxRestart, rxBound]

theorem receive_halts (cfg : XpuConfig) (alloc_f : Nat → Bool) (hpos : 0 < cfg.hdrsz)
    (o : RecvOutcome) (sock : List RecvOutcome) (hends : EndsIn o sock)
    (hk : ∀ k, k < rxBound sock →
      DeclaredLengthOK cfg (rxRun cfg alloc_f k (rxInit cfg sock)) ∧
      ((rxRun cfg alloc_f k (rxInit cfg sock)).pc = .loop →
        (rxRun cfg alloc_f k (rxInit cfg sock)).sock = [o] →
        ¬ RxRunning (rxStep cfg alloc_f (rxRun cfg alloc_f k (rxInit cfg sock))) ∧
        (rxStep cfg alloc_f (rxRun cfg alloc_f k (rxInit cfg sock))).pc ≠ .blocked))
    (fuel : Nat) (hfuel : rxBound sock ≤ fuel) :
    ∃ r, pgstrom_receive_xpu_command cfg alloc_f fuel sock = some r := by
  have hinit : (rxInit cfg sock).pc ≠ .blocked := by simp [rxInit, rxRestart]
  have hends0 : RxRunning (rxInit cfg sock) → EndsIn o (rxInit cfg sock).sock := by
    intro _
    simpa [rxInit, rxRestart] using hends
  obtain ⟨hnb, hrun⟩ := rxRun_progress cfg alloc_f hpos o (rxInit cfg sock) hinit hends0
    (rxBound sock) hk
  have hhalt : ¬ RxRunning (rxRun cfg alloc_f (rxBound sock) (rxInit cfg sock)) := by
    intro hr
    have := (hrun hr).2
    have hb := rxMeasure_init cfg sock
    omega
  have hsame : rxRun cfg alloc_f fuel (rxInit cfg sock)
      = rxRun cfg alloc_f (rxBound sock) (rxInit cfg sock) := by
    have hf : fuel = rxBound sock + (fuel - rxBound sock) := by omega
    rw [hf, rxRun_add, rxRun_halted cfg alloc_f _ _ ((not_running_iff _).mp hhalt)]
  unfold pgstrom_receive_xpu_command
  rw [hsame]
  unfold rxResult
  unfold RxRunning at hhalt
  cases hpc : (rxRun cfg alloc_f (rxBound sock) (rxInit cfg sock)).pc with
  | loop => exact absurd (Or.inl hpc) hhalt
  | next => exact absurd (Or.inr hpc) hhalt
  | blocked => exact absurd hpc hnb
  | ret v => exact ⟨_, rfl⟩
  | abort => exact ⟨_, rfl⟩

theorem last_eof_ends (cfg : XpuConfig) (alloc_f : Nat → Bool) (st : RxState)
    (hpc : st.pc = .loop) (hs : st.sock = [.eof]) :
    ¬ RxRunning (rxStep cfg alloc_f st) ∧ (rxStep cfg alloc_f st).pc ≠ .blocked := by
  obtain ⟨pc, buffer, buf, bufsz, fl, cnt, curr, na, sock, tr⟩ := st
  simp only at hpc hs
  subst hpc; subst hs
  simp only [rxStep, rxRecvStep]
  exact ⟨rxEndOfStream_halts _, rxEndOfStream_not_blocked _⟩

theorem last_eagain_ends (cfg : XpuConfig) (alloc_f : Nat → Bool) (st : RxState)
    (hb : BoundaryAtLastEagain st) (hpc : st.pc = .loop) (hs : st.sock = [.eagain]) :
    ¬ RxRunning (rxStep cfg alloc_f st) ∧ (rxStep cfg alloc_f st).pc ≠ .blocked := by
  have hbd := hb hpc hs
  obtain ⟨pc, buffer, buf, bufsz, fl, cnt, curr, na, sock, tr⟩ := st
  simp only at hpc hs hbd
  subst hpc; subst hs
  obtain ⟨hc, hbuf⟩ := hbd
  subst hc; subst hbuf
  simp [rxStep, rxRecvStep, RxRunning]

theorem declared_of_streamInv {cfg : XpuConfig} {cmds : List (List Byte)} {st : RxState}
    (hpos : 0 < cfg.hdrsz) (hwf : ∀ c ∈ cmds, WellFormedCmd cfg c)
    (h : StreamInv cfg cmds st) : DeclaredLengthOK cfg st := by
  intro _ hh
  obtain ⟨_, _, _, hpre, _⟩ := h
  obtain ⟨c, cs, _, hc, htake, _⟩ := head_command hpos hwf hpre hh
  rw [htake, hc.2.1]
  exact hc.2.2

theorem next_pass (cfg : XpuConfig) (alloc_f : Nat → Bool) (st : RxState)
    (hpc : st.pc = .next) (hlen : DeclaredLengthOK cfg st) :
    (∃ len, cfg.hdrsz ≤ len ∧ len ≤ st.buf.length ∧
      len = cfg.length (st.buf.take cfg.hdrsz) ∧
      (rxStep cfg alloc_f st).trace
        = st.trace ++ [.alloc len (some st.nalloc), .attach st.nalloc (st.buf.take len)] ∧
      (rxStep cfg alloc_f st).count = st.count + 1 ∧
      (rxStep cfg alloc_f st).buf = st.buf.drop len ∧
      (rxStep cfg alloc_f st).sock = st.sock ∧
      ((rxStep cfg alloc_f st).pc = .next ∨
        ((rxStep cfg alloc_f st).pc = .loop ∧ (rxStep cfg alloc_f st).buf = []))) ∨
    ((rxStep cfg alloc_f st).pc = .loop ∧ (rxStep cfg alloc_f st).buf = st.buf ∧
      (rxStep cfg alloc_f st).count = st.count ∧ (rxStep cfg alloc_f st).sock = st.sock ∧
      attachesOf (rxStep cfg alloc_f st).trace = attachesOf st.trace) ∨
    ((rxStep cfg alloc_f st).pc = .abort ∨ (rxStep cfg alloc_f st).pc = .ret (-1)) := by
  obtain ⟨pc, buffer, buf, bufsz, fl, cnt, curr, na, sock, tr⟩ := st
  simp only at hpc
  subst hpc
  unfold DeclaredLengthOK at hlen
  simp only at hlen
  unfold rxStep
  simp only [rxNextStep]
  split
  · refine Or.inr (Or.inl ?_)
    split <;> exact ⟨rfl, rfl, rfl, rfl, rfl⟩
  · rename_i hhdr
    have hdecl := hlen trivial (by omega)
    split
    · rename_i hle
      split
      · exact Or.inr (Or.inr (Or.inl rfl))
      · split
        · exact Or.inr (Or.inr (Or.inr rfl))
        · refine Or.inl ⟨cfg.length (buf.take cfg.hdrsz), hdecl, hle, rfl, ?_⟩
          split
          · rename_i heq
            refine ⟨rfl, rfl, ?_, rfl, Or.inr ⟨rfl, rfl⟩⟩
            simp only [rxRestart]
            rw [heq, List.drop_length]
          · exact ⟨rfl, rfl, rfl, rfl, Or.inl rfl⟩
    · split
      · exact Or.inr (Or.inr (Or.inr rfl))
      · refine Or.inr (Or.inl ⟨rfl, rfl, rfl, rfl, ?_⟩)
        simp [attachesOf_append, attachesOf]

theorem zero_length_spins (n : Nat) :
    ∀ st : RxState, st.pc = .next → st.buf = [7, 0] →
      (rxRun tinyCfg (fun _ => true) n st).pc = .next := by
  induction n with
  | zero => intro st hpc _; exact hpc
  | succ n ih =>
    intro st hpc hbuf
    rw [rxRun_succ]
    obtain ⟨pc, buffer, buf, bufsz, fl, cnt, curr, na, sock, tr⟩ := st
    simp only at hpc hbuf
    subst hpc; subst hbuf
    apply ih
    · simp [rxStep, rxNextStep, tinyCfg]
    · simp [rxStep, rxNextStep, tinyCfg]

theorem zero_length_never_returns (fuel : Nat) :
    pgstrom_receive_xpu_command tinyCfg (fun _ => true) fuel [.data [7, 0], .eof] = none := by
  unfold pgstrom_receive_xpu_command
  cases fuel with
  | zero => rfl
  | succ n =>
    rw [rxRun_succ]
    have h := zero_length_spins n (rxStep tinyCfg (fun _ => true)
      (rxInit tinyCfg [.data [7, 0], .eof])) (by decide) (by decide)
    unfold rxResult
    rw [h]

theorem byteInv_endOfStream {cfg : XpuConfig} {total : List Byte} {st : RxState}
    (h : receivedBytes st.trace ++ sockBytes st.sock = total) :
    ByteInv cfg total (rxEndOfStream st) := by
  unfold rxEndOfStream
  split
  · exact ⟨h, fun hpc => absurd hpc (by simp)⟩
  · exact ⟨h, fun hpc => absurd hpc (by simp)⟩

theorem byteInv_step (cfg : XpuConfig) (alloc_f : Nat → Bool) (hpos : 0 < cfg.hdrsz)
    (total : List Byte) (st : RxState) (h : ByteInv cfg total st) :
    ByteInv cfg total (rxStep cfg alloc_f st) := by
  obtain ⟨pc, buffer, buf, bufsz, fl, cnt, curr, na, sock, tr⟩ := st
  obtain ⟨h1, h2⟩ := h
  simp only at h1 h2
  unfold rxStep
  cases pc with
  | ret v => exact ⟨h1, h2⟩
  | abort => exact ⟨h1, h2⟩
  | blocked => exact ⟨h1, h2⟩
  | loop =>
    have h2' := h2 rfl
    simp only [rxRecvStep]
    cases sock with
    | nil => exact ⟨h1, fun hpc => absurd hpc (by simp)⟩
    | cons o rest =>
      cases o with
      | eintr =>
        refine ⟨?_, fun _ => h2'⟩
        simp only [receivedBytes_snoc_recv, List.append_nil]
        simpa [sockBytes] using h1
      | eagain =>
        simp only
        have hb : receivedBytes (tr ++ [RxEvent.recv buffer buf.length (bufsz - buf.length) fl []])
            ++ sockBytes rest = total := by
          simp only [receivedBytes_snoc_recv, List.append_nil]
          simpa [sockBytes] using h1
        split
        · exact ⟨hb, fun hpc => absurd hpc (by simp)⟩
        · exact ⟨hb, fun _ => h2'⟩
      | error e =>
        refine ⟨?_, fun hpc => absurd hpc (by simp)⟩
        simp only [receivedBytes_snoc_recv, List.append_nil]
        simpa [sockBytes] using h1
      | eof =>
        apply byteInv_endOfStream
        simp only [receivedBytes_snoc_recv, List.append_nil]
        simpa [sockBytes] using h1
      | data bs =>
        simp only
        have hb : receivedBytes (tr ++ [RxEvent.recv buffer buf.length (bufsz - buf.length) fl
              (bs.take (bufsz - buf.length))])
            ++ sockBytes (sockAfter bs (bufsz - buf.length) rest) = total := by
          rw [receivedBytes_snoc_recv, sockBytes_sockAfter, ← h1]
          simp only [sockBytes, List.append_assoc]
          rw [← List.append_assoc (bs.take _), List.take_append_drop]
        split
        · exact byteInv_endOfStream hb
        · unfold rxGotBytes
          cases curr with
          | none => exact ⟨hb, fun hpc => absurd hpc (by simp)⟩
          | some id =>
            simp only
            split
            · split
              · exact ⟨hb, fun hpc => absurd hpc (by simp)⟩
              · split
                · exact ⟨hb, fun hpc => absurd hpc (by simp)⟩
                · refine ⟨?_, fun _ _ => ?_⟩
                  · simp only [rxRestart, receivedBytes_snoc_attach]
                    exact hb
                  · simpa [rxRestart] using hpos
            · exact ⟨hb, fun _ hc => absurd hc (by simp)⟩
  | next =>
    simp only [rxNextStep]
    split
    · rename_i hshort
      split
      · exact ⟨h1, fun _ _ => hshort⟩
      · exact ⟨h1, fun _ _ => hshort⟩
    · split
      · split
        · exact ⟨h1, fun hpc => absurd hpc (by simp)⟩
        · split
          · refine ⟨?_, fun hpc => absurd hpc (by simp)⟩
            simp only [receivedBytes_snoc_alloc]
            exact h1
          · have hb : receivedBytes (tr ++
                [RxEvent.alloc (cfg.length (buf.take cfg.hdrsz)) (some na),
                 RxEvent.attach na (buf.take (cfg.length (buf.take cfg.hdrsz)))])
                ++ sockBytes sock = total := by
              rw [receivedBytes_append]
              simpa [receivedBytes] using h1
            split
            · refine ⟨by simpa [rxRestart] using hb, fun _ _ => ?_⟩
              simpa [rxRestart] using hpos
            · exact ⟨hb, fun hpc => absurd hpc (by simp)⟩
      · split
        · refine ⟨?_, fun hpc => absurd hpc (by simp)⟩
          simp only [receivedBytes_snoc_alloc]
          exact h1
        · refine ⟨?_, fun _ hc => absurd hc (by simp)⟩
          simp only [receivedBytes_snoc_alloc]
          exact h1

theorem byteInv_run (cfg : XpuConfig) (alloc_f : Nat → Bool) (hpos : 0 < cfg.hdrsz)
    (total : List Byte) (n : Nat) :
    ∀ st : RxState, ByteInv cfg total st → ByteInv cfg total (rxRun cfg alloc_f n st) := by
  induction n with
  | zero => intro st h; exact h
  | succ n ih =>
    intro st h
    rw [rxRun_succ]
    exact ih _ (byteInv_step cfg alloc_f hpos total st h)

theorem byteInv_init (cfg : XpuConfig) (hpos : 0 < cfg.hdrsz) (sock : List RecvOutcome) :
    ByteInv cfg (sockBytes sock) (rxInit cfg sock) := by
  refine ⟨by simp [rxInit, rxRestart, receivedBytes], fun _ _ => ?_⟩
  simpa [rxInit, rxRestart] using hpos

theorem boundary_of_invs {cfg : XpuConfig} {cmds : List (List Byte)} {st : RxState}
    (hpos : 0 < cfg.hdrsz) (hwf : ∀ c ∈ cmds, WellFormedCmd cfg c)
    (hs : StreamInv cfg cmds st) (hb : ByteInv cfg cmds.flatten st) :
    BoundaryAtLastEagain st := by
  intro hpc hsock
  obtain ⟨_, _, hrecv, hpre, hcurr, _⟩ := hs
  obtain ⟨hall, hshort⟩ := hb
  rw [hsock] at hall hpre
  simp only [sockBytes, List.append_nil] at hall hpre
  have hbuf : st.buf = (cmds.drop st.count).flatten := by
    have h1 : (cmds.take st.count).flatten ++ st.buf
        = (cmds.take st.count).flatten ++ (cmds.drop st.count).flatten := by
      rw [← hrecv, hall, ← List.flatten_append, List.take_append_drop]
    exact List.append_cancel_left h1
  cases hd : cmds.drop st.count with
  | nil =>
    rw [hd] at hbuf
    simp only [List.flatten_nil] at hbuf
    refine ⟨?_, hbuf⟩
    cases hc : st.curr with
    | none => rfl
    | some id =>
      have := (hcurr id hc).1
      rw [hbuf] at this
      simp at this
      omega
  | cons c cs =>
    exfalso
    rw [hd] at hbuf
    simp only [List.flatten_cons] at hbuf
    have hc : c ∈ cmds := List.mem_of_mem_drop (by rw [hd]; simp)
    obtain ⟨_, hlenc, hhdr⟩ := hwf c hc
    have hlen : c.length ≤ st.buf.length := by rw [hbuf]; simp
    cases hcu : st.curr with
    | none =>
      have := hshort hpc hcu
      omega
    | some id =>
      obtain ⟨_, hlt, hsz⟩ := hcurr id hcu
      have htake : st.buf.take cfg.hdrsz = c.take cfg.hdrsz := by
        rw [hbuf, List.take_append_of_le_length hhdr]
      rw [htake, hlenc] at hsz
      omega

/-- C20 (decoder termination and progress).  With a header of positive size: on every
script of `recv` outcomes that ends in end-of-stream, if the `length` field of every
command the decoder comes to look at is at least the header size, the call ends (returns,
or stops at a failed `assert`) within `rxBound sock` steps, and never hangs in `recv`; the
same on a script that ends in a would-block which finds the decoder at a command
boundary.  Both conditions hold for streams of well-formed commands: any leading part of
them for the `length` fields, a whole number of commands for the boundary.  One pass
through `next:` either attaches a command and consumes its `length ≥ header size` bytes
from the buffer, or leaves to `recv` with the buffer as it is, or ends the call (failed
`assert`, `alloc_f` failure); every step of a running call lowers `rxMeasure`.  The
`length` field is not checked otherwise: on a command that declares length 0 the call
never returns. -/
theorem receive_terminates (cfg : XpuConfig) (alloc_f : Nat → Bool) (hpos : 0 < cfg.hdrsz) :
    (∀ sock, EndsIn .eof sock →
      (∀ k, k < rxBound sock →
        DeclaredLengthOK cfg (rxRun cfg alloc_f k (rxInit cfg sock))) →
      ∀ fuel, rxBound sock ≤ fuel →
        ∃ r, pgstrom_receive_xpu_command cfg alloc_f fuel sock = some r) ∧
    (∀ sock, EndsIn .eagain sock →
      (∀ k, k < rxBound sock →
        DeclaredLengthOK cfg (rxRun cfg alloc_f k (rxInit cfg sock)) ∧
        BoundaryAtLastEagain (rxRun cfg alloc_f k (rxInit cfg sock))) →
      ∀ fuel, rxBound sock ≤ fuel →
        ∃ r, pgstrom_receive_xpu_command cfg alloc_f fuel sock = some r) ∧
    (∀ cmds : List (List Byte), (∀ c ∈ cmds, WellFormedCmd cfg c) →
      ∀ sock, sockBytes sock <+: cmds.flatten →
      (∀ k, DeclaredLengthOK cfg (rxRun cfg alloc_f k (rxInit cfg sock))) ∧
      (sockBytes sock = cmds.flatten →
        ∀ k, BoundaryAtLastEagain (rxRun cfg alloc_f k (rxInit cfg sock)))) ∧
    (∀ st : RxState, st.pc = .next → DeclaredLengthOK cfg st →
      (∃ len, cfg.hdrsz ≤ len ∧ len ≤ st.buf.length ∧
        len = cfg.length (st.buf.take cfg.hdrsz) ∧
        (rxStep cfg alloc_f st).trace
          = st.trace ++ [.alloc len (some st.nalloc), .attach st.nalloc (st.buf.take len)] ∧
        (rxStep cfg alloc_f st).count = st.count + 1 ∧
        (rxStep cfg alloc_f st).buf = st.buf.drop len ∧
        (rxStep cfg alloc_f st).sock = st.sock ∧
        ((rxStep cfg alloc_f st).pc = .next ∨
          ((rxStep cfg alloc_f st).pc = .loop ∧ (rxStep cfg alloc_f st).buf = []))) ∨
      ((rxStep cfg alloc_f st).pc = .loop ∧ (rxStep cfg alloc_f st).buf = st.buf ∧
        (rxStep cfg alloc_f st).count = st.count ∧ (rxStep cfg alloc_f st).sock = st.sock ∧
        attachesOf (rxStep cfg alloc_f st).trace = attachesOf st.trace) ∨
      ((rxStep cfg alloc_f st).pc = .abort ∨ (rxStep cfg alloc_f st).pc = .ret (-1))) ∧
    (∀ st : RxState, RxRunning st → DeclaredLengthOK cfg st →
      ¬ RxRunning (rxStep cfg alloc_f st) ∨
      rxMeasure (rxStep cfg alloc_f st) < rxMeasure st) ∧
    (∀ fuel, pgstrom_receive_xpu_command tinyCfg (fun _ => true) fuel [.data [7, 0], .eof]
      = none) := by
  refine ⟨?_, ?_, ?_, ?_, ?_, zero_length_never_returns⟩
  · intro sock hends hk fuel hfuel
    exact receive_halts cfg alloc_f hpos .eof sock hends
      (fun k hlt => ⟨hk k hlt, fun hpc hs => last_eof_ends cfg alloc_f _ hpc hs⟩) fuel hfuel
  · intro sock hends hk fuel hfuel
    exact receive_halts cfg alloc_f hpos .eagain sock hends
      (fun k hlt => ⟨(hk k hlt).1,
        fun hpc hs => last_eagain_ends cfg alloc_f _ (hk k hlt).2 hpc hs⟩) fuel hfuel
  · intro cmds hwf sock hs
    have hinv : ∀ k, StreamInv cfg cmds (rxRun cfg alloc_f k (rxInit cfg sock)) :=
      fun k => streamInv_run cfg alloc_f cmds hpos hwf k _ (streamInv_init cfg cmds sock hs)
    refine ⟨fun k => declared_of_streamInv hpos hwf (hinv k), fun hall k => ?_⟩
    have hbi := byteInv_run cfg alloc_f hpos _ k _ (byteInv_init cfg hpos sock)
    rw [hall] at hbi
    exact boundary_of_invs hpos hwf (hinv k) hbi
  · intro st hpc hlen
    exact next_pass cfg alloc_f st hpc hlen
  · intro st hrun hlen
    exact rxStep_measure cfg alloc_f hpos st hlen hrun

theorem receive_terminates_witness :
    (∃ r, pgstrom_receive_xpu_command tinyCfg (fun _ => true) 25
        [.data [7, 3], .eagain, .eintr, .data [9, 7, 2], .data [7], .eof] = some r) ∧
    (∃ r, pgstrom_receive_xpu_command tinyCfg (fun _ => true) 20
        [.data [7, 3, 9, 7], .eintr, .data [2], .eagain] = some r) :=
  ⟨(receive_terminates tinyCfg (fun _ => true) (by decide)).1
      [.data [7, 3], .eagain, .eintr, .data [9, 7, 2], .data [7], .eof]
      ⟨[.data [7, 3], .eagain, .eintr, .data [9, 7, 2], .data [7]], rfl⟩ (by decide) 25
      (by decide),
   (receive_terminates tinyCfg (fun _ => true) (by decide)).2.1
      [.data [7, 3, 9, 7], .eintr, .data [2], .eagain]
      ⟨[.data [7, 3, 9, 7], .eintr, .data [2]], rfl⟩ (by decide) 20 (by decide)⟩

end PgStrom
